import Mathlib

/-!
Shallow embedding of the party-event core (team allocation, matchup
generation, score mutators) of this repository, translated from
`src/App.tsx`, `src/components/RaffleSystem.tsx` and
`src/components/LotteryPhase.tsx`, together with theorems settling the
frozen claims about it.

Modelling conventions:
* JS numbers holding scores are modelled as `Int` (the code only adds
  integer deltas and clamps at zero).
* The unseeded `[...arr].sort(() => Math.random() - 0.5)` shuffles are
  modelled by an explicit `Shuffler` parameter: a family of functions,
  one per call site tag, each required (where a theorem needs it) to
  produce a permutation of its input, which is exactly what a JS sort
  with an inconsistent comparator produces.
* `localeCompare(..., { sensitivity: 'base' })` on names is modelled as
  case-insensitive (uppercased, code-point) lexicographic comparison.
-/

namespace Squid

open List (Perm)
open scoped List

/-- `Gender` enum from `src/types.ts`. -/
inductive Gender where
  | male
  | female
  | nonBinary
deriving DecidableEq, Repr

/-- `Player` record from `src/types.ts`. -/
structure Player where
  id : String
  name : String
  gender : Gender
  score : Int
  noGenderRestriction : Bool
  isHelper : Bool
deriving DecidableEq, Repr

/-- `TeamColor` enum from `src/types.ts`. -/
inductive TeamColor where
  | red
  | blue
  | green
  | yellow
  | pink
  | purple
deriving DecidableEq, Repr

/-- `Object.values(TeamColor)`: the fixed color order used everywhere. -/
def teamColorsList : List TeamColor :=
  [.red, .blue, .green, .yellow, .pink, .purple]

/-- `Team` record from `src/types.ts` (the `hex` field is carried along
untouched by the core, as in the source). -/
structure Team where
  color : TeamColor
  members : List Player
  hex : String
  score : Int
deriving DecidableEq, Repr

/-- One `(color, player-or-null)` cell of a round (`MatchupPlayer`). -/
structure MatchupPlayer where
  color : TeamColor
  player : Option Player
deriving DecidableEq, Repr

/-- A round of the playing order (`Matchup`). -/
structure Matchup where
  id : Nat
  players : List MatchupPlayer
deriving DecidableEq, Repr

/-- The team the code looks up for a color: `teams.find(t => t.color === c)`. -/
def teamFor (teams : List Team) (c : TeamColor) : Option Team :=
  teams.find? (fun t => t.color = c)

/-- Member list of the team of color `c`; a missing color yields the
empty list, exactly as `team ? [...team.members] : []` in the source. -/
def membersOf (teams : List Team) (c : TeamColor) : List Player :=
  match teamFor teams c with
  | some t => t.members
  | none => []

/-! ## Score mutators (`src/App.tsx`, `updateTeamScore` / `updatePlayerScore`) -/

/-- `updateTeamScore(teamColor, delta)` from `src/App.tsx`. -/
def updateTeamScore (teams : List Team) (teamColor : TeamColor) (delta : Int) : List Team :=
  teams.map (fun t =>
    if t.color = teamColor then { t with score := max 0 (t.score + delta) } else t)

/-- `updatePlayerScore(teamColor, playerId, delta)` from `src/App.tsx`:
the targeted player's score is clamped at zero, and the enclosing team's
score is moved by the actually applied player delta — and itself clamped
at zero. The applied team delta is the one of the last matching member,
mirroring the JS `teamDelta` reassignment. -/
def updatePlayerScore (teams : List Team) (teamColor : TeamColor) (playerId : String)
    (delta : Int) : List Team :=
  teams.map (fun t =>
    if t.color = teamColor then
      let teamDelta :=
        t.members.foldl (fun acc m =>
          if m.id = playerId then max 0 (m.score + delta) - m.score else acc) 0
      let newMembers := t.members.map (fun m =>
        if m.id = playerId then { m with score := max 0 (m.score + delta) } else m)
      { t with members := newMembers, score := max 0 (t.score + teamDelta) }
    else t)

/-! ## Gender target calculator (`buildGenderTargets`, `src/components/RaffleSystem.tsx`) -/

/-- `createGenderCount()` zero record, as a function on genders. -/
def createGenderCount : Gender → Nat := fun _ => 0

/-- Count of non-flexible players of gender `g`
(`genderTotals` in `buildGenderTargets`). -/
def genderTotal (players : List Player) (g : Gender) : Nat :=
  (players.filter (fun p => !p.noGenderRestriction && p.gender = g)).length

/-- Target count written into the template for the team at position `idx`
of the color list: `base + (idx < remainder ? 1 : 0)`, with the explicit
`total == 0` early-out of the source. -/
def targetAt (players : List Player) (colorCount : Nat) (idx : Nat) (g : Gender) : Nat :=
  let total := genderTotal players g
  if total = 0 then 0
  else total / colorCount + (if idx < total % colorCount then 1 else 0)

/-- `buildGenderTargets(players)`: the record built over the configured
color list, represented as an association list keyed by color (one entry
per configured color, in color order). `colors` is the configured
`TEAM_COLORS_LIST`; the app instantiates it with `teamColorsList`. -/
def buildGenderTargets (colors : List TeamColor) (players : List Player) :
    List (TeamColor × (Gender → Nat)) :=
  if colors.length = 0 then colors.map (fun c => (c, createGenderCount))
  else colors.enum.map (fun ic => (ic.2, fun g => targetAt players colors.length ic.1 g))

/-- Lookup into the targets record with the `|| createGenderCount()`
default used by `pickBatch`. -/
def targetsLookup (targets : List (TeamColor × (Gender → Nat))) (c : TeamColor) :
    Gender → Nat :=
  match targets.find? (fun e => e.1 = c) with
  | some e => e.2
  | none => createGenderCount

/-- `GENDER_KEYS` iteration order. -/
def genderKeys : List Gender := [.male, .female, .nonBinary]

/-! ## Randomness model

Every `[...arr].sort(() => Math.random() - 0.5)` call in the source is
replaced by an application of a `Shuffler` at a distinct call-site tag.
`Shuffler.Fair` states what such a JS sort always guarantees: the output
is a permutation of the input. -/

/-- `HelperInfo` record of the matchup engine (declared here because the
shuffler also acts on lists of these). -/
structure HelperInfo where
  player : Player
  teamColor : TeamColor
  totalPlayers : Nat
deriving DecidableEq, Repr

/-- One pseudo-random shuffle function per call-site tag, for the two
list element types the source shuffles. -/
structure Shuffler where
  sh : Nat → List Player → List Player
  shInfo : Nat → List HelperInfo → List HelperInfo

/-- A shuffler is fair when each call returns a permutation of its input. -/
def Shuffler.Fair (s : Shuffler) : Prop :=
  (∀ n l, s.sh n l ~ l) ∧ (∀ n l, s.shInfo n l ~ l)

/-- The trivial shuffler that leaves every list unchanged (used to build
concrete witnesses; it is `Fair`). -/
def idShuffler : Shuffler := ⟨fun _ l => l, fun _ l => l⟩

theorem idShuffler_fair : idShuffler.Fair :=
  ⟨fun _ _ => List.Perm.refl _, fun _ _ => List.Perm.refl _⟩

/-! ## Team allocation engine (`pickBatch` / `quickFinish`,
`src/components/RaffleSystem.tsx` lines 607-674 and 1025-1050) -/

/-- Per-team gender-based size: the sum of the team's gender targets
(`genderBasedSize` in `pickBatch`). -/
def genderBasedSizeOf (target : Gender → Nat) : Nat :=
  (genderKeys.map target).sum

/-- Call-site tag of the gender-pick shuffle for a color/gender pair. -/
def colorGenderTag (c : TeamColor) (g : Gender) : Nat :=
  (teamColorsList.indexOf c) * 3 + (genderKeys.indexOf g)

/-- Call-site tag of the flexible-pick shuffle for a color. -/
def flexTag (c : TeamColor) : Nat := 100 + teamColorsList.indexOf c

/-- `assignedCounts` of `pickBatch`: gender tally of the team's already
assigned non-flexible members. -/
def assignedCountsOf (snapshotTeams : List Team) (color : TeamColor) (g : Gender) : Nat :=
  ((membersOf snapshotTeams color).filter
    (fun m => !m.noGenderRestriction && m.gender = g)).length

/-- `neededCounts` of `pickBatch`: `max(target - assigned, 0)` (the
clamp is the truncation of natural subtraction). -/
def neededCountsOf (genderTargets : List (TeamColor × (Gender → Nat)))
    (snapshotTeams : List Team) (color : TeamColor) (g : Gender) : Nat :=
  targetsLookup genderTargets color g - assignedCountsOf snapshotTeams color g

/-- `maxGenderBasedSize` of `pickBatch`: the largest gender-based team
size across the configured colors. -/
def maxGenderBasedSize (colors : List TeamColor)
    (genderTargets : List (TeamColor × (Gender → Nat))) : Nat :=
  (colors.map (fun c => genderBasedSizeOf (targetsLookup genderTargets c))).foldl max 0

/-- One iteration of the per-gender picking loop of `pickBatch`,
threading the JS `usedIds` set (as the id list of the batch so far) and
the batch. -/
def pickStep (s : Shuffler) (pool : List Player) (neededCounts : Gender → Nat)
    (color : TeamColor) (st : List String × List Player) (g : Gender) :
    List String × List Player :=
  let needed := neededCounts g
  if needed = 0 then st
  else
    let available := pool.filter (fun p =>
      p.gender = g && !st.1.contains p.id && !p.noGenderRestriction)
    let picks := (s.sh (colorGenderTag color g) available).take needed
    (st.1 ++ picks.map Player.id, st.2 ++ picks)

/-- `pickBatch(pool, color, snapshotTeams)` from the richest lottery
variant (`src/components/RaffleSystem.tsx`): fill each gender up to its
needed target from the non-flexible pool, then fill this team's shortage
against the largest gender-based team size from the flexible pool. -/
def pickBatch (s : Shuffler) (colors : List TeamColor)
    (genderTargets : List (TeamColor × (Gender → Nat)))
    (pool : List Player) (color : TeamColor) (snapshotTeams : List Team) : List Player :=
  let targetByGender := targetsLookup genderTargets color
  let genderBasedSize := genderBasedSizeOf targetByGender
  let st := genderKeys.foldl
    (pickStep s pool (neededCountsOf genderTargets snapshotTeams color) color) ([], [])
  let usedIds := st.1
  let batch := st.2
  let thisTeamShortage : Int :=
    (maxGenderBasedSize colors genderTargets : Int) - (genderBasedSize : Int)
  let flexibleInPool := pool.filter (fun p => p.noGenderRestriction && !usedIds.contains p.id)
  if 0 < thisTeamShortage ∧ 0 < flexibleInPool.length then
    let flexibleNeeded := min thisTeamShortage.toNat flexibleInPool.length
    let flexiblePicks := (s.sh (flexTag color) flexibleInPool).take flexibleNeeded
    batch ++ flexiblePicks
  else batch

/-- One iteration of the `quickFinish` forEach: the team of the current
color takes `pickBatch` (or, for the last remaining color, the whole
pool), and assigned players leave the pool by id. `total` is the number
of remaining colors. -/
def quickStep (s : Shuffler) (colors : List TeamColor)
    (genderTargets : List (TeamColor × (Gender → Nat))) (total : Nat)
    (st : List Player × List Team) (ic : Nat × TeamColor) : List Player × List Team :=
  let currentPool := st.1
  let currentTeams := st.2
  let isLast := ic.1 = total - 1
  let winners :=
    if isLast then currentPool
    else pickBatch s colors genderTargets currentPool ic.2 currentTeams
  let newTeams := currentTeams.map (fun t =>
    if t.color = ic.2 then { t with members := winners } else t)
  let winnerIds := winners.map Player.id
  (currentPool.filter (fun p => !winnerIds.contains p.id), newTeams)

/-- `quickFinish` (`src/components/RaffleSystem.tsx`), run from scratch:
teams start empty (one per configured color), the pool is the roster.
Each remaining color in order takes `pickBatch`, the last takes the
whole remaining pool; assigned players are filtered out of the pool by
id after each step. -/
def quickFinish (s : Shuffler) (colors : List TeamColor) (roster : List Player) : List Team :=
  let genderTargets := buildGenderTargets colors roster
  let initialTeams : List Team := colors.map (fun c => ⟨c, [], "", 0⟩)
  let remainingColors := colors.filter (fun c => (membersOf initialTeams c).length = 0)
  let final := remainingColors.enum.foldl
    (quickStep s colors genderTargets remainingColors.length) (roster, initialTeams)
  final.2

/-! ## Matchup generation engine (`generateMatchups`, `src/App.tsx` lines 148-685) -/

/-- `findGame1Anchor()`: scan teams in fixed color order, return the
first flexible player found. -/
def findGame1Anchor (teams : List Team) : Option Player :=
  teamColorsList.findSome? (fun c => (membersOf teams c).find? (fun m => m.noGenderRestriction))

/-- `isAnchor(player)` relative to the optional anchor. -/
def isAnchorP (anchor : Option Player) (p : Player) : Bool :=
  match anchor with
  | some a => p.id = a.id
  | none => false

/-- `getHelperBaseSlotConfig(gender)` from `src/App.tsx`. -/
def getHelperBaseSlotConfig (anchor : Option Player) (g : Gender) : Option Nat × Option Nat :=
  if g = .nonBinary then (none, none)
  else
    let isStartGender : Bool := match anchor with | some a => a.gender = g | none => false
    if anchor.isSome ∧ isStartGender then (none, some 2) else (some 0, some 2)

/-- `getHelperSlotConfig(gender, totalPlayers)` from `src/App.tsx`:
clamp the base early/late indices to the team size, resolving collisions
and keeping start-gender helpers out of Game 1. -/
def getHelperSlotConfig (anchor : Option Player) (g : Gender) (totalPlayers : Nat) :
    Option Nat × Option Nat :=
  let base := getHelperBaseSlotConfig anchor g
  if base.1 = none ∧ base.2 = none then (none, none)
  else
    let earlyIndex : Option Nat :=
      match base.1 with
      | some e => if 0 < totalPlayers ∧ e < totalPlayers then some e else none
      | none => none
    let isStartGender : Bool := match anchor with | some a => a.gender = g | none => false
    let lateIndex0 : Option Nat :=
      match base.2 with
      | some l => if 2 ≤ totalPlayers then some (min l (totalPlayers - 1)) else none
      | none => none
    let lateIndex1 : Option Nat :=
      match lateIndex0, earlyIndex with
      | some l, some e =>
        if l = e then
          if anchor.isSome ∧ isStartGender then none
          else if 2 ≤ totalPlayers then (if e = 0 then some 1 else some 0) else none
        else some l
      | some l, none => some l
      | none, _ => none
    let lateIndex2 : Option Nat :=
      match lateIndex1 with
      | some l => if anchor.isSome ∧ isStartGender ∧ l = 0 then none else some l
      | none => none
    (earlyIndex, lateIndex2)

/-- The two helper buckets. -/
inductive HelperBucket where
  | early
  | late
deriving DecidableEq, Repr

/-- Per-color gender-specific members (anchor counts as gender-specific). -/
def genderSpecificOf (anchor : Option Player) (teams : List Team) (c : TeamColor) :
    List Player :=
  (membersOf teams c).filter (fun m => !m.noGenderRestriction || isAnchorP anchor m)

/-- Per-color flexible members (anchor excluded). -/
def flexibleRawOf (anchor : Option Player) (teams : List Team) (c : TeamColor) : List Player :=
  (membersOf teams c).filter (fun m => m.noGenderRestriction && !isAnchorP anchor m)

/-- `malesAll` / `femalesAll` / `nonBinaryAll` for a color. -/
def genderAllOf (anchor : Option Player) (teams : List Team) (c : TeamColor) (g : Gender) :
    List Player :=
  (genderSpecificOf anchor teams c).filter (fun m => m.gender = g)

/-- `lockedFirstByTeamAndGender[color][gender]`: the anchor, when it sits
in this color and gender pool. -/
def lockedOf (anchor : Option Player) (teams : List Team) (c : TeamColor) (g : Gender) :
    Option Player :=
  (genderAllOf anchor teams c g).find? (fun p => isAnchorP anchor p)

/-- `pendingPools[color]` gender list: the gender pool minus the locked
anchor (which is prepended back after ordering). -/
def pendingOf (anchor : Option Player) (teams : List Team) (c : TeamColor) (g : Gender) :
    List Player :=
  match lockedOf anchor teams c g with
  | some lm => (genderAllOf anchor teams c g).filter (fun p => !(p.id = lm.id))
  | none => genderAllOf anchor teams c g

/-- `genderCountsByTeam[color][gender]` (counts include the anchor). -/
def genderCountOf (anchor : Option Player) (teams : List Team) (c : TeamColor) (g : Gender) :
    Nat :=
  (genderAllOf anchor teams c g).length

/-- `helperInfosByGender[gender]`: helpers of that gender (anchor
excluded), pushed while scanning colors in fixed order. -/
def helperInfosFor (anchor : Option Player) (teams : List Team) (g : Gender) :
    List HelperInfo :=
  teamColorsList.flatMap (fun c =>
    ((genderAllOf anchor teams c g).filter (fun p => p.isHelper && !isAnchorP anchor p)).map
      (fun p => ⟨p, c, genderCountOf anchor teams c g⟩))

/-- Uppercased character sequence of a name: the model of
case-insensitive (`sensitivity: base`) comparison. -/
def upperChars (str : String) : List Char := str.toList.map Char.toUpper

/-- `name.trim().charAt(0).toUpperCase() || backslash-u0000`. -/
def firstCharKey (str : String) : Char :=
  match str.trim.toList with
  | [] => Char.ofNat 0
  | c :: _ => c.toUpper

/-- Three-way comparison of code points. -/
def cmpNat (a b : Nat) : Ordering :=
  if a < b then .lt else if b < a then .gt else .eq

/-- Lexicographic comparison of character lists by code point. -/
def cmpChars : List Char → List Char → Ordering
  | [], [] => .eq
  | [], _ :: _ => .lt
  | _ :: _, [] => .gt
  | a :: as, b :: bs =>
    match cmpNat a.toNat b.toNat with
    | .eq => cmpChars as bs
    | o => o

/-- The selection key order of `pickGame1HelperId`: first letter
(case-insensitive), tie-broken by the full name (case-insensitive);
`cmpKey a b = .gt` means `a` sorts before `b` in the Z-to-A order. -/
def cmpKey (a b : HelperInfo) : Ordering :=
  match cmpNat (firstCharKey a.player.name).toNat (firstCharKey b.player.name).toNat with
  | .eq => cmpChars (upperChars a.player.name) (upperChars b.player.name)
  | o => o

/-- `pickGame1HelperId(gender)` without the trailing `.id` projection:
the first maximal element of the helper list under `cmpKey`, which is
what a stable descending sort followed by `[0]` produces. -/
def pickGame1Helper (infos : List HelperInfo) : Option HelperInfo :=
  match infos with
  | [] => none
  | h :: t => some (t.foldl (fun best x => if cmpKey x best = .gt then x else best) h)

/-- `pickGame1HelperId(gender)` from `src/App.tsx`. -/
def pickGame1HelperId (infos : List HelperInfo) : Option String :=
  (pickGame1Helper infos).map (fun i => i.player.id)

/-- `helperBucketCapacities[gender]`: how many teams expose an early
slot and how many a late slot for this gender. -/
def helperCapacity (anchor : Option Player) (teams : List Team) (g : Gender) : Nat × Nat :=
  (teamColorsList.countP (fun c =>
      ((getHelperSlotConfig anchor g (genderCountOf anchor teams c g)).1).isSome),
   teamColorsList.countP (fun c =>
      ((getHelperSlotConfig anchor g (genderCountOf anchor teams c g)).2).isSome))

/-- Lookup in the `helperBucketAssignments` object. -/
def bucketLookup (assignments : List (String × HelperBucket)) (pid : String) :
    Option HelperBucket :=
  (assignments.find? (fun e => e.1 = pid)).map (fun e => e.2)

/-- The late-bucket for-loop of `assignBucketsForGender`, with its
`break` on reaching the target and `continue` on an already used team. -/
def lateLoop (target : Nat) :
    List HelperInfo → Nat → List TeamColor → List (String × HelperBucket) →
      List (String × HelperBucket)
  | [], _, _, a => a
  | i :: rest, picked, used, a =>
    if target ≤ picked then a
    else if used.contains i.teamColor then lateLoop target rest picked used a
    else lateLoop target rest (picked + 1) (i.teamColor :: used) ((i.player.id, .late) :: a)

/-- `assignBucketsForGender(gender)` from `src/App.tsx`: split the
non-Game-1 helpers of a gender into late and early buckets. The JS
consults `usedEarlyTeams` inside the early `remaining` filter, but that
set is still empty when the filter runs, so the check is vacuous and is
dropped here. -/
def assignBucketsForGender (s : Shuffler) (anchor : Option Player) (teams : List Team)
    (g1HelperId : Option String) (g : Gender)
    (assignments : List (String × HelperBucket)) : List (String × HelperBucket) :=
  let infosAll := helperInfosFor anchor teams g
  let infos := infosAll.filter (fun i =>
    match g1HelperId with
    | some hid => !(i.player.id = hid)
    | none => true)
  if infos.length = 0 then assignments
  else
    let cap := helperCapacity anchor teams g
    let randomized := s.shInfo (450 + genderKeys.indexOf g) infos
    let isStartGender : Bool := match anchor with | some a => a.gender = g | none => false
    if anchor.isSome ∧ isStartGender then
      if 0 < cap.2 then
        let lateEligible := randomized.filter (fun i =>
          ((getHelperSlotConfig anchor g i.totalPlayers).2).isSome)
        let lateTarget := min infos.length (min cap.2 lateEligible.length)
        if 0 < lateTarget then
          lateLoop lateTarget (s.shInfo (455 + genderKeys.indexOf g) lateEligible) 0 []
            assignments
        else assignments
      else assignments
    else
      let afterLate :=
        if 0 < cap.2 then
          let lateEligible := randomized.filter (fun i =>
            ((getHelperSlotConfig anchor g i.totalPlayers).2).isSome)
          let lateTarget := min (infos.length / 2) (min cap.2 lateEligible.length)
          if 0 < lateTarget then
            (lateLoop lateTarget (s.shInfo (460 + genderKeys.indexOf g) lateEligible) 0 []
               assignments,
             lateTarget)
          else (assignments, 0)
        else (assignments, 0)
      let a2 := afterLate.1
      let lateAssigned := afterLate.2
      if 0 < cap.1 then
        let remaining := randomized.filter (fun i =>
          (bucketLookup a2 i.player.id).isNone &&
          ((getHelperSlotConfig anchor g i.totalPlayers).1).isSome)
        let desiredEarly := min (infos.length - lateAssigned) (min cap.1 remaining.length)
        (remaining.take desiredEarly).foldl
          (fun a i => (i.player.id, HelperBucket.early) :: a) a2
      else a2

/-- The slot-filling loop of `buildOrderedList`: walk indices `idx` for
`k` remaining slots, placing the Game-1 pick at 0, the early pick at the
early index, the late pick at the late index, and popping the shuffled
remainder elsewhere (a hole where the remainder is exhausted). -/
def placeSlots (g1 ep lp : Option Player) (e l : Option Nat) :
    Nat → Nat → List Player → List (Option Player)
  | 0, _, _ => []
  | k + 1, idx, pool =>
    if g1.isSome ∧ idx = 0 then g1 :: placeSlots g1 ep lp e l k (idx + 1) pool
    else if e = some idx ∧ ep.isSome then ep :: placeSlots g1 ep lp e l k (idx + 1) pool
    else if l = some idx ∧ lp.isSome then lp :: placeSlots g1 ep lp e l k (idx + 1) pool
    else
      match pool with
      | [] => none :: placeSlots g1 ep lp e l k (idx + 1) []
      | p :: ps => some p :: placeSlots g1 ep lp e l k (idx + 1) ps

/-- `buildOrderedList(players, gender)` from `src/App.tsx`. The color
parameter only selects shuffle call-site tags. -/
def buildOrderedList (s : Shuffler) (anchor : Option Player) (g1HelperId : Option String)
    (assignments : List (String × HelperBucket)) (c : TeamColor) (g : Gender)
    (players : List Player) : List Player :=
  if players.length = 0 then []
  else
    let cIdx := teamColorsList.indexOf c
    let gIdx := genderKeys.indexOf g
    let cfg := getHelperSlotConfig anchor g players.length
    if cfg.1 = none ∧ cfg.2 = none then s.sh (300 + cIdx * 5 + gIdx) players
    else
      let shuffled := s.sh (330 + cIdx * 5 + gIdx) players
      let helpers := shuffled.filter (fun p => p.isHelper)
      let regulars := shuffled.filter (fun p => !p.isHelper)
      let isStartGender : Bool := match anchor with | some a => a.gender = g | none => false
      let game1Pick : Option Player :=
        if isStartGender then
          match g1HelperId with
          | some hid => helpers.find? (fun h => h.id = hid)
          | none => none
        else none
      let helpersForBuckets : List Player :=
        match game1Pick with
        | some gp => helpers.filter (fun h : Player => !(h.id = gp.id))
        | none => helpers
      let bucketedEarly := helpersForBuckets.filter
        (fun h => bucketLookup assignments h.id = some HelperBucket.early)
      let bucketedLate := helpersForBuckets.filter
        (fun h => bucketLookup assignments h.id = some HelperBucket.late)
      let earlyPick := if cfg.1.isSome then bucketedEarly.head? else none
      let latePick :=
        if cfg.2.isSome then
          match earlyPick with
          | some ep => bucketedLate.find? (fun h => !(h.id = ep.id))
          | none => bucketedLate.head?
        else none
      let spilloverHelpers := helpersForBuckets.filter (fun h =>
        (match earlyPick with | some ep => !(h.id = ep.id) | none => true) &&
        (match latePick with | some lp => !(h.id = lp.id) | none => true))
      let remainingPool :=
        if isStartGender then
          s.sh (360 + cIdx * 5 + gIdx) regulars ++ s.sh (390 + cIdx * 5 + gIdx) spilloverHelpers
        else
          s.sh (420 + cIdx * 5 + gIdx) (regulars ++ spilloverHelpers)
      (placeSlots game1Pick earlyPick latePick cfg.1 cfg.2 players.length 0
        remainingPool).filterMap id

/-- The finished per-color gender pool of `poolsByColor`: the ordered
list with the locked anchor prepended. -/
def teamPoolGender (s : Shuffler) (anchor : Option Player) (g1HelperId : Option String)
    (assignments : List (String × HelperBucket)) (teams : List Team) (c : TeamColor)
    (g : Gender) : List Player :=
  let base := buildOrderedList s anchor g1HelperId assignments c g (pendingOf anchor teams c g)
  match lockedOf anchor teams c g with
  | some lm => lm :: base
  | none => base

/-- The finished per-color flexible queue of `poolsByColor`: the pending
flexible list (already shuffled once) shuffled again. -/
def teamPoolFlex (s : Shuffler) (anchor : Option Player) (teams : List Team) (c : TeamColor) :
    List Player :=
  s.sh (210 + teamColorsList.indexOf c) (s.sh (200 + teamColorsList.indexOf c)
    (flexibleRawOf anchor teams c))

/-- The row-emission context: the finalized per-color gender lists and
the row totals (`maxCounts`). -/
structure MatchCtx where
  malesL : TeamColor → List Player
  femalesL : TeamColor → List Player
  nonBinaryL : TeamColor → List Player
  M : Nat
  F : Nat
  NB : Nat

/-- `flexibleQueues`, one mutable queue per team color. -/
structure FlexQueues where
  red : List Player
  blue : List Player
  green : List Player
  yellow : List Player
  pink : List Player
  purple : List Player
deriving DecidableEq, Repr

def FlexQueues.get (q : FlexQueues) : TeamColor → List Player
  | .red => q.red
  | .blue => q.blue
  | .green => q.green
  | .yellow => q.yellow
  | .pink => q.pink
  | .purple => q.purple

def FlexQueues.set (q : FlexQueues) : TeamColor → List Player → FlexQueues
  | .red, l => { q with red := l }
  | .blue, l => { q with blue := l }
  | .green, l => { q with green := l }
  | .yellow, l => { q with yellow := l }
  | .pink, l => { q with pink := l }
  | .purple, l => { q with purple := l }

/-- `shift()` every queue once (the extra-rows loop). -/
def FlexQueues.popAll (q : FlexQueues) : FlexQueues :=
  ⟨q.red.tail, q.blue.tail, q.green.tail, q.yellow.tail, q.pink.tail, q.purple.tail⟩

/-- Total number of queued flexible players. -/
def FlexQueues.total (q : FlexQueues) : Nat :=
  q.red.length + q.blue.length + q.green.length + q.yellow.length + q.pink.length +
    q.purple.length

/-- The gender list of a pool addressed by a row-gender key. -/
def genderArrayOf (ctx : MatchCtx) (c : TeamColor) : Gender → List Player
  | .male => ctx.malesL c
  | .female => ctx.femalesL c
  | .nonBinary => ctx.nonBinaryL c

/-- `findIndex` plus `splice(i, 1)`: remove the first player satisfying
the predicate from a queue. -/
def extractFirst (pred : Player → Bool) : List Player → Option Player × List Player
  | [] => (none, [])
  | p :: ps =>
    if pred p then (some p, ps)
    else
      let r := extractFirst pred ps
      (r.1, p :: r.2)

/-- `getNextPlayer(pool, gender, currentIndex)` from `src/App.tsx`:
the gender list entry at the index if it exists, otherwise the first
same-gender flexible player popped from this team's queue. -/
def getNextPlayer (ctx : MatchCtx) (c : TeamColor) (g : Gender) (i : Nat) (fq : FlexQueues) :
    Option Player × FlexQueues :=
  let arr := genderArrayOf ctx c g
  match arr[i]? with
  | some p => (some p, fq)
  | none =>
    let r := extractFirst (fun p => p.gender = g) (fq.get c)
    match r.1 with
    | some p => (some p, fq.set c r.2)
    | none => (none, fq)

/-- Build one row: one `getNextPlayer` cell per color in fixed order,
threading the flexible queues. -/
def buildRow (ctx : MatchCtx) (g : Gender) (i : Nat) (fq : FlexQueues) :
    List MatchupPlayer × FlexQueues :=
  teamColorsList.foldl (fun st c =>
    let r := getNextPlayer ctx c g i st.2
    (st.1 ++ [⟨c, r.1⟩], r.2)) ([], fq)

/-- Push a row unless all of its cells are null
(`rowPlayers.some(entry => entry.player)`). -/
def pushRow (acc : List Matchup) (row : List MatchupPlayer) : List Matchup :=
  if row.any (fun e => e.player.isSome) then acc ++ [⟨acc.length + 1, row⟩] else acc

/-- The male/female alternation while-loop of `generateMatchups`,
fuelled (the caller passes fuel at least the number of remaining rows,
so the guard, not the fuel, ends the loop). -/
def emitLoop (ctx : MatchCtx) :
    Nat → Nat → Nat → Nat → Bool → FlexQueues → List Matchup → List Matchup × FlexQueues
  | 0, _, _, _, _, fq, acc => (acc, fq)
  | fuel + 1, m, f, nb, pm, fq, acc =>
    if m < ctx.M ∨ f < ctx.F ∨ nb < ctx.NB then
      if pm ∧ m < ctx.M then
        let r := buildRow ctx .male m fq
        emitLoop ctx fuel (m + 1) f nb false r.2 (pushRow acc r.1)
      else if ¬pm ∧ f < ctx.F then
        let r := buildRow ctx .female f fq
        emitLoop ctx fuel m (f + 1) nb true r.2 (pushRow acc r.1)
      else if m < ctx.M then
        let r := buildRow ctx .male m fq
        emitLoop ctx fuel (m + 1) f nb pm r.2 (pushRow acc r.1)
      else if f < ctx.F then
        let r := buildRow ctx .female f fq
        emitLoop ctx fuel m (f + 1) nb pm r.2 (pushRow acc r.1)
      else if nb < ctx.NB then
        let r := buildRow ctx .nonBinary nb fq
        emitLoop ctx fuel m f (nb + 1) pm r.2 (pushRow acc r.1)
      else (acc, fq)
    else (acc, fq)

/-- The extra-rows loop draining leftover flexible players, fuelled by
the total queue length. -/
def drainFlex : Nat → FlexQueues → List Matchup → List Matchup
  | 0, _, acc => acc
  | fuel + 1, fq, acc =>
    if teamColorsList.any (fun c => !(fq.get c).isEmpty) then
      let row := teamColorsList.map (fun c => MatchupPlayer.mk c (fq.get c).head?)
      drainFlex fuel fq.popAll (pushRow acc row)
    else acc

/-- The single global anchor of a team snapshot. -/
def anchorOf (teams : List Team) : Option Player := findGame1Anchor teams

/-- The single global Game-1 helper id (`game1HelperId` in
`generateMatchups`): picked once, only when an anchor exists. -/
def game1HelperIdOf (teams : List Team) : Option String :=
  match anchorOf teams with
  | some a => pickGame1HelperId (helperInfosFor (anchorOf teams) teams a.gender)
  | none => none

/-- The helper bucket assignments: male buckets first, then female, as
in `assignBucketsForGender(Gender.Male); assignBucketsForGender(Gender.Female)`. -/
def assignmentsOf (s : Shuffler) (teams : List Team) : List (String × HelperBucket) :=
  assignBucketsForGender s (anchorOf teams) teams (game1HelperIdOf teams) .female
    (assignBucketsForGender s (anchorOf teams) teams (game1HelperIdOf teams) .male [])

/-- The finalized emission context (`poolsByColor` plus `maxCounts`). -/
def matchCtxOf (s : Shuffler) (teams : List Team) : MatchCtx :=
  let malesL := fun c =>
    teamPoolGender s (anchorOf teams) (game1HelperIdOf teams) (assignmentsOf s teams) teams c
      .male
  let femalesL := fun c =>
    teamPoolGender s (anchorOf teams) (game1HelperIdOf teams) (assignmentsOf s teams) teams c
      .female
  let nonBinaryL := fun c =>
    teamPoolGender s (anchorOf teams) (game1HelperIdOf teams) (assignmentsOf s teams) teams c
      .nonBinary
  ⟨malesL, femalesL, nonBinaryL,
   (teamColorsList.map (fun c => (malesL c).length)).foldl max 0,
   (teamColorsList.map (fun c => (femalesL c).length)).foldl max 0,
   (teamColorsList.map (fun c => (nonBinaryL c).length)).foldl max 0⟩

/-- The initial flexible queues (`flexibleQueues`). -/
def flexQueuesOf (s : Shuffler) (teams : List Team) : FlexQueues :=
  ⟨teamPoolFlex s (anchorOf teams) teams .red, teamPoolFlex s (anchorOf teams) teams .blue,
   teamPoolFlex s (anchorOf teams) teams .green,
   teamPoolFlex s (anchorOf teams) teams .yellow,
   teamPoolFlex s (anchorOf teams) teams .pink,
   teamPoolFlex s (anchorOf teams) teams .purple⟩

/-- All rows produced by the emission stage of `generateMatchups`:
the forced non-binary first row (when the anchor is non-binary), the
alternating gender rows, then the flexible drain. -/
def generateRows (s : Shuffler) (teams : List Team) : List Matchup :=
  let ctx := matchCtxOf s teams
  let fq0 := flexQueuesOf s teams
  let anchor := anchorOf teams
  let preferMale : Bool := match anchor with | some a => a.gender = Gender.male | none => true
  let anchorIsNB : Bool :=
    match anchor with | some a => a.gender = Gender.nonBinary | none => false
  let start :=
    if anchorIsNB ∧ 0 < ctx.NB then
      let r := buildRow ctx .nonBinary 0 fq0
      (1, r.2, pushRow [] r.1)
    else (0, fq0, ([] : List Matchup))
  let r1 := emitLoop ctx (ctx.M + ctx.F + ctx.NB) 0 0 start.1 preferMale start.2.1 start.2.2
  drainFlex (FlexQueues.total r1.2) r1.2 r1.1

/-- `generateMatchups(currentTeams)` from `src/App.tsx`: the full
matchup engine — anchor discovery, single global Game-1 helper pick,
helper bucket assignment, per-team ordered pools, alternating row
emission with flexible gap-filling, flexible drain, the degenerate
single empty row, and renumbering. -/
def generateMatchups (s : Shuffler) (teams : List Team) : List Matchup :=
  let rows := generateRows s teams
  if rows.length = 0 then [⟨1, teamColorsList.map (fun c => ⟨c, none⟩)⟩]
  else rows.enum.map (fun im => ⟨im.1 + 1, im.2.players⟩)

/-! ## Column extraction (observables for the scheduling invariants) -/

/-- The players sitting in color `c`'s cells of one row. -/
def cellsFor (entries : List MatchupPlayer) (c : TeamColor) : List Player :=
  entries.filterMap (fun e => if e.color = c then e.player else none)

/-- The players appearing in color `c`'s column across all rows. -/
def columnPlayers (rows : List Matchup) (c : TeamColor) : List Player :=
  rows.flatMap (fun m => cellsFor m.players c)

/-- The cell-appending step of `buildRow`, named for the fold lemmas. -/
def rowStep (ctx : MatchCtx) (g : Gender) (i : Nat)
    (st : List MatchupPlayer × FlexQueues) (c : TeamColor) :
    List MatchupPlayer × FlexQueues :=
  let r := getNextPlayer ctx c g i st.2
  (st.1 ++ [⟨c, r.1⟩], r.2)

/-! ### Named mirrors of the internal lets of `buildOrderedList` -/

/-- The `isStartGender` test of `buildOrderedList`. -/
def isStartGenderB (anchor : Option Player) (g : Gender) : Bool :=
  match anchor with | some a => a.gender = g | none => false

/-- The `shuffled` list of `buildOrderedList` (helper-config path). -/
def blShuffled (s : Shuffler) (c : TeamColor) (g : Gender) (players : List Player) :
    List Player :=
  s.sh (330 + teamColorsList.indexOf c * 5 + genderKeys.indexOf g) players

/-- The `helpers` sublist. -/
def blHelpers (s : Shuffler) (c : TeamColor) (g : Gender) (players : List Player) :
    List Player :=
  (blShuffled s c g players).filter (fun p => p.isHelper)

/-- The `regulars` sublist. -/
def blRegulars (s : Shuffler) (c : TeamColor) (g : Gender) (players : List Player) :
    List Player :=
  (blShuffled s c g players).filter (fun p => !p.isHelper)

/-- The `game1Pick` of `buildOrderedList`. -/
def blGame1Pick (s : Shuffler) (anchor : Option Player) (g1HelperId : Option String)
    (c : TeamColor) (g : Gender) (players : List Player) : Option Player :=
  if isStartGenderB anchor g then
    match g1HelperId with
    | some hid => (blHelpers s c g players).find? (fun h => h.id = hid)
    | none => none
  else none

/-- The `helpersForBuckets` list. -/
def blHFB (s : Shuffler) (anchor : Option Player) (g1HelperId : Option String)
    (c : TeamColor) (g : Gender) (players : List Player) : List Player :=
  match blGame1Pick s anchor g1HelperId c g players with
  | some gp => (blHelpers s c g players).filter (fun h : Player => !(h.id = gp.id))
  | none => blHelpers s c g players

/-- The `bucketedEarly` list. -/
def blBucketedEarly (s : Shuffler) (anchor : Option Player) (g1HelperId : Option String)
    (assignments : List (String × HelperBucket)) (c : TeamColor) (g : Gender)
    (players : List Player) : List Player :=
  (blHFB s anchor g1HelperId c g players).filter
    (fun h => bucketLookup assignments h.id = some HelperBucket.early)

/-- The `bucketedLate` list. -/
def blBucketedLate (s : Shuffler) (anchor : Option Player) (g1HelperId : Option String)
    (assignments : List (String × HelperBucket)) (c : TeamColor) (g : Gender)
    (players : List Player) : List Player :=
  (blHFB s anchor g1HelperId c g players).filter
    (fun h => bucketLookup assignments h.id = some HelperBucket.late)

/-- The `earlyPick` of `buildOrderedList`. -/
def blEarlyPick (s : Shuffler) (anchor : Option Player) (g1HelperId : Option String)
    (assignments : List (String × HelperBucket)) (c : TeamColor) (g : Gender)
    (players : List Player) : Option Player :=
  if ((getHelperSlotConfig anchor g players.length).1).isSome then
    (blBucketedEarly s anchor g1HelperId assignments c g players).head?
  else none

/-- The `latePick` of `buildOrderedList`. -/
def blLatePick (s : Shuffler) (anchor : Option Player) (g1HelperId : Option String)
    (assignments : List (String × HelperBucket)) (c : TeamColor) (g : Gender)
    (players : List Player) : Option Player :=
  if ((getHelperSlotConfig anchor g players.length).2).isSome then
    match blEarlyPick s anchor g1HelperId assignments c g players with
    | some ep =>
      (blBucketedLate s anchor g1HelperId assignments c g players).find?
        (fun h => !(h.id = ep.id))
    | none => (blBucketedLate s anchor g1HelperId assignments c g players).head?
  else none

/-- The `spilloverHelpers` list. -/
def blSpillover (s : Shuffler) (anchor : Option Player) (g1HelperId : Option String)
    (assignments : List (String × HelperBucket)) (c : TeamColor) (g : Gender)
    (players : List Player) : List Player :=
  (blHFB s anchor g1HelperId c g players).filter (fun h =>
    (match blEarlyPick s anchor g1HelperId assignments c g players with
     | some ep => !(h.id = ep.id)
     | none => true) &&
    (match blLatePick s anchor g1HelperId assignments c g players with
     | some lp => !(h.id = lp.id)
     | none => true))

/-- The `remainingPool` of `buildOrderedList`. -/
def blRemainingPool (s : Shuffler) (anchor : Option Player) (g1HelperId : Option String)
    (assignments : List (String × HelperBucket)) (c : TeamColor) (g : Gender)
    (players : List Player) : List Player :=
  if isStartGenderB anchor g then
    s.sh (360 + teamColorsList.indexOf c * 5 + genderKeys.indexOf g)
      (blRegulars s c g players) ++
    s.sh (390 + teamColorsList.indexOf c * 5 + genderKeys.indexOf g)
      (blSpillover s anchor g1HelperId assignments c g players)
  else
    s.sh (420 + teamColorsList.indexOf c * 5 + genderKeys.indexOf g)
      (blRegulars s c g players ++ blSpillover s anchor g1HelperId assignments c g players)

/-! ## Claim C1: gender targets -/

/-- `targetAt` always equals the plain base-plus-remainder formula (the
`total == 0` early-out coincides with it). -/
theorem targetAt_eq (players : List Player) (n idx : Nat) (g : Gender) :
    targetAt players n idx g =
      genderTotal players g / n + (if idx < genderTotal players g % n then 1 else 0) := by
  unfold targetAt
  by_cases h : genderTotal players g = 0
  · simp [h]
  · simp [h]

/-- The per-gender column of the targets record, as a function of the
team position. -/
theorem buildGenderTargets_vals (colors : List TeamColor) (players : List Player)
    (g : Gender) :
    (buildGenderTargets colors players).map (fun e => e.2 g) =
      (List.range colors.length).map (fun i => targetAt players colors.length i g) := by
  unfold buildGenderTargets
  by_cases h : colors.length = 0
  · have : colors = [] := List.length_eq_zero.mp h
    subst this
    simp
  · simp only [h, if_false, List.map_map]
    rw [show ((fun (e : TeamColor × (Gender → Nat)) => e.2 g) ∘
        (fun ic : Nat × TeamColor =>
          (ic.2, fun g2 => targetAt players colors.length ic.1 g2))) =
        ((fun i => targetAt players colors.length i g) ∘ Prod.fst) from rfl]
    rw [← List.map_map, List.enum_map_fst]

/-- Sum of the base-plus-remainder values over team positions. -/
theorem sum_range_targets (base rem : Nat) (n : Nat) :
    ((List.range n).map (fun i => base + (if i < rem then 1 else 0))).sum =
      n * base + min rem n := by
  induction n with
  | zero => simp
  | succ k ih =>
    rw [List.range_succ, List.map_append, List.sum_append]
    simp only [List.map_cons, List.map_nil, List.sum_cons, List.sum_nil, ih, Nat.succ_mul]
    by_cases h : k < rem
    · have h1 : min rem k = k := by omega
      have h2 : min rem (k + 1) = k + 1 := by omega
      simp only [h, if_true, h1, h2]
      omega
    · have h1 : min rem k = rem := by omega
      have h2 : min rem (k + 1) = rem := by omega
      simp only [h, if_false, h1, h2]
      omega

/-- C1. `buildGenderTargets` returns one entry per configured color, in
fixed color order; for each gender the team at position `i` gets
`total / teamCount` plus one exactly when `i < total % teamCount`
(counting only non-flexible players); the per-team targets sum to the
gender's non-flexible total, and any two targets differ by at most 1. -/
theorem claim_C1 (colors : List TeamColor) (players : List Player) (hne : colors ≠ []) :
    ((buildGenderTargets colors players).map Prod.fst = colors) ∧
    (∀ g i, i < colors.length →
      ((buildGenderTargets colors players).map (fun e => e.2 g))[i]? =
        some (genderTotal players g / colors.length +
          (if i < genderTotal players g % colors.length then 1 else 0))) ∧
    (∀ g, ((buildGenderTargets colors players).map (fun e => e.2 g)).sum =
      genderTotal players g) ∧
    (∀ g, ∀ x ∈ buildGenderTargets colors players, ∀ y ∈ buildGenderTargets colors players,
      x.2 g ≤ y.2 g + 1) := by
  have hn : 0 < colors.length := List.length_pos.mpr hne
  have hn0 : colors.length ≠ 0 := Nat.pos_iff_ne_zero.mp hn
  refine ⟨?_, ?_, ?_, ?_⟩
  · unfold buildGenderTargets
    simp only [hn0, if_false, List.map_map]
    rw [show (Prod.fst ∘ (fun ic : Nat × TeamColor =>
        (ic.2, fun g2 => targetAt players colors.length ic.1 g2))) =
        (Prod.snd : Nat × TeamColor → TeamColor) from rfl]
    exact List.enum_map_snd colors
  · intro g i hi
    rw [buildGenderTargets_vals, List.getElem?_map, List.getElem?_range hi]
    simp [targetAt_eq]
  · intro g
    rw [buildGenderTargets_vals]
    have hcongr : ∀ i ∈ List.range colors.length,
        targetAt players colors.length i g =
          genderTotal players g / colors.length +
            (if i < genderTotal players g % colors.length then 1 else 0) := by
      intro i _
      exact targetAt_eq players colors.length i g
    rw [List.map_congr_left hcongr, sum_range_targets]
    have hrem : genderTotal players g % colors.length < colors.length :=
      Nat.mod_lt _ hn
    rw [min_eq_left (Nat.le_of_lt hrem)]
    have := Nat.div_add_mod (genderTotal players g) colors.length
    omega
  · intro g x hx y hy
    have hval : ∀ z ∈ buildGenderTargets colors players,
        genderTotal players g / colors.length ≤ z.2 g ∧
          z.2 g ≤ genderTotal players g / colors.length + 1 := by
      intro z hz
      unfold buildGenderTargets at hz
      simp only [hn0, if_false, List.mem_map] at hz
      obtain ⟨ic, _, hic⟩ := hz
      subst hic
      simp only [targetAt_eq]
      by_cases h : ic.1 < genderTotal players g % colors.length <;> simp [h]
    obtain ⟨h1, h2⟩ := hval x hx
    obtain ⟨h3, h4⟩ := hval y hy
    omega

/-- Witness for C1 at a concrete roster and the configured color list. -/
theorem claim_C1_witness :
    teamColorsList ≠ [] ∧
    (((buildGenderTargets teamColorsList
        [⟨"a", "A", .male, 0, false, false⟩]).map Prod.fst = teamColorsList) ∧
    (∀ g i, i < teamColorsList.length →
      ((buildGenderTargets teamColorsList
          [⟨"a", "A", .male, 0, false, false⟩]).map (fun e => e.2 g))[i]? =
        some (genderTotal [⟨"a", "A", .male, 0, false, false⟩] g / teamColorsList.length +
          (if i < genderTotal [⟨"a", "A", .male, 0, false, false⟩] g %
              teamColorsList.length then 1 else 0))) ∧
    (∀ g, ((buildGenderTargets teamColorsList
        [⟨"a", "A", .male, 0, false, false⟩]).map (fun e => e.2 g)).sum =
      genderTotal [⟨"a", "A", .male, 0, false, false⟩] g) ∧
    (∀ g, ∀ x ∈ buildGenderTargets teamColorsList [⟨"a", "A", .male, 0, false, false⟩],
      ∀ y ∈ buildGenderTargets teamColorsList [⟨"a", "A", .male, 0, false, false⟩],
        x.2 g ≤ y.2 g + 1)) :=
  ⟨by decide, claim_C1 teamColorsList [⟨"a", "A", .male, 0, false, false⟩] (by decide)⟩

/-! ## Claims C8 and C10: score mutators -/

/-- The `teamDelta` fold of `updatePlayerScore` keeps the seed when no
member matches the id. -/
theorem teamDelta_foldl_no_match (members : List Player) (pid : String) (delta init : Int)
    (h : ∀ m ∈ members, m.id ≠ pid) :
    members.foldl (fun acc m =>
      if m.id = pid then max 0 (m.score + delta) - m.score else acc) init = init := by
  induction members generalizing init with
  | nil => rfl
  | cons m rest ih =>
    have hm : m.id ≠ pid := h m (List.mem_cons_self m rest)
    simp only [List.foldl_cons, hm, if_false]
    exact ih init (fun x hx => h x (List.mem_cons_of_mem m hx))

/-- With distinct member ids, the `teamDelta` fold returns the applied
delta of the unique member with the targeted id. -/
theorem teamDelta_foldl_eq (pid : String) (delta : Int) (p : Player) (hpid : p.id = pid) :
    ∀ (members : List Player) (init : Int), p ∈ members →
      (members.map Player.id).Nodup →
      members.foldl (fun acc m =>
        if m.id = pid then max 0 (m.score + delta) - m.score else acc) init =
        max 0 (p.score + delta) - p.score := by
  intro members
  induction members with
  | nil => intro init hp; cases hp
  | cons m rest ih =>
    intro init hp hnodup
    simp only [List.map_cons, List.nodup_cons] at hnodup
    rcases List.mem_cons.mp hp with heq | hrest
    · subst heq
      simp only [List.foldl_cons, hpid, if_true]
      apply teamDelta_foldl_no_match
      intro x hx hxid
      apply hnodup.1
      rw [hpid, ← hxid]
      exact List.mem_map_of_mem Player.id hx
    · have hm : m.id ≠ pid := by
        intro hmid
        apply hnodup.1
        rw [hmid, ← hpid]
        exact List.mem_map_of_mem Player.id hrest
      simp only [List.foldl_cons, hm, if_false]
      exact ih init hrest hnodup.2

/-- C8 counterexample: with team score 0 and a member at score 3, a
delta of -100 clamps the member to 0 (actual delta -3) but the team
score, clamped at zero as well, does not move by -3: it stays 0. -/
theorem claim_C8_counterexample :
    (updatePlayerScore
        [⟨TeamColor.red, [⟨"p1", "P1", .male, 3, false, false⟩], "h", 0⟩]
        TeamColor.red "p1" (-100)).map Team.score = [(0 : Int)] ∧
    ((0 : Int) + (max 0 ((3 : Int) + (-100)) - 3) = -3) ∧ (0 : Int) ≠ -3 := by
  decide

/-- C8 (amended). `updatePlayerScore` sets the targeted player's score
to `max 0 (old + delta)` and sets the enclosing team's score to
`max 0 (oldTeamScore + actualDelta)` where `actualDelta` is the actually
applied player delta; whenever `oldTeamScore + actualDelta` is
nonnegative (in particular whenever the team score was at least the
player's clamped loss), the team score changes by exactly `actualDelta`,
not by the raw requested delta. -/
theorem claim_C8 (teams : List Team) (c : TeamColor) (pid : String) (delta : Int)
    (i : Nat) (t : Team) (hti : teams[i]? = some t) (hc : t.color = c)
    (p : Player) (hp : p ∈ t.members) (hpid : p.id = pid)
    (hnodup : (t.members.map Player.id).Nodup) :
    (updatePlayerScore teams c pid delta)[i]? = some
      { t with
        members := t.members.map (fun m =>
          if m.id = pid then { m with score := max 0 (m.score + delta) } else m),
        score := max 0 (t.score + (max 0 (p.score + delta) - p.score)) } ∧
    (0 ≤ t.score + (max 0 (p.score + delta) - p.score) →
      ∀ t2, (updatePlayerScore teams c pid delta)[i]? = some t2 →
        t2.score = t.score + (max 0 (p.score + delta) - p.score)) := by
  have hmain : (updatePlayerScore teams c pid delta)[i]? = some
      { t with
        members := t.members.map (fun m =>
          if m.id = pid then { m with score := max 0 (m.score + delta) } else m),
        score := max 0 (t.score + (max 0 (p.score + delta) - p.score)) } := by
    unfold updatePlayerScore
    rw [List.getElem?_map, hti, Option.map_some']
    rw [if_pos hc]
    rw [teamDelta_foldl_eq pid delta p hpid t.members 0 hp hnodup]
  refine ⟨hmain, fun hnonneg t2 ht2 => ?_⟩
  rw [hmain] at ht2
  cases ht2
  simp only
  omega

/-- Witness for C8 at a concrete input (team score 3, player score 3,
delta -100: the player clamps to 0 and the team drops by exactly 3). -/
theorem claim_C8_witness :
    ([Team.mk TeamColor.red [⟨"p1", "P1", .male, 3, false, false⟩] "h" 3] :
        List Team)[0]? = some (Team.mk TeamColor.red
          [⟨"p1", "P1", .male, 3, false, false⟩] "h" 3) ∧
    (updatePlayerScore
        [Team.mk TeamColor.red [⟨"p1", "P1", .male, 3, false, false⟩] "h" 3]
        TeamColor.red "p1" (-100))[0]? = some
      { Team.mk TeamColor.red [⟨"p1", "P1", .male, 3, false, false⟩] "h" 3 with
        members := [Team.mk TeamColor.red [⟨"p1", "P1", .male, 3, false, false⟩] "h" 3
          |>.members].flatten.map (fun m =>
            if m.id = "p1" then { m with score := max 0 (m.score + (-100)) } else m),
        score := max 0 ((3 : Int) + (max 0 ((3 : Int) + (-100)) - 3)) } := by
  constructor
  · decide
  · have h := claim_C8
      [Team.mk TeamColor.red [⟨"p1", "P1", .male, 3, false, false⟩] "h" 3]
      TeamColor.red "p1" (-100) 0
      (Team.mk TeamColor.red [⟨"p1", "P1", .male, 3, false, false⟩] "h" 3)
      (by decide) (by decide)
      ⟨"p1", "P1", .male, 3, false, false⟩ (by decide) (by decide) (by decide)
    simpa using h.1

/-- C10. Both mutators preserve the list length; teams of any other
color are returned unchanged; `updateTeamScore` keeps the addressed
team's members (and color and hex) unchanged, touching only its score;
`updatePlayerScore` keeps every member of the addressed team other than
the targeted id unchanged, at its original position. -/
theorem claim_C10 (teams : List Team) (c : TeamColor) (pid : String) (delta dteam : Int) :
    ((updateTeamScore teams c dteam).length = teams.length) ∧
    ((updatePlayerScore teams c pid delta).length = teams.length) ∧
    (∀ (i : Nat) (t : Team), teams[i]? = some t → t.color ≠ c →
      (updateTeamScore teams c dteam)[i]? = some t ∧
      (updatePlayerScore teams c pid delta)[i]? = some t) ∧
    (∀ (i : Nat) (t : Team), teams[i]? = some t → ∃ t2 : Team,
      (updateTeamScore teams c dteam)[i]? = some t2 ∧
      t2.members = t.members ∧ t2.color = t.color ∧ t2.hex = t.hex) ∧
    (∀ (i : Nat) (t : Team), teams[i]? = some t → ∃ t2 : Team,
      (updatePlayerScore teams c pid delta)[i]? = some t2 ∧
      t2.color = t.color ∧ t2.hex = t.hex ∧
      t2.members.length = t.members.length ∧
      (∀ (j : Nat) (m : Player), t.members[j]? = some m → m.id ≠ pid →
        t2.members[j]? = some m)) := by
  refine ⟨by simp [updateTeamScore], by simp [updatePlayerScore], ?_, ?_, ?_⟩
  · intro i t hti hne
    have hne2 : ¬(t.color = c) := hne
    constructor
    · unfold updateTeamScore
      rw [List.getElem?_map, hti, Option.map_some', if_neg hne2]
    · unfold updatePlayerScore
      rw [List.getElem?_map, hti, Option.map_some', if_neg hne2]
  · intro i t hti
    unfold updateTeamScore
    rw [List.getElem?_map, hti, Option.map_some']
    by_cases h : t.color = c
    · rw [if_pos h]
      exact ⟨_, rfl, rfl, rfl, rfl⟩
    · rw [if_neg h]
      exact ⟨t, rfl, rfl, rfl, rfl⟩
  · intro i t hti
    unfold updatePlayerScore
    rw [List.getElem?_map, hti, Option.map_some']
    by_cases h : t.color = c
    · rw [if_pos h]
      refine ⟨_, rfl, rfl, rfl, by simp, ?_⟩
      intro j m hjm hmne
      rw [List.getElem?_map, hjm, Option.map_some']
      simp [hmne]
    · rw [if_neg h]
      exact ⟨t, rfl, rfl, rfl, rfl, fun j m hjm _ => hjm⟩

/-- Witness for C10 at a concrete team list, with the inner
implications exercised on team index 1 (a differently colored team) and
member index 1 (a non-targeted member). -/
theorem claim_C10_witness :
    (∀ (i : Nat) (t : Team), ([Team.mk TeamColor.red
        [⟨"p1", "P1", .male, 3, false, false⟩, ⟨"p2", "P2", .female, 2, false, false⟩]
        "h" 5, Team.mk TeamColor.blue [] "h" 1] : List Team)[i]? = some t →
      t.color ≠ TeamColor.red →
      (updateTeamScore [Team.mk TeamColor.red
        [⟨"p1", "P1", .male, 3, false, false⟩, ⟨"p2", "P2", .female, 2, false, false⟩]
        "h" 5, Team.mk TeamColor.blue [] "h" 1] TeamColor.red 7)[i]? = some t ∧
      (updatePlayerScore [Team.mk TeamColor.red
        [⟨"p1", "P1", .male, 3, false, false⟩, ⟨"p2", "P2", .female, 2, false, false⟩]
        "h" 5, Team.mk TeamColor.blue [] "h" 1] TeamColor.red "p1" (-1))[i]? = some t) :=
  (claim_C10 [Team.mk TeamColor.red
      [⟨"p1", "P1", .male, 3, false, false⟩, ⟨"p2", "P2", .female, 2, false, false⟩]
      "h" 5, Team.mk TeamColor.blue [] "h" 1] TeamColor.red "p1" (-1) 7).2.2.1

/-! ## Claim C3: pickBatch batch composition -/

/-- A fair shuffle followed by `take` keeps `min` of the lengths. -/
theorem fair_take_length (s : Shuffler) (hs : s.Fair) (tag n : Nat) (l : List Player) :
    ((s.sh tag l).take n).length = min n l.length := by
  rw [List.length_take, (hs.1 tag l).length_eq]

/-- Members of a fair shuffle prefix are members of the input. -/
theorem fair_take_mem (s : Shuffler) (hs : s.Fair) (tag n : Nat) (l : List Player) :
    ∀ p ∈ (s.sh tag l).take n, p ∈ l := by
  intro p hp
  exact (hs.1 tag l).mem_iff.mp (List.mem_of_mem_take hp)

/-- A fair shuffle prefix of a list with distinct ids has distinct ids. -/
theorem fair_take_nodup_ids (s : Shuffler) (hs : s.Fair) (tag n : Nat) (l : List Player)
    (h : (l.map Player.id).Nodup) :
    (((s.sh tag l).take n).map Player.id).Nodup := by
  have h1 : ((s.sh tag l).map Player.id).Nodup :=
    (((hs.1 tag l).map Player.id)).nodup_iff.mpr h
  rw [List.map_take]
  exact List.Nodup.sublist (List.take_sublist n _) h1

/-- Invariant of the per-gender picking loop: the used id list is the id
image of the batch so far, batch ids are distinct, and every batch
member is a non-flexible pool player whose gender is not among the
genders still to be processed. -/
def PickInv (pool : List Player) (gs : List Gender) (st : List String × List Player) : Prop :=
  st.1 = st.2.map Player.id ∧ (st.2.map Player.id).Nodup ∧
    ∀ p ∈ st.2, p ∈ pool ∧ p.noGenderRestriction = false ∧ p.gender ∉ gs

/-- Specification of the per-gender picking fold of `pickBatch`: it
appends, for each processed gender, exactly
`min needed (number of eligible non-flexible pool players)` players of
that gender, all non-flexible pool members with distinct ids. -/
theorem pickFold_spec (s : Shuffler) (hs : s.Fair) (pool : List Player)
    (hpool : (pool.map Player.id).Nodup) (needed : Gender → Nat) (color : TeamColor) :
    ∀ (gs : List Gender), gs.Nodup → ∀ st, PickInv pool gs st →
      ∃ extra : List Player,
        (gs.foldl (pickStep s pool needed color) st).2 = st.2 ++ extra ∧
        (gs.foldl (pickStep s pool needed color) st).1 = (st.2 ++ extra).map Player.id ∧
        ((st.2 ++ extra).map Player.id).Nodup ∧
        (∀ p ∈ extra, p ∈ pool ∧ p.noGenderRestriction = false ∧ p.gender ∈ gs) ∧
        (∀ g ∈ gs, (extra.filter (fun p => p.gender = g)).length =
          min (needed g) ((pool.filter
            (fun p => !p.noGenderRestriction && p.gender = g)).length)) := by
  intro gs
  induction gs with
  | nil =>
    intro _ st hst
    exact ⟨[], by simp, by simpa using hst.1, by simpa using hst.2.1,
      by simp, by simp⟩
  | cons g gs2 ih =>
    intro hnd st hst
    obtain ⟨h1, h2, h3⟩ := hst
    rw [List.nodup_cons] at hnd
    by_cases hneed : needed g = 0
    · have hstep : pickStep s pool needed color st g = st := by
        unfold pickStep
        simp [hneed]
      rw [List.foldl_cons, hstep]
      obtain ⟨extra, he1, he2, he3, he4, he5⟩ := ih hnd.2 st ⟨h1, h2, fun p hp =>
        ⟨(h3 p hp).1, (h3 p hp).2.1, fun hm => (h3 p hp).2.2 (List.mem_cons_of_mem _ hm)⟩⟩
      refine ⟨extra, he1, he2, he3, fun p hp => ⟨(he4 p hp).1, (he4 p hp).2.1,
        List.mem_cons_of_mem _ (he4 p hp).2.2⟩, ?_⟩
      intro g2 hg2
      rcases List.mem_cons.mp hg2 with hg2eq | hg2mem
      · subst hg2eq
        have hnil : extra.filter (fun p => p.gender = g2) = [] := by
          rw [List.filter_eq_nil_iff]
          intro p hp
          simp only [decide_eq_true_eq]
          intro hpg
          exact hnd.1 (hpg ▸ (he4 p hp).2.2)
        rw [hnil, hneed]
        simp
      · exact he5 g2 hg2mem
    · -- the step really picks players of gender g
      have hinj := List.inj_on_of_nodup_map hpool
      have havail : pool.filter (fun p =>
          p.gender = g && !st.1.contains p.id && !p.noGenderRestriction) =
          pool.filter (fun p => !p.noGenderRestriction && p.gender = g) := by
        apply List.filter_congr
        intro x hx
        by_cases hg : x.gender = g
        · by_cases hf : x.noGenderRestriction = true
          · simp [hg, hf]
          · have hmem : x.id ∉ st.1 := by
              rw [h1]
              intro hcon
              obtain ⟨q, hq, hqid⟩ := List.mem_map.mp hcon
              have hqx : q = x := hinj (h3 q hq).1 hx hqid
              have := (h3 q hq).2.2
              rw [hqx] at this
              exact this (by simp [hg])
            simp [List.contains, hg, hf, hmem]
        · simp [hg]
      have hstep : pickStep s pool needed color st g =
          (st.1 ++ ((s.sh (colorGenderTag color g)
              (pool.filter (fun p => !p.noGenderRestriction && p.gender = g))).take
              (needed g)).map Player.id,
           st.2 ++ (s.sh (colorGenderTag color g)
              (pool.filter (fun p => !p.noGenderRestriction && p.gender = g))).take
              (needed g)) := by
        unfold pickStep
        rw [if_neg hneed, havail]
      set avail := pool.filter (fun p => !p.noGenderRestriction && p.gender = g) with havaildef
      set picks := (s.sh (colorGenderTag color g) avail).take (needed g) with hpicksdef
      have hpicksmem : ∀ p ∈ picks, p ∈ avail := fair_take_mem s hs _ _ _
      have hpickslen : picks.length = min (needed g) avail.length :=
        fair_take_length s hs _ _ _
      have hpicksprops : ∀ p ∈ picks, p ∈ pool ∧ p.noGenderRestriction = false ∧
          p.gender = g := by
        intro p hp
        have := hpicksmem p hp
        rw [havaildef, List.mem_filter] at this
        refine ⟨this.1, ?_, ?_⟩
        · have := this.2
          simp only [Bool.and_eq_true, Bool.not_eq_true', decide_eq_true_eq] at this
          exact this.1
        · have := this.2
          simp only [Bool.and_eq_true, Bool.not_eq_true', decide_eq_true_eq] at this
          exact this.2
      have hpicksnodup : (picks.map Player.id).Nodup := by
        apply fair_take_nodup_ids s hs
        have : avail.Sublist pool := List.filter_sublist pool
        exact List.Nodup.sublist (this.map Player.id) hpool
      have hdisj : ∀ x ∈ st.2.map Player.id, x ∉ picks.map Player.id := by
        intro x hxst hxpicks
        obtain ⟨q, hq, hqid⟩ := List.mem_map.mp hxst
        obtain ⟨r, hr, hrid⟩ := List.mem_map.mp hxpicks
        have hrpool := (hpicksprops r hr).1
        have hqpool := (h3 q hq).1
        have hqr : q = r := hinj hqpool hrpool (by rw [hqid, hrid])
        have hqg := (h3 q hq).2.2
        apply hqg
        rw [hqr]
        rw [(hpicksprops r hr).2.2]
        exact List.mem_cons_self g gs2
      have hndall : ((st.2 ++ picks).map Player.id).Nodup := by
        rw [List.map_append]
        rw [List.nodup_append]
        exact ⟨h2, hpicksnodup, fun x hx => hdisj x hx⟩
      have hinv2 : PickInv pool gs2 (st.1 ++ picks.map Player.id, st.2 ++ picks) := by
        refine ⟨by rw [h1, List.map_append], hndall, ?_⟩
        intro p hp
        rcases List.mem_append.mp hp with hpst | hppicks
        · exact ⟨(h3 p hpst).1, (h3 p hpst).2.1,
            fun hm => (h3 p hpst).2.2 (List.mem_cons_of_mem _ hm)⟩
        · refine ⟨(hpicksprops p hppicks).1, (hpicksprops p hppicks).2.1, ?_⟩
          rw [(hpicksprops p hppicks).2.2]
          exact hnd.1
      rw [List.foldl_cons, hstep]
      obtain ⟨extra2, he1, he2, he3, he4, he5⟩ := ih hnd.2 _ hinv2
      simp only at he1 he2 he3
      refine ⟨picks ++ extra2, by rw [he1, List.append_assoc],
        by rw [he2, List.append_assoc], by rw [← List.append_assoc]; exact he3, ?_, ?_⟩
      · intro p hp
        rcases List.mem_append.mp hp with hpp | hpe
        · exact ⟨(hpicksprops p hpp).1, (hpicksprops p hpp).2.1,
            by rw [(hpicksprops p hpp).2.2]; exact List.mem_cons_self g gs2⟩
        · exact ⟨(he4 p hpe).1, (he4 p hpe).2.1, List.mem_cons_of_mem _ (he4 p hpe).2.2⟩
      · intro g2 hg2
        rw [List.filter_append, List.length_append]
        rcases List.mem_cons.mp hg2 with hg2eq | hg2mem
        · subst hg2eq
          have hpicksall : picks.filter (fun p => p.gender = g2) = picks := by
            rw [List.filter_eq_self]
            intro p hp
            simp [(hpicksprops p hp).2.2]
          have hextra2nil : extra2.filter (fun p => p.gender = g2) = [] := by
            rw [List.filter_eq_nil_iff]
            intro p hp
            simp only [decide_eq_true_eq]
            intro hpg
            exact hnd.1 (hpg ▸ (he4 p hp).2.2)
          rw [hpicksall, hextra2nil, hpickslen]
          simp
        · have hpicksnil : picks.filter (fun p => p.gender = g2) = [] := by
            rw [List.filter_eq_nil_iff]
            intro p hp
            simp only [decide_eq_true_eq]
            intro hpg
            apply hnd.1
            have hgg := (hpicksprops p hp).2.2
            have hgg2 : g = g2 := by rw [← hgg, hpg]
            rw [hgg2]
            exact hg2mem
          rw [hpicksnil]
          simp only [List.length_nil, Nat.zero_add]
          exact he5 g2 hg2mem

/-- C3. The batch returned by `pickBatch` contains, for each gender,
exactly `min needed[gender] (number of non-flexible pool players of that
gender)` non-flexible players of that gender (a gender whose eligible
pool runs short stays unfilled, never backfilled), and exactly
`min shortage flexiblePoolSize` flexible players when this team's
shortage against the largest gender-based team size is positive, and no
flexible players otherwise. -/
theorem claim_C3 (s : Shuffler) (hs : s.Fair) (colors : List TeamColor)
    (genderTargets : List (TeamColor × (Gender → Nat)))
    (pool : List Player) (color : TeamColor) (snapshotTeams : List Team)
    (hnodup : (pool.map Player.id).Nodup) :
    (∀ g, ((pickBatch s colors genderTargets pool color snapshotTeams).filter
        (fun p => !p.noGenderRestriction && p.gender = g)).length =
      min (neededCountsOf genderTargets snapshotTeams color g)
        ((pool.filter (fun p => !p.noGenderRestriction && p.gender = g)).length)) ∧
    (((pickBatch s colors genderTargets pool color snapshotTeams).filter
        (fun p => p.noGenderRestriction)).length =
      if 0 < (maxGenderBasedSize colors genderTargets : Int) -
          (genderBasedSizeOf (targetsLookup genderTargets color) : Int) then
        min ((maxGenderBasedSize colors genderTargets : Int) -
            (genderBasedSizeOf (targetsLookup genderTargets color) : Int)).toNat
          ((pool.filter (fun p => p.noGenderRestriction)).length)
      else 0) := by
  have hinj := List.inj_on_of_nodup_map hnodup
  obtain ⟨extra, he1, he2, he3, he4, he5⟩ :=
    pickFold_spec s hs pool hnodup (neededCountsOf genderTargets snapshotTeams color) color
      genderKeys (by decide) ([], []) ⟨rfl, by simp, by simp⟩
  simp only [List.nil_append] at he1 he2 he3
  have hgmem : ∀ g : Gender, g ∈ genderKeys := fun g => by cases g <;> decide
  have hflexeq : pool.filter (fun p =>
      p.noGenderRestriction && !((extra.map Player.id).contains p.id)) =
      pool.filter (fun p => p.noGenderRestriction) := by
    apply List.filter_congr
    intro x hx
    by_cases hf : x.noGenderRestriction = true
    · have hmem : x.id ∉ extra.map Player.id := by
        intro hcon
        obtain ⟨q, hq, hqid⟩ := List.mem_map.mp hcon
        have hqx : q = x := hinj (he4 q hq).1 hx hqid
        have := (he4 q hq).2.1
        rw [hqx] at this
        rw [this] at hf
        cases hf
      simp [List.contains, hf, hmem]
    · simp [hf]
  have hextra_flexnil : extra.filter (fun p => p.noGenderRestriction) = [] := by
    rw [List.filter_eq_nil_iff]
    intro p hp
    simp [(he4 p hp).2.1]
  have hextra_gender : ∀ g, extra.filter (fun p => !p.noGenderRestriction && p.gender = g) =
      extra.filter (fun p => p.gender = g) := by
    intro g
    apply List.filter_congr
    intro x hx
    simp [(he4 x hx).2.1]
  set shortage : Int := (maxGenderBasedSize colors genderTargets : Int) -
    (genderBasedSizeOf (targetsLookup genderTargets color) : Int) with hshortdef
  set flexPool := pool.filter (fun p => p.noGenderRestriction) with hflexdef
  have hpb : pickBatch s colors genderTargets pool color snapshotTeams =
      if 0 < shortage ∧ 0 < flexPool.length then
        extra ++ (s.sh (flexTag color) flexPool).take (min shortage.toNat flexPool.length)
      else extra := by
    simp only [pickBatch]
    rw [he1, he2, hflexeq]
  rw [hpb]
  constructor
  · intro g
    by_cases hcond : 0 < shortage ∧ 0 < flexPool.length
    · rw [if_pos hcond, List.filter_append, List.length_append]
      have hnil : ((s.sh (flexTag color) flexPool).take
          (min shortage.toNat flexPool.length)).filter
          (fun p => !p.noGenderRestriction && p.gender = g) = [] := by
        rw [List.filter_eq_nil_iff]
        intro p hp
        have := fair_take_mem s hs (flexTag color) _ flexPool p hp
        rw [hflexdef, List.mem_filter] at this
        simp [this.2]
      rw [hnil, hextra_gender]
      simp only [List.length_nil, Nat.add_zero]
      exact he5 g (hgmem g)
    · rw [if_neg hcond, hextra_gender]
      exact he5 g (hgmem g)
  · by_cases hshort : 0 < shortage
    · by_cases hflex : 0 < flexPool.length
      · rw [if_pos ⟨hshort, hflex⟩, if_pos hshort, List.filter_append, List.length_append,
          hextra_flexnil]
        have hall : ((s.sh (flexTag color) flexPool).take
            (min shortage.toNat flexPool.length)).filter
            (fun p => p.noGenderRestriction) =
            (s.sh (flexTag color) flexPool).take (min shortage.toNat flexPool.length) := by
          rw [List.filter_eq_self]
          intro p hp
          have := fair_take_mem s hs (flexTag color) _ flexPool p hp
          rw [hflexdef, List.mem_filter] at this
          simp [this.2]
        rw [hall, fair_take_length s hs]
        simp only [List.length_nil, Nat.zero_add]
        omega
      · rw [if_neg (fun hc => hflex hc.2), if_pos hshort, hextra_flexnil]
        simp only [List.length_nil]
        omega
    · rw [if_neg (fun hc => hshort hc.1), if_neg hshort, hextra_flexnil]
      rfl

/-- Witness for C3 at a concrete pool, color and snapshot. -/
theorem claim_C3_witness :
    Shuffler.Fair idShuffler ∧
    ((([⟨"a", "A", .male, 0, false, false⟩, ⟨"b", "B", .female, 0, true, false⟩] :
        List Player).map Player.id).Nodup) ∧
    (∀ g, ((pickBatch idShuffler teamColorsList
        (buildGenderTargets teamColorsList [⟨"a", "A", .male, 0, false, false⟩])
        [⟨"a", "A", .male, 0, false, false⟩, ⟨"b", "B", .female, 0, true, false⟩]
        TeamColor.red []).filter
        (fun p => !p.noGenderRestriction && p.gender = g)).length =
      min (neededCountsOf (buildGenderTargets teamColorsList
          [⟨"a", "A", .male, 0, false, false⟩]) [] TeamColor.red g)
        ((([⟨"a", "A", .male, 0, false, false⟩, ⟨"b", "B", .female, 0, true, false⟩] :
          List Player).filter
          (fun p => !p.noGenderRestriction && p.gender = g)).length)) :=
  ⟨idShuffler_fair, by decide,
    (claim_C3 idShuffler idShuffler_fair teamColorsList
      (buildGenderTargets teamColorsList [⟨"a", "A", .male, 0, false, false⟩])
      [⟨"a", "A", .male, 0, false, false⟩, ⟨"b", "B", .female, 0, true, false⟩]
      TeamColor.red [] (by decide)).1⟩

/-! ## Claim C2: allocation completeness -/

/-- Soundness of `pickBatch`: every batch member comes from the pool,
and the batch carries distinct ids. -/
theorem pickBatch_spec (s : Shuffler) (hs : s.Fair) (colors : List TeamColor)
    (genderTargets : List (TeamColor × (Gender → Nat)))
    (pool : List Player) (color : TeamColor) (snapshotTeams : List Team)
    (hnodup : (pool.map Player.id).Nodup) :
    (∀ p ∈ pickBatch s colors genderTargets pool color snapshotTeams, p ∈ pool) ∧
    ((pickBatch s colors genderTargets pool color snapshotTeams).map Player.id).Nodup := by
  have hinj := List.inj_on_of_nodup_map hnodup
  obtain ⟨extra, he1, he2, he3, he4, he5⟩ :=
    pickFold_spec s hs pool hnodup (neededCountsOf genderTargets snapshotTeams color) color
      genderKeys (by decide) ([], []) ⟨rfl, by simp, by simp⟩
  simp only [List.nil_append] at he1 he2 he3
  have hflexeq : pool.filter (fun p =>
      p.noGenderRestriction && !((extra.map Player.id).contains p.id)) =
      pool.filter (fun p => p.noGenderRestriction) := by
    apply List.filter_congr
    intro x hx
    by_cases hf : x.noGenderRestriction = true
    · have hmem : x.id ∉ extra.map Player.id := by
        intro hcon
        obtain ⟨q, hq, hqid⟩ := List.mem_map.mp hcon
        have hqx : q = x := hinj (he4 q hq).1 hx hqid
        have := (he4 q hq).2.1
        rw [hqx] at this
        rw [this] at hf
        cases hf
      simp [List.contains, hf, hmem]
    · simp [hf]
  set flexPool := pool.filter (fun p => p.noGenderRestriction) with hflexdef
  set shortage : Int := (maxGenderBasedSize colors genderTargets : Int) -
    (genderBasedSizeOf (targetsLookup genderTargets color) : Int) with hshortdef
  have hpb : pickBatch s colors genderTargets pool color snapshotTeams =
      if 0 < shortage ∧ 0 < flexPool.length then
        extra ++ (s.sh (flexTag color) flexPool).take (min shortage.toNat flexPool.length)
      else extra := by
    simp only [pickBatch]
    rw [he1, he2, hflexeq]
  have hflexsub : flexPool.Sublist pool := List.filter_sublist pool
  have hflexnodup : (flexPool.map Player.id).Nodup :=
    List.Nodup.sublist (hflexsub.map Player.id) hnodup
  rw [hpb]
  by_cases hcond : 0 < shortage ∧ 0 < flexPool.length
  · rw [if_pos hcond]
    set fpicks := (s.sh (flexTag color) flexPool).take (min shortage.toNat flexPool.length)
      with hfpicksdef
    have hfmem : ∀ p ∈ fpicks, p ∈ flexPool := fair_take_mem s hs _ _ _
    constructor
    · intro p hp
      rcases List.mem_append.mp hp with h | h
      · exact (he4 p h).1
      · exact List.mem_of_mem_filter (hfmem p h)
    · rw [List.map_append, List.nodup_append]
      refine ⟨he3, fair_take_nodup_ids s hs _ _ _ hflexnodup, ?_⟩
      intro x hxe hxf
      obtain ⟨q, hq, hqid⟩ := List.mem_map.mp hxe
      obtain ⟨r, hr, hrid⟩ := List.mem_map.mp hxf
      have hrflex := hfmem r hr
      rw [hflexdef, List.mem_filter] at hrflex
      have hqr : q = r := hinj (he4 q hq).1 hrflex.1 (by rw [hqid, hrid])
      have hqflex := (he4 q hq).2.1
      rw [hqr] at hqflex
      have := hrflex.2
      rw [hqflex] at this
      cases this
  · rw [if_neg hcond]
    exact ⟨fun p hp => (he4 p hp).1, he3⟩

/-- Removing a batch with distinct ids from a distinct-id pool by id
filtering is a permutation split of the pool. -/
theorem extract_perm (pool w : List Player) (hpool : (pool.map Player.id).Nodup)
    (hw : (w.map Player.id).Nodup) (hmem : ∀ p ∈ w, p ∈ pool) :
    w ++ pool.filter (fun p => !((w.map Player.id).contains p.id)) ~ pool := by
  have hinj := List.inj_on_of_nodup_map hpool
  have hpoolnd : pool.Nodup := List.Nodup.of_map Player.id hpool
  have hwnd : w.Nodup := List.Nodup.of_map Player.id hw
  have hlhsnd : (w ++ pool.filter (fun p => !((w.map Player.id).contains p.id))).Nodup := by
    rw [List.nodup_append]
    refine ⟨hwnd, List.Nodup.filter _ hpoolnd, ?_⟩
    intro x hxw hxf
    rw [List.mem_filter] at hxf
    have : x.id ∈ w.map Player.id := List.mem_map_of_mem Player.id hxw
    have hcontains := hxf.2
    simp only [List.contains, Bool.not_eq_true', List.elem_eq_mem, decide_eq_false_iff_not]
      at hcontains
    exact hcontains this
  rw [List.perm_ext_iff_of_nodup hlhsnd hpoolnd]
  intro a
  constructor
  · intro ha
    rcases List.mem_append.mp ha with h | h
    · exact hmem a h
    · exact List.mem_of_mem_filter h
  · intro ha
    rw [List.mem_append]
    by_cases hid : a.id ∈ w.map Player.id
    · left
      obtain ⟨q, hq, hqid⟩ := List.mem_map.mp hid
      have : q = a := hinj (hmem q hq) ha hqid
      rw [← this]
      exact hq
    · right
      rw [List.mem_filter]
      refine ⟨ha, ?_⟩
      simp only [List.contains, Bool.not_eq_true', List.elem_eq_mem, decide_eq_false_iff_not]
      exact hid

/-- Replacing the member lists of the (empty) teams of one color by a
batch adds exactly that batch to the flattened member list, when exactly
one team of that color exists. -/
theorem replace_join (teams : List Team) (c : TeamColor) (w : List Player)
    (hone : (teams.filter (fun t => t.color = c)).length = 1)
    (hempty : ∀ t ∈ teams, t.color = c → t.members = []) :
    ((teams.map (fun t => if t.color = c then { t with members := w } else t)).map
      Team.members).flatten ~ ((teams.map Team.members).flatten) ++ w := by
  induction teams with
  | nil => simp at hone
  | cons t rest ih =>
    by_cases hc : t.color = c
    · have hrest : (rest.filter (fun t => t.color = c)).length = 0 := by
        rw [List.filter_cons, if_pos (by simp [hc])] at hone
        simp only [List.length_cons] at hone
        omega
      have hrestmap : rest.map (fun t => if t.color = c then { t with members := w } else t)
          = rest := by
        conv_rhs => rw [← List.map_id rest]
        apply List.map_congr_left
        intro x hx
        have hxc : ¬(x.color = c) := by
          intro hxc
          have hxf : x ∈ rest.filter (fun t => t.color = c) := by
            rw [List.mem_filter]
            exact ⟨hx, by simp [hxc]⟩
          rw [List.length_eq_zero] at hrest
          rw [hrest] at hxf
          cases hxf
        simp [hxc]
      have htm : t.members = [] := hempty t (List.mem_cons_self t rest) hc
      simp only [List.map_cons, hc, if_true, hrestmap, List.flatten_cons, htm,
        List.nil_append]
      exact List.perm_append_comm
    · have hone2 : (rest.filter (fun t => t.color = c)).length = 1 := by
        rw [List.filter_cons, if_neg (by simp [hc])] at hone
        exact hone
      have ih2 := ih hone2 (fun x hx hxc => hempty x (List.mem_cons_of_mem t hx) hxc)
      simp only [List.map_cons, hc, if_false, List.flatten_cons, List.append_assoc]
      exact (List.Perm.append_left t.members ih2).trans (by rw [← List.append_assoc])

/-- In a list with no duplicates, filtering for one of its members gives
exactly that singleton. -/
theorem filter_eq_singleton_of_nodup {l : List TeamColor} {c : TeamColor}
    (hnd : l.Nodup) (hc : c ∈ l) : l.filter (fun x => x = c) = [c] := by
  induction l with
  | nil => cases hc
  | cons a rest ih =>
    rw [List.nodup_cons] at hnd
    rcases List.mem_cons.mp hc with heq | hmem
    · rw [List.filter_cons, if_pos (by simp [heq])]
      have hnil : rest.filter (fun x => x = c) = [] := by
        rw [List.filter_eq_nil_iff]
        intro x hx
        simp only [decide_eq_true_eq]
        intro hxc
        apply hnd.1
        have h1 : c ∈ rest := hxc ▸ hx
        rw [heq] at h1
        exact h1
      rw [hnil, heq]
    · have ha : ¬(a = c) := fun h => hnd.1 (h ▸ hmem)
      rw [List.filter_cons, if_neg (by simp [ha])]
      exact ih hnd.2 hmem

/-- Invariant preservation along the `quickFinish` fold: starting from a
pool with distinct ids and one empty team per remaining color, the
flattened member lists of the final teams are a permutation of the
flattened members so far plus the whole pool (the color at index
`total - 1` — the last — absorbs everything left). -/
theorem quickFold_spec (s : Shuffler) (hs : s.Fair) (colors : List TeamColor)
    (genderTargets : List (TeamColor × (Gender → Nat))) (total : Nat) :
    ∀ (cs : List TeamColor) (n : Nat) (st : List Player × List Team),
      cs ≠ [] →
      n + cs.length = total →
      cs.Nodup →
      ((st.1.map Player.id).Nodup) →
      (∀ c ∈ cs, ((st.2.filter (fun t => t.color = c)).length = 1)) →
      (∀ c ∈ cs, ∀ t ∈ st.2, t.color = c → t.members = []) →
      (((cs.enumFrom n).foldl (quickStep s colors genderTargets total) st).2.map
        Team.members).flatten ~ ((st.2.map Team.members).flatten) ++ st.1 := by
  intro cs
  induction cs with
  | nil =>
    intro n st hne
    cases hne rfl
  | cons c cs2 ih =>
    intro n st _ htotal hnd hpool hone hempty
    rw [List.enumFrom_cons, List.foldl_cons]
    rw [List.nodup_cons] at hnd
    have hcmem : c ∈ c :: cs2 := List.mem_cons_self c cs2
    by_cases hlast : cs2 = []
    · subst hlast
      have hn : n = total - 1 := by
        simp only [List.length_cons, List.length_nil] at htotal
        omega
      have hstep : quickStep s colors genderTargets total st (n, c) =
          (st.1.filter (fun p => !((st.1.map Player.id).contains p.id)),
           st.2.map (fun t => if t.color = c then { t with members := st.1 } else t)) := by
        simp only [quickStep]
        rw [if_pos hn]
      rw [hstep]
      simp only [List.enumFrom_nil, List.foldl_nil]
      exact replace_join st.2 c st.1 (hone c hcmem) (hempty c hcmem)
    · have hnlast : ¬(n = total - 1) := by
        have : 0 < cs2.length := List.length_pos.mpr hlast
        simp only [List.length_cons] at htotal
        omega
      set winners := pickBatch s colors genderTargets st.1 c st.2 with hwdef
      obtain ⟨hwmem, hwnodup⟩ :=
        pickBatch_spec s hs colors genderTargets st.1 c st.2 hpool
      have hstep : quickStep s colors genderTargets total st (n, c) =
          (st.1.filter (fun p => !((winners.map Player.id).contains p.id)),
           st.2.map (fun t => if t.color = c then { t with members := winners } else t)) := by
        simp only [quickStep]
        rw [if_neg hnlast]
      rw [hstep]
      set newPool := st.1.filter (fun p => !((winners.map Player.id).contains p.id))
        with hnpdef
      set newTeams := st.2.map (fun t =>
        if t.color = c then { t with members := winners } else t) with hntdef
      have hsplit : winners ++ newPool ~ st.1 := extract_perm st.1 winners hpool hwnodup hwmem
      have hnp_nodup : (newPool.map Player.id).Nodup := by
        rw [hnpdef]
        exact List.Nodup.sublist ((List.filter_sublist st.1).map Player.id) hpool
      have hcolor_pres : ∀ t : Team,
          (if t.color = c then { t with members := winners } else t).color = t.color := by
        intro t
        by_cases h : t.color = c <;> simp [h]
      have hone2 : ∀ c2 ∈ cs2, ((newTeams.filter (fun t => t.color = c2)).length = 1) := by
        intro c2 hc2
        have h1 : (newTeams.filter (fun t => t.color = c2)).length =
            List.countP (fun t => decide (t.color = c2)) st.2 := by
          rw [← List.countP_eq_length_filter, hntdef, List.countP_map]
          exact List.countP_congr (fun t ht => by rw [Function.comp_apply, hcolor_pres t])
        rw [h1, List.countP_eq_length_filter]
        exact hone c2 (List.mem_cons_of_mem c hc2)
      have hempty2 : ∀ c2 ∈ cs2, ∀ t ∈ newTeams, t.color = c2 → t.members = [] := by
        intro c2 hc2 t ht htc
        rw [hntdef] at ht
        obtain ⟨t0, ht0, ht0eq⟩ := List.mem_map.mp ht
        by_cases h : t0.color = c
        · rw [if_pos h] at ht0eq
          have : t.color = c := by rw [← ht0eq, h]
          rw [htc] at this
          exact absurd (this ▸ hc2) hnd.1
        · rw [if_neg h] at ht0eq
          rw [← ht0eq] at htc ⊢
          exact hempty c2 (List.mem_cons_of_mem c hc2) t0 ht0 htc
      have hIH := ih (n + 1) (newPool, newTeams) hlast
        (by simp only [List.length_cons] at htotal ⊢; omega) hnd.2 hnp_nodup hone2 hempty2
      have hrj : (newTeams.map Team.members).flatten ~
          ((st.2.map Team.members).flatten) ++ winners :=
        replace_join st.2 c winners (hone c hcmem) (hempty c hcmem)
      calc (((cs2.enumFrom (n + 1)).foldl (quickStep s colors genderTargets total)
            (newPool, newTeams)).2.map Team.members).flatten
          ~ (newTeams.map Team.members).flatten ++ newPool := hIH
        _ ~ (((st.2.map Team.members).flatten) ++ winners) ++ newPool :=
            List.Perm.append_right newPool hrj
        _ = ((st.2.map Team.members).flatten) ++ (winners ++ newPool) := by
            rw [List.append_assoc]
        _ ~ ((st.2.map Team.members).flatten) ++ st.1 :=
            List.Perm.append_left _ hsplit

/-- Every color of a from-scratch team list starts with empty members. -/
theorem membersOf_initial (colors : List TeamColor) (c : TeamColor) :
    membersOf (colors.map (fun c => ⟨c, [], "", 0⟩)) c = [] := by
  unfold membersOf teamFor
  cases hfind : (colors.map (fun c => (⟨c, [], "", 0⟩ : Team))).find?
      (fun t => t.color = c) with
  | none => rfl
  | some t =>
    have ht := List.mem_of_find?_eq_some hfind
    obtain ⟨c0, _, hc0⟩ := List.mem_map.mp ht
    rw [← hc0]

/-- C2. Running the batch allocation (`quickFinish` from scratch over a
nonempty duplicate-free color list, with the last remaining team taking
the whole leftover pool) distributes every roster player into exactly
one team's member list: the flattened member lists are a permutation of
the roster, and with distinct ids every roster player occurs exactly
once across all teams. -/
theorem claim_C2 (s : Shuffler) (hs : s.Fair) (colors : List TeamColor)
    (hne : colors ≠ []) (hnd : colors.Nodup) (roster : List Player)
    (hrnd : (roster.map Player.id).Nodup) :
    (((quickFinish s colors roster).map Team.members).flatten ~ roster) ∧
    (∀ p ∈ roster,
      (((quickFinish s colors roster).map Team.members).flatten).count p = 1) := by
  have hmain : ((quickFinish s colors roster).map Team.members).flatten ~ roster := by
    simp only [quickFinish]
    have hrem : colors.filter (fun c =>
        (membersOf (colors.map (fun c => ⟨c, [], "", 0⟩)) c).length = 0) = colors := by
      rw [List.filter_eq_self]
      intro c _
      rw [membersOf_initial]
      rfl
    rw [hrem]
    have hone : ∀ c ∈ colors,
        (((colors.map (fun c => (⟨c, [], "", 0⟩ : Team))).filter
          (fun t => t.color = c)).length = 1) := by
      intro c hc
      rw [List.filter_map]
      have : ((fun t : Team => decide (t.color = c)) ∘
          (fun c0 : TeamColor => (⟨c0, [], "", 0⟩ : Team))) =
          (fun x : TeamColor => decide (x = c)) := rfl
      rw [this, filter_eq_singleton_of_nodup hnd hc]
      rfl
    have hempty : ∀ c ∈ colors, ∀ t ∈ colors.map (fun c => (⟨c, [], "", 0⟩ : Team)),
        t.color = c → t.members = [] := by
      intro c _ t ht _
      obtain ⟨c0, _, hc0⟩ := List.mem_map.mp ht
      rw [← hc0]
    have hflat : ((colors.map (fun c => (⟨c, [], "", 0⟩ : Team))).map
        Team.members).flatten = [] := by
      rw [List.flatten_eq_nil_iff]
      intro l hl
      obtain ⟨t, ht, htl⟩ := List.mem_map.mp hl
      obtain ⟨c0, _, hc0⟩ := List.mem_map.mp ht
      rw [← htl, ← hc0]
    have h := quickFold_spec s hs colors (buildGenderTargets colors roster)
      colors.length colors 0
      (roster, colors.map (fun c => ⟨c, [], "", 0⟩)) hne (by simp) hnd hrnd hone hempty
    rw [hflat, List.nil_append] at h
    exact h
  refine ⟨hmain, fun p hp => ?_⟩
  rw [hmain.count_eq]
  exact List.count_eq_one_of_mem (List.Nodup.of_map Player.id hrnd) hp

/-- Witness for C2 at a concrete roster over the configured colors. -/
theorem claim_C2_witness :
    (((quickFinish idShuffler teamColorsList
        [⟨"a", "A", .male, 0, false, false⟩, ⟨"b", "B", .female, 0, false, false⟩,
         ⟨"c", "C", .male, 0, true, false⟩]).map Team.members).flatten ~
      [⟨"a", "A", .male, 0, false, false⟩, ⟨"b", "B", .female, 0, false, false⟩,
       ⟨"c", "C", .male, 0, true, false⟩]) ∧
    (∀ p ∈ ([⟨"a", "A", .male, 0, false, false⟩, ⟨"b", "B", .female, 0, false, false⟩,
        ⟨"c", "C", .male, 0, true, false⟩] : List Player),
      (((quickFinish idShuffler teamColorsList
        [⟨"a", "A", .male, 0, false, false⟩, ⟨"b", "B", .female, 0, false, false⟩,
         ⟨"c", "C", .male, 0, true, false⟩]).map Team.members).flatten).count p = 1) :=
  claim_C2 idShuffler idShuffler_fair teamColorsList (by decide) (by decide)
    [⟨"a", "A", .male, 0, false, false⟩, ⟨"b", "B", .female, 0, false, false⟩,
     ⟨"c", "C", .male, 0, true, false⟩] (by decide)

/-! ## Claim C5: global Game-1 helper selection -/

theorem cmpNat_gt_iff {a b : Nat} : cmpNat a b = .gt ↔ b < a := by
  unfold cmpNat
  by_cases h1 : a < b
  · simp [h1]
    all_goals omega
  · by_cases h2 : b < a
    · simp [h1, h2]
      all_goals omega
    · simp [h1, h2]
      all_goals omega

theorem cmpNat_eq_iff {a b : Nat} : cmpNat a b = .eq ↔ a = b := by
  unfold cmpNat
  by_cases h1 : a < b
  · simp [h1]
    all_goals omega
  · by_cases h2 : b < a
    · simp [h1, h2]
      all_goals omega
    · simp [h1, h2]
      all_goals omega

theorem cmpNat_lt_iff {a b : Nat} : cmpNat a b = .lt ↔ a < b := by
  unfold cmpNat
  by_cases h1 : a < b
  · simp [h1]
    all_goals omega
  · by_cases h2 : b < a
    · simp [h1, h2]
      all_goals omega
    · simp [h1, h2]
      all_goals omega

theorem cmpChars_refl (l : List Char) : cmpChars l l = .eq := by
  induction l with
  | nil => rfl
  | cons c cs ih =>
    unfold cmpChars
    rw [cmpNat_eq_iff.mpr rfl]
    exact ih

/-- Transitivity of strict Z-to-A dominance for character lists. -/
theorem cmpChars_gt_trans : ∀ {a b c : List Char},
    cmpChars a b = .gt → cmpChars b c = .gt → cmpChars a c = .gt := by
  intro a
  induction a with
  | nil =>
    intro b c hab
    exfalso
    cases b <;> simp [cmpChars] at hab
  | cons x xs ih =>
    intro b c hab hbc
    cases b with
    | nil => cases c <;> simp [cmpChars] at hbc
    | cons y ys =>
      cases c with
      | nil => rfl
      | cons z zs =>
        unfold cmpChars at hab hbc ⊢
        cases hxy : cmpNat x.toNat y.toNat with
        | lt => rw [hxy] at hab; cases hab
        | gt =>
          cases hyz : cmpNat y.toNat z.toNat with
          | lt => rw [hyz] at hbc; cases hbc
          | gt =>
            rw [cmpNat_gt_iff.mpr (by
              have h1 := cmpNat_gt_iff.mp hxy
              have h2 := cmpNat_gt_iff.mp hyz
              omega)]
          | eq =>
            rw [cmpNat_gt_iff.mpr (by
              have h1 := cmpNat_gt_iff.mp hxy
              have h2 := cmpNat_eq_iff.mp hyz
              omega)]
        | eq =>
          rw [hxy] at hab
          cases hyz : cmpNat y.toNat z.toNat with
          | lt => rw [hyz] at hbc; cases hbc
          | gt =>
            rw [cmpNat_gt_iff.mpr (by
              have h1 := cmpNat_eq_iff.mp hxy
              have h2 := cmpNat_gt_iff.mp hyz
              omega)]
          | eq =>
            rw [hyz] at hbc
            rw [cmpNat_eq_iff.mpr (by
              have h1 := cmpNat_eq_iff.mp hxy
              have h2 := cmpNat_eq_iff.mp hyz
              omega)]
            exact ih hab hbc

/-- Transitivity of non-dominance (the weak order) for character lists. -/
theorem cmpChars_ngt_trans : ∀ {a b c : List Char},
    cmpChars a b ≠ .gt → cmpChars b c ≠ .gt → cmpChars a c ≠ .gt := by
  intro a
  induction a with
  | nil =>
    intro b c _ _
    cases c <;> simp [cmpChars]
  | cons x xs ih =>
    intro b c hab hbc
    cases b with
    | nil => exact absurd rfl hab
    | cons y ys =>
      cases c with
      | nil => exact absurd rfl hbc
      | cons z zs =>
        unfold cmpChars at hab hbc ⊢
        cases hxy : cmpNat x.toNat y.toNat with
        | gt => rw [hxy] at hab; exact absurd rfl hab
        | lt =>
          cases hyz : cmpNat y.toNat z.toNat with
          | gt => rw [hyz] at hbc; exact absurd rfl hbc
          | lt =>
            rw [cmpNat_lt_iff.mpr (by
              have h1 := cmpNat_lt_iff.mp hxy
              have h2 := cmpNat_lt_iff.mp hyz
              omega)]
            intro h
            cases h
          | eq =>
            rw [cmpNat_lt_iff.mpr (by
              have h1 := cmpNat_lt_iff.mp hxy
              have h2 := cmpNat_eq_iff.mp hyz
              omega)]
            intro h
            cases h
        | eq =>
          rw [hxy] at hab
          cases hyz : cmpNat y.toNat z.toNat with
          | gt => rw [hyz] at hbc; exact absurd rfl hbc
          | lt =>
            rw [cmpNat_lt_iff.mpr (by
              have h1 := cmpNat_eq_iff.mp hxy
              have h2 := cmpNat_lt_iff.mp hyz
              omega)]
            intro h
            cases h
          | eq =>
            rw [hyz] at hbc
            rw [cmpNat_eq_iff.mpr (by
              have h1 := cmpNat_eq_iff.mp hxy
              have h2 := cmpNat_eq_iff.mp hyz
              omega)]
            exact ih hab hbc

theorem cmpKey_self_ne_gt (a : HelperInfo) : cmpKey a a ≠ .gt := by
  unfold cmpKey
  rw [cmpNat_eq_iff.mpr rfl, cmpChars_refl]
  intro h
  cases h

theorem cmpKey_gt_trans {a b c : HelperInfo} (hab : cmpKey a b = .gt)
    (hbc : cmpKey b c = .gt) : cmpKey a c = .gt := by
  unfold cmpKey at hab hbc ⊢
  cases hxy : cmpNat (firstCharKey a.player.name).toNat (firstCharKey b.player.name).toNat with
  | lt => rw [hxy] at hab; cases hab
  | gt =>
    cases hyz : cmpNat (firstCharKey b.player.name).toNat
        (firstCharKey c.player.name).toNat with
    | lt => rw [hyz] at hbc; cases hbc
    | gt =>
      rw [cmpNat_gt_iff.mpr (by
        have h1 := cmpNat_gt_iff.mp hxy
        have h2 := cmpNat_gt_iff.mp hyz
        omega)]
    | eq =>
      rw [cmpNat_gt_iff.mpr (by
        have h1 := cmpNat_gt_iff.mp hxy
        have h2 := cmpNat_eq_iff.mp hyz
        omega)]
  | eq =>
    rw [hxy] at hab
    cases hyz : cmpNat (firstCharKey b.player.name).toNat
        (firstCharKey c.player.name).toNat with
    | lt => rw [hyz] at hbc; cases hbc
    | gt =>
      rw [cmpNat_gt_iff.mpr (by
        have h1 := cmpNat_eq_iff.mp hxy
        have h2 := cmpNat_gt_iff.mp hyz
        omega)]
    | eq =>
      rw [hyz] at hbc
      rw [cmpNat_eq_iff.mpr (by
        have h1 := cmpNat_eq_iff.mp hxy
        have h2 := cmpNat_eq_iff.mp hyz
        omega)]
      exact cmpChars_gt_trans hab hbc

theorem cmpKey_ngt_trans {a b c : HelperInfo} (hab : cmpKey a b ≠ .gt)
    (hbc : cmpKey b c ≠ .gt) : cmpKey a c ≠ .gt := by
  unfold cmpKey at hab hbc ⊢
  cases hxy : cmpNat (firstCharKey a.player.name).toNat (firstCharKey b.player.name).toNat with
  | gt => rw [hxy] at hab; exact absurd rfl hab
  | lt =>
    cases hyz : cmpNat (firstCharKey b.player.name).toNat
        (firstCharKey c.player.name).toNat with
    | gt => rw [hyz] at hbc; exact absurd rfl hbc
    | lt =>
      rw [cmpNat_lt_iff.mpr (by
        have h1 := cmpNat_lt_iff.mp hxy
        have h2 := cmpNat_lt_iff.mp hyz
        omega)]
      intro h
      cases h
    | eq =>
      rw [cmpNat_lt_iff.mpr (by
        have h1 := cmpNat_lt_iff.mp hxy
        have h2 := cmpNat_eq_iff.mp hyz
        omega)]
      intro h
      cases h
  | eq =>
    rw [hxy] at hab
    cases hyz : cmpNat (firstCharKey b.player.name).toNat
        (firstCharKey c.player.name).toNat with
    | gt => rw [hyz] at hbc; exact absurd rfl hbc
    | lt =>
      rw [cmpNat_lt_iff.mpr (by
        have h1 := cmpNat_eq_iff.mp hxy
        have h2 := cmpNat_lt_iff.mp hyz
        omega)]
      intro h
      cases h
    | eq =>
      rw [hyz] at hbc
      rw [cmpNat_eq_iff.mpr (by
        have h1 := cmpNat_eq_iff.mp hxy
        have h2 := cmpNat_eq_iff.mp hyz
        omega)]
      exact cmpChars_ngt_trans hab hbc

/-- The fold of `pickGame1Helper` returns a list member that no element
of the list strictly dominates in the Z-to-A order. -/
theorem foldBest_spec (t : List HelperInfo) : ∀ h : HelperInfo,
    (t.foldl (fun best x => if cmpKey x best = .gt then x else best) h) ∈ h :: t ∧
    (∀ x ∈ h :: t,
      cmpKey x (t.foldl (fun best x => if cmpKey x best = .gt then x else best) h) ≠ .gt) := by
  induction t with
  | nil =>
    intro h
    refine ⟨List.mem_cons_self h [], ?_⟩
    intro x hx
    rw [List.mem_singleton] at hx
    subst hx
    exact cmpKey_self_ne_gt x
  | cons y ys ih =>
    intro h
    simp only [List.foldl_cons]
    by_cases hc : cmpKey y h = .gt
    · rw [if_pos hc]
      obtain ⟨ihmem, ihle⟩ := ih y
      refine ⟨?_, ?_⟩
      · rcases List.mem_cons.mp ihmem with he | hys
        · exact List.mem_cons_of_mem h (List.mem_cons.mpr (Or.inl he))
        · exact List.mem_cons_of_mem h (List.mem_cons_of_mem y hys)
      · intro x hx
        rcases List.mem_cons.mp hx with hxh | hxr
        · intro hgt
          apply ihle y (List.mem_cons_self y ys)
          exact cmpKey_gt_trans hc (hxh ▸ hgt)
        · exact ihle x hxr
    · rw [if_neg hc]
      obtain ⟨ihmem, ihle⟩ := ih h
      refine ⟨?_, ?_⟩
      · rcases List.mem_cons.mp ihmem with he | hys
        · exact List.mem_cons.mpr (Or.inl he)
        · exact List.mem_cons_of_mem h (List.mem_cons_of_mem y hys)
      · intro x hx
        rcases List.mem_cons.mp hx with hxh | hxr
        · exact hxh ▸ ihle h (List.mem_cons_self h ys)
        · rcases List.mem_cons.mp hxr with hxy | hxys
          · intro hgt
            exact (cmpKey_ngt_trans hc (ihle h (List.mem_cons_self h ys))) (hxy ▸ hgt)
          · exact ihle x (List.mem_cons_of_mem h hxys)

/-- `pickGame1Helper` on a nonempty list returns exactly one helper, a
member no other helper strictly dominates. -/
theorem pickGame1Helper_spec (infos : List HelperInfo) (hne : infos ≠ []) :
    ∃ b, pickGame1Helper infos = some b ∧ b ∈ infos ∧ ∀ x ∈ infos, cmpKey x b ≠ .gt := by
  match infos, hne with
  | h :: t, _ =>
    obtain ⟨hmem, hle⟩ := foldBest_spec t h
    exact ⟨_, rfl, hmem, hle⟩

/-- Every helper info of the anchor's gender really is a non-anchor
helper of that gender. -/
theorem helperInfosFor_sound (anchor : Option Player) (teams : List Team) (g : Gender) :
    ∀ x ∈ helperInfosFor anchor teams g,
      x.player.isHelper = true ∧ x.player.gender = g ∧ isAnchorP anchor x.player = false := by
  intro x hx
  unfold helperInfosFor at hx
  rw [List.mem_flatMap] at hx
  obtain ⟨c, _, hmem⟩ := hx
  rw [List.mem_map] at hmem
  obtain ⟨p, hp, hpx⟩ := hmem
  rw [List.mem_filter] at hp
  have hg : p.gender = g := by
    have := hp.1
    unfold genderAllOf at this
    rw [List.mem_filter] at this
    exact of_decide_eq_true this.2
  have hh := hp.2
  simp only [Bool.and_eq_true, Bool.not_eq_true'] at hh
  rw [← hpx]
  exact ⟨hh.1, hg, hh.2⟩

/-- C5. Whenever an anchor exists and at least one non-anchor helper of
the anchor's gender exists, exactly one helper id is selected globally:
`pickGame1HelperId` returns the id of a helper of the anchor's gender
that no other such helper strictly dominates under descending
case-insensitive first-letter comparison, tie-broken by descending
case-insensitive full-name comparison (`cmpKey`). -/
theorem claim_C5 (teams : List Team) (a : Player)
    (hanchor : findGame1Anchor teams = some a)
    (hne : helperInfosFor (some a) teams a.gender ≠ []) :
    ∃ b : HelperInfo, b ∈ helperInfosFor (some a) teams a.gender ∧
      pickGame1HelperId (helperInfosFor (some a) teams a.gender) = some b.player.id ∧
      b.player.isHelper = true ∧ b.player.gender = a.gender ∧ b.player.id ≠ a.id ∧
      (∀ x ∈ helperInfosFor (some a) teams a.gender, cmpKey x b ≠ .gt) := by
  obtain ⟨b, hpick, hmem, hle⟩ := pickGame1Helper_spec _ hne
  have hsound := helperInfosFor_sound (some a) teams a.gender b hmem
  have hid : b.player.id ≠ a.id := by
    have := hsound.2.2
    unfold isAnchorP at this
    simpa using this
  refine ⟨b, hmem, ?_, hsound.1, hsound.2.1, hid, hle⟩
  unfold pickGame1HelperId
  rw [hpick]
  rfl

/-- Witness for C5: a concrete team list with a flexible anchor and two
male helpers; the selection exists and is undominated. -/
theorem claim_C5_witness :
    findGame1Anchor [Team.mk TeamColor.red
      [⟨"x", "Xena", .male, 0, true, false⟩, ⟨"h1", "Alice", .male, 0, false, true⟩,
       ⟨"h2", "Zed", .male, 0, false, true⟩] "h" 0] =
      some ⟨"x", "Xena", .male, 0, true, false⟩ ∧
    ∃ b : HelperInfo, b ∈ helperInfosFor (some ⟨"x", "Xena", .male, 0, true, false⟩)
        [Team.mk TeamColor.red
          [⟨"x", "Xena", .male, 0, true, false⟩, ⟨"h1", "Alice", .male, 0, false, true⟩,
           ⟨"h2", "Zed", .male, 0, false, true⟩] "h" 0]
        (Player.mk "x" "Xena" .male 0 true false).gender ∧
      pickGame1HelperId (helperInfosFor (some ⟨"x", "Xena", .male, 0, true, false⟩)
        [Team.mk TeamColor.red
          [⟨"x", "Xena", .male, 0, true, false⟩, ⟨"h1", "Alice", .male, 0, false, true⟩,
           ⟨"h2", "Zed", .male, 0, false, true⟩] "h" 0]
        (Player.mk "x" "Xena" .male 0 true false).gender) = some b.player.id ∧
      b.player.isHelper = true ∧
      b.player.gender = (Player.mk "x" "Xena" .male 0 true false).gender ∧
      b.player.id ≠ (Player.mk "x" "Xena" .male 0 true false).id ∧
      (∀ x ∈ helperInfosFor (some ⟨"x", "Xena", .male, 0, true, false⟩)
        [Team.mk TeamColor.red
          [⟨"x", "Xena", .male, 0, true, false⟩, ⟨"h1", "Alice", .male, 0, false, true⟩,
           ⟨"h2", "Zed", .male, 0, false, true⟩] "h" 0]
        (Player.mk "x" "Xena" .male 0 true false).gender, cmpKey x b ≠ .gt) :=
  ⟨by decide, claim_C5 [Team.mk TeamColor.red
      [⟨"x", "Xena", .male, 0, true, false⟩, ⟨"h1", "Alice", .male, 0, false, true⟩,
       ⟨"h2", "Zed", .male, 0, false, true⟩] "h" 0]
    ⟨"x", "Xena", .male, 0, true, false⟩ (by decide) (by decide)⟩

/-! ## Claims C6 and C7: empty rows and the degenerate case -/

theorem buildOrderedList_nil (s : Shuffler) (anchor : Option Player)
    (g1HelperId : Option String) (asg : List (String × HelperBucket)) (c : TeamColor)
    (g : Gender) : buildOrderedList s anchor g1HelperId asg c g [] = [] := by
  simp [buildOrderedList]

theorem genderAllOf_nil (anchor : Option Player) (teams : List Team) (c : TeamColor)
    (g : Gender) (h : membersOf teams c = []) : genderAllOf anchor teams c g = [] := by
  simp [genderAllOf, genderSpecificOf, h]

theorem teamPoolGender_nil (s : Shuffler) (anchor : Option Player)
    (g1HelperId : Option String) (asg : List (String × HelperBucket)) (teams : List Team)
    (c : TeamColor) (g : Gender) (h : membersOf teams c = []) :
    teamPoolGender s anchor g1HelperId asg teams c g = [] := by
  have hga := genderAllOf_nil anchor teams c g h
  have hlocked : lockedOf anchor teams c g = none := by
    simp [lockedOf, hga]
  have hpending : pendingOf anchor teams c g = [] := by
    simp [pendingOf, hlocked, hga]
  simp [teamPoolGender, hlocked, hpending, buildOrderedList_nil]

theorem teamPoolFlex_nil (s : Shuffler) (hs : s.Fair) (anchor : Option Player)
    (teams : List Team) (c : TeamColor) (h : membersOf teams c = []) :
    teamPoolFlex s anchor teams c = [] := by
  have hraw : flexibleRawOf anchor teams c = [] := by
    simp [flexibleRawOf, h]
  unfold teamPoolFlex
  rw [hraw, (hs.1 _ []).eq_nil, (hs.1 _ []).eq_nil]

theorem findGame1Anchor_none (teams : List Team) (h : ∀ c, membersOf teams c = []) :
    findGame1Anchor teams = none := by
  simp [findGame1Anchor, teamColorsList, h]

/-- With every configured pool empty, the emission stage produces no
rows at all. -/
theorem generateRows_empty (s : Shuffler) (hs : s.Fair) (teams : List Team)
    (h : ∀ c, membersOf teams c = []) : generateRows s teams = [] := by
  have hanchor : anchorOf teams = none := findGame1Anchor_none teams h
  have htp : ∀ (anc : Option Player) (g1 : Option String)
      (asg : List (String × HelperBucket)) (c : TeamColor) (g : Gender),
      teamPoolGender s anc g1 asg teams c g = [] :=
    fun anc g1 asg c g => teamPoolGender_nil s anc g1 asg teams c g (h c)
  have hctxm : matchCtxOf s teams =
      ⟨fun _ => [], fun _ => [], fun _ => [], 0, 0, 0⟩ := by
    unfold matchCtxOf
    simp only [htp]
    rfl
  have hfq : flexQueuesOf s teams = ⟨[], [], [], [], [], []⟩ := by
    unfold flexQueuesOf
    rw [teamPoolFlex_nil s hs (anchorOf teams) teams .red (h .red),
      teamPoolFlex_nil s hs (anchorOf teams) teams .blue (h .blue),
      teamPoolFlex_nil s hs (anchorOf teams) teams .green (h .green),
      teamPoolFlex_nil s hs (anchorOf teams) teams .yellow (h .yellow),
      teamPoolFlex_nil s hs (anchorOf teams) teams .pink (h .pink),
      teamPoolFlex_nil s hs (anchorOf teams) teams .purple (h .purple)]
  unfold generateRows
  rw [hctxm, hfq, hanchor]
  rfl

/-- C7. The matchup engine is total in the embedding and, whatever the
input team list, returns a nonempty well-formed result; when every
configured color has an empty pool (covering the empty team list,
missing colors and empty member lists alike), it returns exactly one
matchup with id 1 and a null player for every color. -/
theorem claim_C7 (s : Shuffler) (hs : s.Fair) :
    (∀ teams : List Team, generateMatchups s teams ≠ []) ∧
    (∀ teams : List Team, (∀ c, membersOf teams c = []) →
      generateMatchups s teams = [⟨1, teamColorsList.map (fun c => ⟨c, none⟩)⟩]) := by
  constructor
  · intro teams
    unfold generateMatchups
    by_cases h : (generateRows s teams).length = 0
    · rw [if_pos h]
      intro hcon
      cases hcon
    · rw [if_neg h]
      intro hcon
      have hlen := congrArg List.length hcon
      rw [List.length_map, List.enum_length, List.length_nil] at hlen
      exact h hlen
  · intro teams h
    unfold generateMatchups
    rw [generateRows_empty s hs teams h]
    rfl

/-- Witness for C7 at the empty team list with the identity shuffler. -/
theorem claim_C7_witness :
    Shuffler.Fair idShuffler ∧
    generateMatchups idShuffler [] ≠ [] ∧
    generateMatchups idShuffler [] = [⟨1, teamColorsList.map (fun c => ⟨c, none⟩)⟩] :=
  ⟨idShuffler_fair,
   (claim_C7 idShuffler idShuffler_fair).1 [],
   (claim_C7 idShuffler idShuffler_fair).2 [] (fun c => by cases c <;> rfl)⟩

/-- `pushRow` preserves the every-row-has-a-player invariant: a row is
only appended when one of its cells is non-null. -/
theorem pushRow_any (acc : List Matchup) (row : List MatchupPlayer)
    (hacc : ∀ r ∈ acc, r.players.any (fun e => e.player.isSome) = true) :
    ∀ r ∈ pushRow acc row, r.players.any (fun e => e.player.isSome) = true := by
  intro r hr
  unfold pushRow at hr
  by_cases h : row.any (fun e => e.player.isSome) = true
  · rw [if_pos h] at hr
    rcases List.mem_append.mp hr with hr1 | hr2
    · exact hacc r hr1
    · rw [List.mem_singleton] at hr2
      rw [hr2]
      exact h
  · rw [if_neg h] at hr
    exact hacc r hr

/-- The emission loop only appends rows with at least one player. -/
theorem emitLoop_any (ctx : MatchCtx) :
    ∀ (fuel : Nat) (m f nb : Nat) (pm : Bool) (fq : FlexQueues) (acc : List Matchup),
      (∀ r ∈ acc, r.players.any (fun e => e.player.isSome) = true) →
      ∀ r ∈ (emitLoop ctx fuel m f nb pm fq acc).1,
        r.players.any (fun e => e.player.isSome) = true := by
  intro fuel
  induction fuel with
  | zero =>
    intro m f nb pm fq acc hacc
    exact hacc
  | succ k ih =>
    intro m f nb pm fq acc hacc r hr
    rw [emitLoop] at hr
    by_cases h1 : m < ctx.M ∨ f < ctx.F ∨ nb < ctx.NB
    · rw [if_pos h1] at hr
      by_cases h2 : pm ∧ m < ctx.M
      · rw [if_pos h2] at hr
        exact ih _ _ _ _ _ _ (pushRow_any _ _ hacc) r hr
      · rw [if_neg h2] at hr
        by_cases h3 : ¬pm ∧ f < ctx.F
        · rw [if_pos h3] at hr
          exact ih _ _ _ _ _ _ (pushRow_any _ _ hacc) r hr
        · rw [if_neg h3] at hr
          by_cases h4 : m < ctx.M
          · rw [if_pos h4] at hr
            exact ih _ _ _ _ _ _ (pushRow_any _ _ hacc) r hr
          · rw [if_neg h4] at hr
            by_cases h5 : f < ctx.F
            · rw [if_pos h5] at hr
              exact ih _ _ _ _ _ _ (pushRow_any _ _ hacc) r hr
            · rw [if_neg h5] at hr
              by_cases h6 : nb < ctx.NB
              · rw [if_pos h6] at hr
                exact ih _ _ _ _ _ _ (pushRow_any _ _ hacc) r hr
              · rw [if_neg h6] at hr
                exact hacc r hr
    · rw [if_neg h1] at hr
      exact hacc r hr

/-- The flexible drain only appends rows with at least one player. -/
theorem drainFlex_any :
    ∀ (fuel : Nat) (fq : FlexQueues) (acc : List Matchup),
      (∀ r ∈ acc, r.players.any (fun e => e.player.isSome) = true) →
      ∀ r ∈ drainFlex fuel fq acc, r.players.any (fun e => e.player.isSome) = true := by
  intro fuel
  induction fuel with
  | zero =>
    intro fq acc hacc
    exact hacc
  | succ k ih =>
    intro fq acc hacc r hr
    rw [drainFlex] at hr
    by_cases h : teamColorsList.any (fun c => !(fq.get c).isEmpty) = true
    · rw [if_pos h] at hr
      exact ih _ _ (pushRow_any _ _ hacc) r hr
    · rw [if_neg h] at hr
      exact hacc r hr

/-- Every row of the emission stage has at least one non-null player. -/
theorem generateRows_any (s : Shuffler) (teams : List Team) :
    ∀ r ∈ generateRows s teams, r.players.any (fun e => e.player.isSome) = true := by
  unfold generateRows
  apply drainFlex_any
  apply emitLoop_any
  by_cases h : ((match anchorOf teams with
      | some a => decide (a.gender = Gender.nonBinary)
      | none => false) = true) ∧ 0 < (matchCtxOf s teams).NB
  · rw [if_pos h]
    apply pushRow_any
    intro r hr
    cases hr
  · rw [if_neg h]
    intro r hr
    cases hr

/-- The payload of an enumerated entry is a member of the list. -/
theorem snd_mem_of_mem_enumFrom (l : List Matchup) :
    ∀ (n : Nat) (x : Nat × Matchup), x ∈ l.enumFrom n → x.2 ∈ l := by
  induction l with
  | nil =>
    intro n x hx
    cases hx
  | cons a t ih =>
    intro n x hx
    rw [List.enumFrom_cons] at hx
    rcases List.mem_cons.mp hx with heq | hmem
    · rw [heq]
      exact List.mem_cons_self a t
    · exact List.mem_cons_of_mem a (ih (n + 1) x hmem)

/-- C6 counterexample: the claim "no returned matchup is all-null" fails
on the empty team list, where the degenerate single row is all-null
(here with the fair identity shuffler). -/
theorem claim_C6_counterexample :
    Shuffler.Fair idShuffler ∧
    ∃ m ∈ generateMatchups idShuffler [],
      m.players.all (fun e => e.player.isNone) = true :=
  ⟨idShuffler_fair, ⟨⟨1, teamColorsList.map (fun c => ⟨c, none⟩)⟩, by decide⟩⟩

/-- C6 (amended). An all-null matchup can only be the degenerate
fallback: whenever some returned matchup has a null player for every
color, the whole result is exactly the single degenerate row with id 1
— every row actually produced by the emission stage is dropped unless
some team's slot is filled. -/
theorem claim_C6 (s : Shuffler) (teams : List Team) :
    ∀ m ∈ generateMatchups s teams, m.players.all (fun e => e.player.isNone) = true →
      generateMatchups s teams = [⟨1, teamColorsList.map (fun c => ⟨c, none⟩)⟩] := by
  intro m hm hnull
  unfold generateMatchups at hm ⊢
  by_cases h : (generateRows s teams).length = 0
  · rw [if_pos h]
  · exfalso
    rw [if_neg h] at hm
    obtain ⟨im, him, himeq⟩ := List.mem_map.mp hm
    have hrow : im.2 ∈ generateRows s teams :=
      snd_mem_of_mem_enumFrom (generateRows s teams) 0 im him
    have hany := generateRows_any s teams im.2 hrow
    have hplayers : m.players = im.2.players := by rw [← himeq]
    rw [hplayers] at hnull
    rw [List.all_eq_true] at hnull
    rw [List.any_eq_true] at hany
    obtain ⟨e, he, hsome⟩ := hany
    have := hnull e he
    rw [Option.isNone_iff_eq_none] at this
    rw [this] at hsome
    cases hsome

/-- Witness for C6 discharging its hypotheses at the empty team list. -/
theorem claim_C6_witness :
    generateMatchups idShuffler [] =
      [⟨1, teamColorsList.map (fun c => ⟨c, none⟩)⟩] :=
  claim_C6 idShuffler [] ⟨1, teamColorsList.map (fun c => ⟨c, none⟩)⟩ (by decide) (by decide)

/-! ## Claim C4: the two-team no-anchor scenario -/

theorem fair_sh_nil (s : Shuffler) (hs : s.Fair) (tag : Nat) : s.sh tag [] = [] :=
  (hs.1 tag []).eq_nil

theorem fair_sh_singleton (s : Shuffler) (hs : s.Fair) (tag : Nat) (x : Player) :
    s.sh tag [x] = [x] :=
  List.perm_singleton.mp (hs.1 tag [x])

/-- Ordering a one-element non-helper pool with no anchor keeps the
single element. -/
theorem buildOrderedList_single_regular (s : Shuffler) (hs : s.Fair) (c : TeamColor)
    (g : Gender) (x : Player) (hxh : x.isHelper = false) :
    buildOrderedList s none none [] c g [x] = [x] := by
  cases g with
  | nonBinary =>
    simp [buildOrderedList, getHelperSlotConfig, getHelperBaseSlotConfig,
      fair_sh_singleton s hs]
  | male =>
    simp [buildOrderedList, getHelperSlotConfig, getHelperBaseSlotConfig,
      fair_sh_singleton s hs, fair_sh_nil s hs, hxh, placeSlots, bucketLookup]
  | female =>
    simp [buildOrderedList, getHelperSlotConfig, getHelperBaseSlotConfig,
      fair_sh_singleton s hs, fair_sh_nil s hs, hxh, placeSlots, bucketLookup]

/-- The two-round emission of the C4 scenario, first component. -/
theorem emitTwoRows_fst (m1 m2 f1 f2 : Player) :
    (emitLoop ⟨(fun c => match c with | .red => [m1] | .blue => [m2] | _ => []),
      (fun c => match c with | .red => [f1] | .blue => [f2] | _ => []),
      (fun _ => []), 1, 1, 0⟩ 2 0 0 0 true ⟨[], [], [], [], [], []⟩ []).1 =
      [⟨1, [⟨.red, some m1⟩, ⟨.blue, some m2⟩, ⟨.green, none⟩, ⟨.yellow, none⟩,
            ⟨.pink, none⟩, ⟨.purple, none⟩]⟩,
       ⟨2, [⟨.red, some f1⟩, ⟨.blue, some f2⟩, ⟨.green, none⟩, ⟨.yellow, none⟩,
            ⟨.pink, none⟩, ⟨.purple, none⟩]⟩] := rfl

/-- The two-round emission of the C4 scenario, final queues. -/
theorem emitTwoRows_snd (m1 m2 f1 f2 : Player) :
    (emitLoop ⟨(fun c => match c with | .red => [m1] | .blue => [m2] | _ => []),
      (fun c => match c with | .red => [f1] | .blue => [f2] | _ => []),
      (fun _ => []), 1, 1, 0⟩ 2 0 0 0 true ⟨[], [], [], [], [], []⟩ []).2 =
      ⟨[], [], [], [], [], []⟩ := rfl

/-- C4. On teams `[Red: male m1 + female f1, Blue: male m2 + female f2]`
with no flexible and no helper players (hence no anchor), the engine,
for every fair shuffler, emits exactly two rounds: Round 1 is the male
row with m1 in the Red slot and m2 in the Blue slot, Round 2 is the
female row with f1 and f2; the Red and Blue entries of both rounds are
non-null and the remaining configured colors are null. -/
theorem claim_C4 (s : Shuffler) (hs : s.Fair) (m1 f1 m2 f2 : Player) (hx1 hx2 : String)
    (sc1 sc2 : Int)
    (hm1g : m1.gender = .male) (hf1g : f1.gender = .female)
    (hm2g : m2.gender = .male) (hf2g : f2.gender = .female)
    (hm1f : m1.noGenderRestriction = false) (hf1f : f1.noGenderRestriction = false)
    (hm2f : m2.noGenderRestriction = false) (hf2f : f2.noGenderRestriction = false)
    (hm1h : m1.isHelper = false) (hf1h : f1.isHelper = false)
    (hm2h : m2.isHelper = false) (hf2h : f2.isHelper = false) :
    generateMatchups s [⟨.red, [m1, f1], hx1, sc1⟩, ⟨.blue, [m2, f2], hx2, sc2⟩] =
      [⟨1, [⟨.red, some m1⟩, ⟨.blue, some m2⟩, ⟨.green, none⟩, ⟨.yellow, none⟩,
            ⟨.pink, none⟩, ⟨.purple, none⟩]⟩,
       ⟨2, [⟨.red, some f1⟩, ⟨.blue, some f2⟩, ⟨.green, none⟩, ⟨.yellow, none⟩,
            ⟨.pink, none⟩, ⟨.purple, none⟩]⟩] := by
  set teams : List Team := [⟨.red, [m1, f1], hx1, sc1⟩, ⟨.blue, [m2, f2], hx2, sc2⟩]
    with hteams
  have hmembers : ∀ c : TeamColor, membersOf teams c =
      (match c with
       | .red => [m1, f1]
       | .blue => [m2, f2]
       | _ => []) := by
    intro c
    cases c <;> rfl
  have hanchor : anchorOf teams = none := by
    unfold anchorOf findGame1Anchor
    simp only [teamColorsList, List.findSome?_cons, List.findSome?_nil, hmembers]
    simp [List.find?_cons, hm1f, hf1f, hm2f, hf2f]
  have hg1 : game1HelperIdOf teams = none := by
    unfold game1HelperIdOf
    rw [hanchor]
  have hinfos : ∀ g, helperInfosFor none teams g = [] := by
    intro g
    unfold helperInfosFor
    simp only [teamColorsList, List.flatMap_cons, List.flatMap_nil]
    have hga : ∀ c, genderAllOf none teams c g =
        ((membersOf teams c).filter (fun m => !m.noGenderRestriction || false)).filter
          (fun m => m.gender = g) := by
      intro c
      rfl
    simp only [hmembers, genderAllOf, genderSpecificOf, isAnchorP]
    simp [List.filter_cons, hm1f, hf1f, hm2f, hf2f, hm1h, hf1h, hm2h, hf2h,
      List.filter_nil]
    constructor
    · intro a ha
      have hmem : a = m1 ∨ a = f1 := by
        by_cases h1 : m1.gender = g
        · rw [if_pos h1] at ha
          rcases List.mem_cons.mp ha with h | h
          · exact Or.inl h
          · by_cases h2 : f1.gender = g
            · rw [if_pos h2] at h
              rw [List.mem_singleton] at h
              exact Or.inr h
            · rw [if_neg h2] at h
              cases h
        · rw [if_neg h1] at ha
          by_cases h2 : f1.gender = g
          · rw [if_pos h2] at ha
            rw [List.mem_singleton] at ha
            exact Or.inr ha
          · rw [if_neg h2] at ha
            cases ha
      rcases hmem with h | h
      · rw [h]
        exact hm1h
      · rw [h]
        exact hf1h
    · intro a ha
      have hmem : a = m2 ∨ a = f2 := by
        by_cases h1 : m2.gender = g
        · rw [if_pos h1] at ha
          rcases List.mem_cons.mp ha with h | h
          · exact Or.inl h
          · by_cases h2 : f2.gender = g
            · rw [if_pos h2] at h
              rw [List.mem_singleton] at h
              exact Or.inr h
            · rw [if_neg h2] at h
              cases h
        · rw [if_neg h1] at ha
          by_cases h2 : f2.gender = g
          · rw [if_pos h2] at ha
            rw [List.mem_singleton] at ha
            exact Or.inr ha
          · rw [if_neg h2] at ha
            cases ha
      rcases hmem with h | h
      · rw [h]
        exact hm2h
      · rw [h]
        exact hf2h
  have hasg : assignmentsOf s teams = [] := by
    unfold assignmentsOf assignBucketsForGender
    rw [hanchor, hg1]
    simp [hinfos]
  have hlocked : ∀ c g, lockedOf none teams c g = none := by
    intro c g
    unfold lockedOf
    rw [List.find?_eq_none]
    intro p _
    simp [isAnchorP]
  have hga : ∀ g, genderAllOf none teams .red g = [m1, f1].filter (fun m => m.gender = g) := by
    intro g
    unfold genderAllOf genderSpecificOf
    rw [hmembers]
    simp [isAnchorP, List.filter_cons, hm1f, hf1f]
  have hgb : ∀ g, genderAllOf none teams .blue g =
      [m2, f2].filter (fun m => m.gender = g) := by
    intro g
    unfold genderAllOf genderSpecificOf
    rw [hmembers]
    simp [isAnchorP, List.filter_cons, hm2f, hf2f]
  have hgo : ∀ c g, c ≠ TeamColor.red → c ≠ TeamColor.blue →
      genderAllOf none teams c g = [] := by
    intro c g h1 h2
    unfold genderAllOf genderSpecificOf
    rw [hmembers]
    cases c with
    | red => exact absurd rfl h1
    | blue => exact absurd rfl h2
    | green => rfl
    | yellow => rfl
    | pink => rfl
    | purple => rfl
  have hpools : ∀ c g,
      teamPoolGender s none none [] teams c g =
        (match c, g with
         | .red, .male => [m1]
         | .red, .female => [f1]
         | .blue, .male => [m2]
         | .blue, .female => [f2]
         | _, _ => []) := by
    intro c g
    unfold teamPoolGender pendingOf
    rw [hlocked c g]
    cases c with
    | red =>
      rw [hga g]
      cases g with
      | male =>
        rw [show [m1, f1].filter (fun m => m.gender = Gender.male) = [m1] by
          simp [List.filter_cons, hm1g, hf1g]]
        exact buildOrderedList_single_regular s hs _ _ m1 hm1h
      | female =>
        rw [show [m1, f1].filter (fun m => m.gender = Gender.female) = [f1] by
          simp [List.filter_cons, hm1g, hf1g]]
        exact buildOrderedList_single_regular s hs _ _ f1 hf1h
      | nonBinary =>
        rw [show [m1, f1].filter (fun m => m.gender = Gender.nonBinary) = [] by
          simp [List.filter_cons, hm1g, hf1g]]
        exact buildOrderedList_nil s none none [] _ _
    | blue =>
      rw [hgb g]
      cases g with
      | male =>
        rw [show [m2, f2].filter (fun m => m.gender = Gender.male) = [m2] by
          simp [List.filter_cons, hm2g, hf2g]]
        exact buildOrderedList_single_regular s hs _ _ m2 hm2h
      | female =>
        rw [show [m2, f2].filter (fun m => m.gender = Gender.female) = [f2] by
          simp [List.filter_cons, hm2g, hf2g]]
        exact buildOrderedList_single_regular s hs _ _ f2 hf2h
      | nonBinary =>
        rw [show [m2, f2].filter (fun m => m.gender = Gender.nonBinary) = [] by
          simp [List.filter_cons, hm2g, hf2g]]
        exact buildOrderedList_nil s none none [] _ _
    | green =>
      rw [hgo _ g (by intro h; cases h) (by intro h; cases h)]
      cases g <;> exact buildOrderedList_nil s none none [] _ _
    | yellow =>
      rw [hgo _ g (by intro h; cases h) (by intro h; cases h)]
      cases g <;> exact buildOrderedList_nil s none none [] _ _
    | pink =>
      rw [hgo _ g (by intro h; cases h) (by intro h; cases h)]
      cases g <;> exact buildOrderedList_nil s none none [] _ _
    | purple =>
      rw [hgo _ g (by intro h; cases h) (by intro h; cases h)]
      cases g <;> exact buildOrderedList_nil s none none [] _ _
  have hctx : matchCtxOf s teams =
      ⟨(fun c => match c with | .red => [m1] | .blue => [m2] | _ => []),
       (fun c => match c with | .red => [f1] | .blue => [f2] | _ => []),
       (fun _ => []), 1, 1, 0⟩ := by
    unfold matchCtxOf
    rw [hanchor, hg1, hasg]
    have hm : (fun c => teamPoolGender s none none [] teams c Gender.male) =
        (fun c => match c with | TeamColor.red => [m1] | TeamColor.blue => [m2] | _ => []) := by
      funext c
      rw [hpools c Gender.male]
      cases c <;> rfl
    have hf : (fun c => teamPoolGender s none none [] teams c Gender.female) =
        (fun c => match c with | TeamColor.red => [f1] | TeamColor.blue => [f2] | _ => []) := by
      funext c
      rw [hpools c Gender.female]
      cases c <;> rfl
    have hnb : (fun c => teamPoolGender s none none [] teams c Gender.nonBinary) =
        (fun _ : TeamColor => ([] : List Player)) := by
      funext c
      rw [hpools c Gender.nonBinary]
      cases c <;> rfl
    rw [hm, hf, hnb]
    rfl
  have hflexraw : ∀ c, flexibleRawOf none teams c = [] := by
    intro c
    unfold flexibleRawOf
    rw [hmembers]
    cases c <;> simp [List.filter_cons, hm1f, hf1f, hm2f, hf2f, isAnchorP]
  have hfq : flexQueuesOf s teams = ⟨[], [], [], [], [], []⟩ := by
    unfold flexQueuesOf teamPoolFlex
    rw [hanchor]
    simp only [hflexraw, fair_sh_nil s hs]
  have hrows : generateRows s teams =
      [⟨1, [⟨.red, some m1⟩, ⟨.blue, some m2⟩, ⟨.green, none⟩, ⟨.yellow, none⟩,
            ⟨.pink, none⟩, ⟨.purple, none⟩]⟩,
       ⟨2, [⟨.red, some f1⟩, ⟨.blue, some f2⟩, ⟨.green, none⟩, ⟨.yellow, none⟩,
            ⟨.pink, none⟩, ⟨.purple, none⟩]⟩] := by
    unfold generateRows
    rw [hctx, hfq, hanchor]
    show drainFlex
        (FlexQueues.total (emitLoop
          ⟨(fun c => match c with | .red => [m1] | .blue => [m2] | _ => []),
           (fun c => match c with | .red => [f1] | .blue => [f2] | _ => []),
           (fun _ => []), 1, 1, 0⟩ 2 0 0 0 true ⟨[], [], [], [], [], []⟩ []).2)
        (emitLoop
          ⟨(fun c => match c with | .red => [m1] | .blue => [m2] | _ => []),
           (fun c => match c with | .red => [f1] | .blue => [f2] | _ => []),
           (fun _ => []), 1, 1, 0⟩ 2 0 0 0 true ⟨[], [], [], [], [], []⟩ []).2
        (emitLoop
          ⟨(fun c => match c with | .red => [m1] | .blue => [m2] | _ => []),
           (fun c => match c with | .red => [f1] | .blue => [f2] | _ => []),
           (fun _ => []), 1, 1, 0⟩ 2 0 0 0 true ⟨[], [], [], [], [], []⟩ []).1 =
      [⟨1, [⟨.red, some m1⟩, ⟨.blue, some m2⟩, ⟨.green, none⟩, ⟨.yellow, none⟩,
            ⟨.pink, none⟩, ⟨.purple, none⟩]⟩,
       ⟨2, [⟨.red, some f1⟩, ⟨.blue, some f2⟩, ⟨.green, none⟩, ⟨.yellow, none⟩,
            ⟨.pink, none⟩, ⟨.purple, none⟩]⟩]
    rw [emitTwoRows_fst m1 m2 f1 f2, emitTwoRows_snd m1 m2 f1 f2]
    rfl
  unfold generateMatchups
  rw [hrows]
  rfl

/-- Witness for C4 at concrete players with the identity shuffler. -/
theorem claim_C4_witness :
    generateMatchups idShuffler
      [⟨.red, [⟨"m1", "M1", .male, 0, false, false⟩, ⟨"f1", "F1", .female, 0, false, false⟩],
        "a", 0⟩,
       ⟨.blue, [⟨"m2", "M2", .male, 0, false, false⟩, ⟨"f2", "F2", .female, 0, false, false⟩],
        "b", 0⟩] =
      [⟨1, [⟨.red, some ⟨"m1", "M1", .male, 0, false, false⟩⟩,
            ⟨.blue, some ⟨"m2", "M2", .male, 0, false, false⟩⟩, ⟨.green, none⟩,
            ⟨.yellow, none⟩, ⟨.pink, none⟩, ⟨.purple, none⟩]⟩,
       ⟨2, [⟨.red, some ⟨"f1", "F1", .female, 0, false, false⟩⟩,
            ⟨.blue, some ⟨"f2", "F2", .female, 0, false, false⟩⟩, ⟨.green, none⟩,
            ⟨.yellow, none⟩, ⟨.pink, none⟩, ⟨.purple, none⟩]⟩] :=
  claim_C4 idShuffler idShuffler_fair
    ⟨"m1", "M1", .male, 0, false, false⟩ ⟨"f1", "F1", .female, 0, false, false⟩
    ⟨"m2", "M2", .male, 0, false, false⟩ ⟨"f2", "F2", .female, 0, false, false⟩
    "a" "b" 0 0 rfl rfl rfl rfl rfl rfl rfl rfl rfl rfl rfl rfl

/-! ## Claim C9: every player in exactly one cell of their own column -/

theorem cellsFor_append (l1 l2 : List MatchupPlayer) (c : TeamColor) :
    cellsFor (l1 ++ l2) c = cellsFor l1 c ++ cellsFor l2 c := by
  unfold cellsFor
  rw [List.filterMap_append]

theorem columnPlayers_append (r1 r2 : List Matchup) (c : TeamColor) :
    columnPlayers (r1 ++ r2) c = columnPlayers r1 c ++ columnPlayers r2 c := by
  unfold columnPlayers
  rw [List.flatMap_append]

theorem get_set_same (q : FlexQueues) (c : TeamColor) (l : List Player) :
    (q.set c l).get c = l := by
  cases c <;> rfl

theorem get_set_ne (q : FlexQueues) (c c' : TeamColor) (l : List Player)
    (h : c' ≠ c) : (q.set c l).get c' = q.get c' := by
  cases c <;> cases c' <;> first | rfl | exact absurd rfl h

theorem get_popAll (q : FlexQueues) (c : TeamColor) :
    q.popAll.get c = (q.get c).tail := by
  cases c <;> rfl

theorem length_get_le_total (q : FlexQueues) (c : TeamColor) :
    (q.get c).length ≤ q.total := by
  cases c <;> simp [FlexQueues.get, FlexQueues.total] <;> omega

/-- `extractFirst` without a hit returns the queue unchanged. -/
theorem extractFirst_none (pred : Player → Bool) :
    ∀ l : List Player, (extractFirst pred l).1 = none → (extractFirst pred l).2 = l := by
  intro l
  induction l with
  | nil => intro _; rfl
  | cons p ps ih =>
    intro h
    unfold extractFirst at h ⊢
    by_cases hp : pred p = true
    · rw [if_pos hp] at h
      cases h
    · rw [if_neg hp] at h ⊢
      simp only at h ⊢
      rw [ih h]

/-- `extractFirst` with a hit splits off exactly that element. -/
theorem extractFirst_some (pred : Player → Bool) :
    ∀ (l : List Player) (p : Player), (extractFirst pred l).1 = some p →
      l ~ p :: (extractFirst pred l).2 := by
  intro l
  induction l with
  | nil => intro p h; cases h
  | cons q qs ih =>
    intro p h
    unfold extractFirst at h ⊢
    by_cases hq : pred q = true
    · rw [if_pos hq] at h ⊢
      simp only [Option.some.injEq] at h
      rw [h]
    · rw [if_neg hq] at h ⊢
      simp only at h ⊢
      exact ((ih p h).cons q).trans (List.Perm.swap p q _)

/-- One `getNextPlayer` call conserves players: the emitted cell plus
the new queue of the addressed color is a permutation of the addressed
gender-array entry plus the old queue. -/
theorem getNextPlayer_perm (ctx : MatchCtx) (c : TeamColor) (g : Gender) (i : Nat)
    (fq : FlexQueues) :
    ((getNextPlayer ctx c g i fq).1).toList ++ ((getNextPlayer ctx c g i fq).2).get c ~
      (((genderArrayOf ctx c g)[i]?).toList) ++ fq.get c := by
  unfold getNextPlayer
  cases harr : (genderArrayOf ctx c g)[i]? with
  | some p => simp [harr]
  | none =>
    simp only [harr]
    cases hext : (extractFirst (fun p => p.gender = g) (fq.get c)).1 with
    | some p =>
      simp only [hext, get_set_same, Option.toList, List.nil_append]
      exact (extractFirst_some _ (fq.get c) p hext).symm
    | none => simp [hext]

/-- `getNextPlayer` leaves every other color's queue untouched. -/
theorem getNextPlayer_frame (ctx : MatchCtx) (c : TeamColor) (g : Gender) (i : Nat)
    (fq : FlexQueues) (c' : TeamColor) (h : c' ≠ c) :
    ((getNextPlayer ctx c g i fq).2).get c' = fq.get c' := by
  unfold getNextPlayer
  cases harr : (genderArrayOf ctx c g)[i]? with
  | some p => simp [harr]
  | none =>
    simp only [harr]
    cases hext : (extractFirst (fun p => p.gender = g) (fq.get c)).1 with
    | some p => simp only [hext, get_set_ne _ _ _ _ h]
    | none => simp [hext]

/-- `buildRow` is the fold of `rowStep` over the color list. -/
theorem buildRow_eq_foldl (ctx : MatchCtx) (g : Gender) (i : Nat) (fq : FlexQueues) :
    buildRow ctx g i fq = teamColorsList.foldl (rowStep ctx g i) ([], fq) := rfl

/-- Fold invariant of `buildRow`: per color in the (duplicate-free)
color list, the emitted cells plus the outgoing queue are a permutation
of the gender-array entry plus the incoming queue; colors outside the
list are untouched. -/
theorem buildRowAux (ctx : MatchCtx) (g : Gender) (i : Nat) :
    ∀ (cs : List TeamColor) (acc : List MatchupPlayer) (fq : FlexQueues), cs.Nodup →
      (∀ c ∈ cs,
        cellsFor (cs.foldl (rowStep ctx g i) (acc, fq)).1 c ++
            ((cs.foldl (rowStep ctx g i) (acc, fq)).2).get c ~
          cellsFor acc c ++ (((genderArrayOf ctx c g)[i]?).toList) ++ fq.get c) ∧
      (∀ c, c ∉ cs →
        cellsFor (cs.foldl (rowStep ctx g i) (acc, fq)).1 c = cellsFor acc c ∧
          ((cs.foldl (rowStep ctx g i) (acc, fq)).2).get c = fq.get c) := by
  intro cs
  induction cs with
  | nil =>
    intro acc fq _
    exact ⟨fun c hc => absurd hc (List.not_mem_nil c), fun c _ => ⟨rfl, rfl⟩⟩
  | cons c0 cs ih =>
    intro acc fq hnd
    rw [List.nodup_cons] at hnd
    have hstep : (c0 :: cs).foldl (rowStep ctx g i) (acc, fq) =
        cs.foldl (rowStep ctx g i)
          (acc ++ [⟨c0, (getNextPlayer ctx c0 g i fq).1⟩], (getNextPlayer ctx c0 g i fq).2) :=
      rfl
    obtain ⟨ihmem, ihout⟩ :=
      ih (acc ++ [⟨c0, (getNextPlayer ctx c0 g i fq).1⟩]) (getNextPlayer ctx c0 g i fq).2 hnd.2
    constructor
    · intro c hc
      rcases List.mem_cons.mp hc with hceq | hcs
      · subst hceq
        have hout := ihout c hnd.1
        rw [hstep, hout.1, hout.2, cellsFor_append]
        have hcell : cellsFor [⟨c, (getNextPlayer ctx c g i fq).1⟩] c =
            ((getNextPlayer ctx c g i fq).1).toList := by
          cases hg : (getNextPlayer ctx c g i fq).1 <;> simp [cellsFor, hg]
        rw [hcell]
        calc cellsFor acc c ++ ((getNextPlayer ctx c g i fq).1).toList ++
              ((getNextPlayer ctx c g i fq).2).get c
            = cellsFor acc c ++ (((getNextPlayer ctx c g i fq).1).toList ++
              ((getNextPlayer ctx c g i fq).2).get c) := by rw [List.append_assoc]
          _ ~ cellsFor acc c ++ ((((genderArrayOf ctx c g)[i]?).toList) ++ fq.get c) :=
              List.Perm.append_left _ (getNextPlayer_perm ctx c g i fq)
          _ = cellsFor acc c ++ (((genderArrayOf ctx c g)[i]?).toList) ++ fq.get c := by
              rw [List.append_assoc]
      · have hne : c ≠ c0 := fun h => hnd.1 (h ▸ hcs)
        have hmem := ihmem c hcs
        rw [hstep]
        refine hmem.trans ?_
        rw [cellsFor_append]
        have hcell : cellsFor [⟨c0, (getNextPlayer ctx c0 g i fq).1⟩] c = [] := by
          simp [cellsFor]
          intro h
          exact absurd h.symm hne
        rw [hcell, List.append_nil, getNextPlayer_frame ctx c0 g i fq c hne]
    · intro c hc
      have hc' : c ≠ c0 ∧ c ∉ cs := by
        rw [List.mem_cons] at hc
        push_neg at hc
        exact hc
      have hout := ihout c hc'.2
      constructor
      · rw [hstep, hout.1, cellsFor_append]
        have hcell : cellsFor [⟨c0, (getNextPlayer ctx c0 g i fq).1⟩] c = [] := by
          simp [cellsFor]
          intro h
          exact absurd h.symm hc'.1
        rw [hcell, List.append_nil]
      · rw [hstep, hout.2, getNextPlayer_frame ctx c0 g i fq c hc'.1]

/-- Per-color conservation of one built row. -/
theorem buildRow_col (ctx : MatchCtx) (g : Gender) (i : Nat) (fq : FlexQueues)
    (c : TeamColor) (hc : c ∈ teamColorsList) :
    cellsFor (buildRow ctx g i fq).1 c ++ ((buildRow ctx g i fq).2).get c ~
      (((genderArrayOf ctx c g)[i]?).toList) ++ fq.get c := by
  rw [buildRow_eq_foldl]
  have h := (buildRowAux ctx g i teamColorsList [] fq (by decide)).1 c hc
  simpa [cellsFor] using h

/-- `pushRow` appends exactly the row's cells to each column (a dropped
all-null row contributes nothing anyway). -/
theorem pushRow_cols (acc : List Matchup) (row : List MatchupPlayer) (c : TeamColor) :
    columnPlayers (pushRow acc row) c = columnPlayers acc c ++ cellsFor row c := by
  unfold pushRow
  by_cases h : row.any (fun e => e.player.isSome) = true
  · rw [if_pos h, columnPlayers_append]
    simp [columnPlayers]
  · rw [if_neg h]
    rw [Bool.not_eq_true, List.any_eq_false] at h
    have hz : cellsFor row c = [] := by
      unfold cellsFor
      rw [List.filterMap_eq_nil_iff]
      intro e he
      have hfalse := h e he
      have hnone : e.player = none := by
        cases hp : e.player
        · rfl
        · rw [hp] at hfalse
          simp at hfalse
      by_cases hc : e.color = c
      · rw [if_pos hc, hnone]
      · rw [if_neg hc]
    rw [hz, List.append_nil]

/-- Splitting a `drop` at its head entry. -/
theorem drop_eq_getElemQ_cons (l : List Player) (i : Nat) :
    l.drop i = (l[i]?).toList ++ l.drop (i + 1) := by
  by_cases h : i < l.length
  · rw [List.getElem?_eq_getElem h, List.drop_eq_getElem_cons h]
    rfl
  · push_neg at h
    rw [List.getElem?_eq_none h, List.drop_eq_nil_of_le h, List.drop_eq_nil_of_le (by omega)]
    rfl

/-- Permutation gluing in five segments, by counting. -/
theorem perm_glue5 (P X A B C Y Z W R : List Player)
    (h1 : R ~ P ++ (X ++ (A ++ (B ++ (C ++ Y)))))
    (h2 : X ++ Y ~ Z ++ W) :
    R ~ P ++ (Z ++ (A ++ (B ++ (C ++ W)))) := by
  rw [List.perm_iff_count] at h1 h2 ⊢
  intro a
  have ha1 := h1 a
  have ha2 := h2 a
  simp only [List.count_append] at ha1 ha2 ⊢
  omega

/-- A member of a list is bounded by the folded maximum. -/
theorem le_foldl_max :
    ∀ (l : List Nat) (init a : Nat), a ∈ l ∨ a ≤ init → a ≤ l.foldl max init := by
  intro l
  induction l with
  | nil =>
    intro init a h
    rcases h with h | h
    · cases h
    · exact h
  | cons x t ih =>
    intro init a h
    rw [List.foldl_cons]
    rcases h with h | h
    · rcases List.mem_cons.mp h with h1 | h1
      · exact ih (max init x) a (Or.inr (h1 ▸ le_max_right init x))
      · exact ih _ a (Or.inl h1)
    · exact ih _ a (Or.inr (le_trans h (le_max_left init x)))

/-- Every per-color pool length is bounded by the row totals of the
emission context. -/
theorem matchCtxOf_le (s : Shuffler) (teams : List Team) (c : TeamColor)
    (hc : c ∈ teamColorsList) :
    ((matchCtxOf s teams).malesL c).length ≤ (matchCtxOf s teams).M ∧
    ((matchCtxOf s teams).femalesL c).length ≤ (matchCtxOf s teams).F ∧
    ((matchCtxOf s teams).nonBinaryL c).length ≤ (matchCtxOf s teams).NB := by
  simp only [matchCtxOf]
  refine ⟨?_, ?_, ?_⟩ <;>
    exact le_foldl_max _ 0 _ (Or.inl (List.mem_map_of_mem _ hc))

/-- Column invariant of the alternating emission loop: the cells a color
collects plus its final queue are a permutation of the column so far
plus the unconsumed tails of its three gender pools plus its queue. -/
theorem emitLoop_cols (ctx : MatchCtx)
    (hM : ∀ c ∈ teamColorsList, (ctx.malesL c).length ≤ ctx.M)
    (hF : ∀ c ∈ teamColorsList, (ctx.femalesL c).length ≤ ctx.F)
    (hNB : ∀ c ∈ teamColorsList, (ctx.nonBinaryL c).length ≤ ctx.NB) :
    ∀ (fuel m f nb : Nat) (pm : Bool) (fq : FlexQueues) (acc : List Matchup),
      (ctx.M - m) + (ctx.F - f) + (ctx.NB - nb) ≤ fuel →
      ∀ c ∈ teamColorsList,
        columnPlayers (emitLoop ctx fuel m f nb pm fq acc).1 c ++
            ((emitLoop ctx fuel m f nb pm fq acc).2).get c ~
          columnPlayers acc c ++ ((ctx.malesL c).drop m ++ ((ctx.femalesL c).drop f ++
            ((ctx.nonBinaryL c).drop nb ++ fq.get c))) := by
  intro fuel
  induction fuel with
  | zero =>
    intro m f nb pm fq acc hfuel c hc
    have hm : (ctx.malesL c).drop m = [] :=
      List.drop_eq_nil_of_le (le_trans (hM c hc) (by omega))
    have hf : (ctx.femalesL c).drop f = [] :=
      List.drop_eq_nil_of_le (le_trans (hF c hc) (by omega))
    have hnb : (ctx.nonBinaryL c).drop nb = [] :=
      List.drop_eq_nil_of_le (le_trans (hNB c hc) (by omega))
    show columnPlayers acc c ++ fq.get c ~
      columnPlayers acc c ++ ((ctx.malesL c).drop m ++ ((ctx.femalesL c).drop f ++
        ((ctx.nonBinaryL c).drop nb ++ fq.get c)))
    rw [hm, hf, hnb]
    simp
  | succ fuel ih =>
    intro m f nb pm fq acc hfuel c hc
    by_cases h1 : m < ctx.M ∨ f < ctx.F ∨ nb < ctx.NB
    · by_cases h2 : pm ∧ m < ctx.M
      · have key : emitLoop ctx (fuel + 1) m f nb pm fq acc =
            emitLoop ctx fuel (m + 1) f nb false (buildRow ctx .male m fq).2
              (pushRow acc (buildRow ctx .male m fq).1) := by
          rw [emitLoop, if_pos h1, if_pos h2]
        rw [key]
        have hrec := ih (m + 1) f nb false (buildRow ctx .male m fq).2
          (pushRow acc (buildRow ctx .male m fq).1) (by omega) c hc
        rw [pushRow_cols] at hrec
        have hrow := buildRow_col ctx .male m fq c hc
        simp only [genderArrayOf] at hrow
        rw [List.perm_iff_count] at hrec hrow ⊢
        intro a
        have e1 := hrec a
        have e2 := hrow a
        have e3 := congrArg (List.count a) (drop_eq_getElemQ_cons (ctx.malesL c) m)
        simp only [List.count_append] at e1 e2 e3 ⊢
        omega
      · by_cases h3 : ¬pm ∧ f < ctx.F
        · have key : emitLoop ctx (fuel + 1) m f nb pm fq acc =
              emitLoop ctx fuel m (f + 1) nb true (buildRow ctx .female f fq).2
                (pushRow acc (buildRow ctx .female f fq).1) := by
            rw [emitLoop, if_pos h1, if_neg h2, if_pos h3]
          rw [key]
          have hrec := ih m (f + 1) nb true (buildRow ctx .female f fq).2
            (pushRow acc (buildRow ctx .female f fq).1) (by omega) c hc
          rw [pushRow_cols] at hrec
          have hrow := buildRow_col ctx .female f fq c hc
          simp only [genderArrayOf] at hrow
          rw [List.perm_iff_count] at hrec hrow ⊢
          intro a
          have e1 := hrec a
          have e2 := hrow a
          have e3 := congrArg (List.count a) (drop_eq_getElemQ_cons (ctx.femalesL c) f)
          simp only [List.count_append] at e1 e2 e3 ⊢
          omega
        · by_cases h4 : m < ctx.M
          · have key : emitLoop ctx (fuel + 1) m f nb pm fq acc =
                emitLoop ctx fuel (m + 1) f nb pm (buildRow ctx .male m fq).2
                  (pushRow acc (buildRow ctx .male m fq).1) := by
              rw [emitLoop, if_pos h1, if_neg h2, if_neg h3, if_pos h4]
            rw [key]
            have hrec := ih (m + 1) f nb pm (buildRow ctx .male m fq).2
              (pushRow acc (buildRow ctx .male m fq).1) (by omega) c hc
            rw [pushRow_cols] at hrec
            have hrow := buildRow_col ctx .male m fq c hc
            simp only [genderArrayOf] at hrow
            rw [List.perm_iff_count] at hrec hrow ⊢
            intro a
            have e1 := hrec a
            have e2 := hrow a
            have e3 := congrArg (List.count a) (drop_eq_getElemQ_cons (ctx.malesL c) m)
            simp only [List.count_append] at e1 e2 e3 ⊢
            omega
          · by_cases h5 : f < ctx.F
            · have key : emitLoop ctx (fuel + 1) m f nb pm fq acc =
                  emitLoop ctx fuel m (f + 1) nb pm (buildRow ctx .female f fq).2
                    (pushRow acc (buildRow ctx .female f fq).1) := by
                rw [emitLoop, if_pos h1, if_neg h2, if_neg h3, if_neg h4, if_pos h5]
              rw [key]
              have hrec := ih m (f + 1) nb pm (buildRow ctx .female f fq).2
                (pushRow acc (buildRow ctx .female f fq).1) (by omega) c hc
              rw [pushRow_cols] at hrec
              have hrow := buildRow_col ctx .female f fq c hc
              simp only [genderArrayOf] at hrow
              rw [List.perm_iff_count] at hrec hrow ⊢
              intro a
              have e1 := hrec a
              have e2 := hrow a
              have e3 := congrArg (List.count a) (drop_eq_getElemQ_cons (ctx.femalesL c) f)
              simp only [List.count_append] at e1 e2 e3 ⊢
              omega
            · by_cases h6 : nb < ctx.NB
              · have key : emitLoop ctx (fuel + 1) m f nb pm fq acc =
                    emitLoop ctx fuel m f (nb + 1) pm (buildRow ctx .nonBinary nb fq).2
                      (pushRow acc (buildRow ctx .nonBinary nb fq).1) := by
                  rw [emitLoop, if_pos h1, if_neg h2, if_neg h3, if_neg h4, if_neg h5,
                    if_pos h6]
                rw [key]
                have hrec := ih m f (nb + 1) pm (buildRow ctx .nonBinary nb fq).2
                  (pushRow acc (buildRow ctx .nonBinary nb fq).1) (by omega) c hc
                rw [pushRow_cols] at hrec
                have hrow := buildRow_col ctx .nonBinary nb fq c hc
                simp only [genderArrayOf] at hrow
                rw [List.perm_iff_count] at hrec hrow ⊢
                intro a
                have e1 := hrec a
                have e2 := hrow a
                have e3 := congrArg (List.count a)
                  (drop_eq_getElemQ_cons (ctx.nonBinaryL c) nb)
                simp only [List.count_append] at e1 e2 e3 ⊢
                omega
              · exfalso
                rcases h1 with h | h | h
                · exact h4 h
                · exact h5 h
                · exact h6 h
    · have key : emitLoop ctx (fuel + 1) m f nb pm fq acc = (acc, fq) := by
        rw [emitLoop, if_neg h1]
      rw [key]
      push_neg at h1
      have hm : (ctx.malesL c).drop m = [] :=
        List.drop_eq_nil_of_le (le_trans (hM c hc) h1.1)
      have hf : (ctx.femalesL c).drop f = [] :=
        List.drop_eq_nil_of_le (le_trans (hF c hc) h1.2.1)
      have hnb : (ctx.nonBinaryL c).drop nb = [] :=
        List.drop_eq_nil_of_le (le_trans (hNB c hc) h1.2.2)
      rw [hm, hf, hnb]
      simp

/-- A row with one cell per color in fixed order restricts, per color,
to exactly that color's cell. -/
theorem cellsFor_colorRow (p : TeamColor → Option Player) (c : TeamColor) :
    cellsFor (teamColorsList.map (fun c' => MatchupPlayer.mk c' (p c'))) c = (p c).toList := by
  cases c with
  | red => cases hp : p .red <;> simp [cellsFor, teamColorsList, hp]
  | blue => cases hp : p .blue <;> simp [cellsFor, teamColorsList, hp]
  | green => cases hp : p .green <;> simp [cellsFor, teamColorsList, hp]
  | yellow => cases hp : p .yellow <;> simp [cellsFor, teamColorsList, hp]
  | pink => cases hp : p .pink <;> simp [cellsFor, teamColorsList, hp]
  | purple => cases hp : p .purple <;> simp [cellsFor, teamColorsList, hp]

theorem headQ_toList_append_tail (l : List Player) : (l.head?).toList ++ l.tail = l := by
  cases l <;> rfl

/-- Column invariant of the flexible drain: each color's column gains
exactly its remaining queue. -/
theorem drainFlex_cols :
    ∀ (fuel : Nat) (fq : FlexQueues) (acc : List Matchup),
      fq.total ≤ fuel →
      ∀ c ∈ teamColorsList,
        columnPlayers (drainFlex fuel fq acc) c ~ columnPlayers acc c ++ fq.get c := by
  intro fuel
  induction fuel with
  | zero =>
    intro fq acc htot c hc
    have hlen := length_get_le_total fq c
    have hnil : fq.get c = [] := by
      have : (fq.get c).length = 0 := by omega
      exact List.length_eq_zero.mp this
    rw [drainFlex, hnil, List.append_nil]
  | succ k ih =>
    intro fq acc htot c hc
    rw [drainFlex]
    by_cases h : teamColorsList.any (fun c => !(fq.get c).isEmpty) = true
    · rw [if_pos h]
      have hpos : 0 < fq.total := by
        rw [List.any_eq_true] at h
        obtain ⟨c0, _, hc0⟩ := h
        simp only [Bool.not_eq_true', List.isEmpty_eq_false] at hc0
        have := length_get_le_total fq c0
        have := List.length_pos.mpr hc0
        omega
      have htot' : fq.popAll.total ≤ k := by
        have h1 : fq.popAll.total = (fq.red.length - 1) + (fq.blue.length - 1) +
            (fq.green.length - 1) + (fq.yellow.length - 1) + (fq.pink.length - 1) +
            (fq.purple.length - 1) := by
          simp [FlexQueues.popAll, FlexQueues.total, List.length_tail]
        have h2 : fq.total = fq.red.length + fq.blue.length + fq.green.length +
            fq.yellow.length + fq.pink.length + fq.purple.length := rfl
        omega
      have hrec := ih fq.popAll
        (pushRow acc (teamColorsList.map (fun c => MatchupPlayer.mk c (fq.get c).head?)))
        htot' c hc
      rw [pushRow_cols, cellsFor_colorRow (fun c => (fq.get c).head?) c, get_popAll] at hrec
      refine hrec.trans ?_
      rw [List.append_assoc, headQ_toList_append_tail]
    · rw [if_neg h]
      have hnil : fq.get c = [] := by
        rw [Bool.not_eq_true, List.any_eq_false] at h
        have h0 := h c hc
        simpa using h0
      rw [hnil, List.append_nil]

/-- The emission loop followed by the drain, started at row totals with
full male/female pools: per color, the column equals (as a multiset) the
three gender pools past the start index plus the flexible queue. -/
theorem emitDrain_cols (ctx : MatchCtx)
    (hM : ∀ c ∈ teamColorsList, (ctx.malesL c).length ≤ ctx.M)
    (hF : ∀ c ∈ teamColorsList, (ctx.femalesL c).length ≤ ctx.F)
    (hNB : ∀ c ∈ teamColorsList, (ctx.nonBinaryL c).length ≤ ctx.NB)
    (nb0 : Nat) (pm : Bool) (fq : FlexQueues) (acc : List Matchup) (c : TeamColor)
    (hc : c ∈ teamColorsList) :
    columnPlayers (drainFlex
        (FlexQueues.total (emitLoop ctx (ctx.M + ctx.F + ctx.NB) 0 0 nb0 pm fq acc).2)
        (emitLoop ctx (ctx.M + ctx.F + ctx.NB) 0 0 nb0 pm fq acc).2
        (emitLoop ctx (ctx.M + ctx.F + ctx.NB) 0 0 nb0 pm fq acc).1) c ~
      columnPlayers acc c ++ (ctx.malesL c ++ (ctx.femalesL c ++
        ((ctx.nonBinaryL c).drop nb0 ++ fq.get c))) := by
  have hdrain := drainFlex_cols
    (FlexQueues.total (emitLoop ctx (ctx.M + ctx.F + ctx.NB) 0 0 nb0 pm fq acc).2)
    (emitLoop ctx (ctx.M + ctx.F + ctx.NB) 0 0 nb0 pm fq acc).2
    (emitLoop ctx (ctx.M + ctx.F + ctx.NB) 0 0 nb0 pm fq acc).1
    (le_refl _) c hc
  have hemit := emitLoop_cols ctx hM hF hNB (ctx.M + ctx.F + ctx.NB) 0 0 nb0 pm fq acc
    (by omega) c hc
  simp only [List.drop_zero] at hemit
  exact hdrain.trans hemit

/-- Per color, the emission stage's column is a permutation of the
color's three finished gender pools plus its flexible queue. -/
theorem generateRows_cols (s : Shuffler) (teams : List Team) (c : TeamColor)
    (hc : c ∈ teamColorsList) :
    columnPlayers (generateRows s teams) c ~
      (matchCtxOf s teams).malesL c ++ ((matchCtxOf s teams).femalesL c ++
        ((matchCtxOf s teams).nonBinaryL c ++ (flexQueuesOf s teams).get c)) := by
  have hM := fun c hc => (matchCtxOf_le s teams c hc).1
  have hF := fun c hc => (matchCtxOf_le s teams c hc).2.1
  have hNB := fun c hc => (matchCtxOf_le s teams c hc).2.2
  simp only [generateRows]
  split
  · -- forced non-binary first row
    have hmain := emitDrain_cols (matchCtxOf s teams) hM hF hNB 1
      (match anchorOf teams with
       | some a => decide (a.gender = Gender.male)
       | none => true)
      (buildRow (matchCtxOf s teams) .nonBinary 0 (flexQueuesOf s teams)).2
      (pushRow [] (buildRow (matchCtxOf s teams) .nonBinary 0 (flexQueuesOf s teams)).1)
      c hc
    refine hmain.trans ?_
    rw [pushRow_cols]
    have hrow := buildRow_col (matchCtxOf s teams) .nonBinary 0 (flexQueuesOf s teams) c hc
    simp only [genderArrayOf] at hrow
    rw [List.perm_iff_count] at hrow ⊢
    intro a
    have e2 := hrow a
    have e3 := congrArg (List.count a)
      (drop_eq_getElemQ_cons ((matchCtxOf s teams).nonBinaryL c) 0)
    rw [List.drop_zero] at e3
    simp only [List.count_append, Nat.zero_add, columnPlayers, List.flatMap_nil,
      List.count_nil] at e2 e3 ⊢
    omega
  · -- no forced first row
    have hmain := emitDrain_cols (matchCtxOf s teams) hM hF hNB 0
      (match anchorOf teams with
       | some a => decide (a.gender = Gender.male)
       | none => true)
      (flexQueuesOf s teams) [] c hc
    refine hmain.trans ?_
    rw [List.drop_zero]
    simp [columnPlayers]

/-- On the helper-config path, `buildOrderedList` is exactly the slot
placement over the named pieces. -/
theorem buildOrderedList_eq_place (s : Shuffler) (anchor : Option Player)
    (g1HelperId : Option String) (assignments : List (String × HelperBucket))
    (c : TeamColor) (g : Gender) (players : List Player)
    (h1 : ¬(players.length = 0))
    (h2 : ¬((getHelperSlotConfig anchor g players.length).1 = none ∧
            (getHelperSlotConfig anchor g players.length).2 = none)) :
    buildOrderedList s anchor g1HelperId assignments c g players =
      (placeSlots (blGame1Pick s anchor g1HelperId c g players)
        (blEarlyPick s anchor g1HelperId assignments c g players)
        (blLatePick s anchor g1HelperId assignments c g players)
        (getHelperSlotConfig anchor g players.length).1
        (getHelperSlotConfig anchor g players.length).2
        players.length 0
        (blRemainingPool s anchor g1HelperId assignments c g players)).filterMap id := by
  simp only [buildOrderedList]
  rw [if_neg h1, if_neg h2]
  rfl

theorem head?_mem_self {l : List Player} {a : Player} (h : l.head? = some a) : a ∈ l := by
  cases l with
  | nil => cases h
  | cons x xs =>
    rw [List.head?_cons, Option.some.injEq] at h
    rw [← h]
    exact List.mem_cons_self x xs

theorem nodup_ids_filter (l : List Player) (p : Player → Bool)
    (h : (l.map Player.id).Nodup) : ((l.filter p).map Player.id).Nodup :=
  h.sublist ((List.filter_sublist l).map Player.id)

theorem fair_nodup_ids (s : Shuffler) (hs : s.Fair) (tag : Nat) (l : List Player)
    (h : (l.map Player.id).Nodup) : ((s.sh tag l).map Player.id).Nodup :=
  (List.Perm.nodup_iff ((hs.1 tag l).map Player.id)).mpr h

/-- Extracting one member of an id-duplicate-free list by id filter. -/
theorem nodup_extract_perm (l : List Player) (p : Player)
    (hnd : (l.map Player.id).Nodup) (hp : p ∈ l) :
    l ~ p :: l.filter (fun x => !(x.id = p.id)) := by
  induction l with
  | nil => cases hp
  | cons q qs ih =>
    rw [List.map_cons, List.nodup_cons] at hnd
    rcases List.mem_cons.mp hp with heq | hmem
    · subst heq
      rw [List.filter_cons, if_neg (by simp)]
      have hqs : qs.filter (fun x => !(x.id = p.id)) = qs := by
        rw [List.filter_eq_self]
        intro x hx
        simp only [Bool.not_eq_true', decide_eq_false_iff_not]
        intro hxq
        exact hnd.1 (hxq ▸ List.mem_map_of_mem Player.id hx)
      rw [hqs]
    · have hqp : ¬(q.id = p.id) := by
        intro hq
        exact hnd.1 (hq ▸ List.mem_map_of_mem Player.id hmem)
      rw [List.filter_cons, if_pos (by simp [hqp])]
      exact ((ih hnd.2 hmem).cons q).trans (List.Perm.swap p q _)

/-- The clamped early helper index is 0 whenever it exists. -/
theorem getHelperSlotConfig_early (anchor : Option Player) (g : Gender) (n : Nat) :
    (getHelperSlotConfig anchor g n).1 = none ∨ (getHelperSlotConfig anchor g n).1 = some 0 := by
  rcases anchor with _ | a <;> cases g <;>
    simp only [getHelperSlotConfig, getHelperBaseSlotConfig] <;>
    split_ifs <;> simp_all <;> omega

/-- The clamped late helper index is at least 1 and within the team. -/
theorem getHelperSlotConfig_late (anchor : Option Player) (g : Gender) (n y : Nat)
    (h : (getHelperSlotConfig anchor g n).2 = some y) : 1 ≤ y ∧ y < n := by
  rcases anchor with _ | a
  · cases g
    case nonBinary => simp [getHelperSlotConfig, getHelperBaseSlotConfig] at h
    case male =>
      by_cases h2 : 2 ≤ n
      · have hmin : ¬(min 2 (n - 1) = 0) := by omega
        have h0 : 0 < n := by omega
        simp [getHelperSlotConfig, getHelperBaseSlotConfig, h2, h0, hmin] at h
        omega
      · simp [getHelperSlotConfig, getHelperBaseSlotConfig, h2] at h
    case female =>
      by_cases h2 : 2 ≤ n
      · have hmin : ¬(min 2 (n - 1) = 0) := by omega
        have h0 : 0 < n := by omega
        simp [getHelperSlotConfig, getHelperBaseSlotConfig, h2, h0, hmin] at h
        omega
      · simp [getHelperSlotConfig, getHelperBaseSlotConfig, h2] at h
  · cases g
    case nonBinary => simp [getHelperSlotConfig, getHelperBaseSlotConfig] at h
    case male =>
      by_cases hst : a.gender = Gender.male <;> by_cases h2 : 2 ≤ n
      · have hmin : ¬(min 2 (n - 1) = 0) := by omega
        simp [getHelperSlotConfig, getHelperBaseSlotConfig, hst, h2, hmin] at h
        omega
      · simp [getHelperSlotConfig, getHelperBaseSlotConfig, hst, h2] at h
      · have hmin : ¬(min 2 (n - 1) = 0) := by omega
        have h0 : 0 < n := by omega
        simp [getHelperSlotConfig, getHelperBaseSlotConfig, hst, h2, h0, hmin] at h
        omega
      · simp [getHelperSlotConfig, getHelperBaseSlotConfig, hst, h2] at h
    case female =>
      by_cases hst : a.gender = Gender.female <;> by_cases h2 : 2 ≤ n
      · have hmin : ¬(min 2 (n - 1) = 0) := by omega
        simp [getHelperSlotConfig, getHelperBaseSlotConfig, hst, h2, hmin] at h
        omega
      · simp [getHelperSlotConfig, getHelperBaseSlotConfig, hst, h2] at h
      · have hmin : ¬(min 2 (n - 1) = 0) := by omega
        have h0 : 0 < n := by omega
        simp [getHelperSlotConfig, getHelperBaseSlotConfig, hst, h2, h0, hmin] at h
        omega
      · simp [getHelperSlotConfig, getHelperBaseSlotConfig, hst, h2] at h

/-- Successor-step equation of `placeSlots`. -/
theorem placeSlots_succ (g1 ep lp : Option Player) (e l : Option Nat) (k idx : Nat)
    (pool : List Player) :
    placeSlots g1 ep lp e l (k + 1) idx pool =
      if g1.isSome ∧ idx = 0 then g1 :: placeSlots g1 ep lp e l k (idx + 1) pool
      else if e = some idx ∧ ep.isSome then ep :: placeSlots g1 ep lp e l k (idx + 1) pool
      else if l = some idx ∧ lp.isSome then lp :: placeSlots g1 ep lp e l k (idx + 1) pool
      else
        match pool with
        | [] => none :: placeSlots g1 ep lp e l k (idx + 1) []
        | p :: ps => some p :: placeSlots g1 ep lp e l k (idx + 1) ps := rfl

/-- Start-gender teams expose no early slot. -/
theorem getHelperSlotConfig_start (anchor : Option Player) (g : Gender) (n : Nat)
    (h : isStartGenderB anchor g = true) :
    (getHelperSlotConfig anchor g n).1 = none := by
  rcases anchor with _ | a
  · simp [isStartGenderB] at h
  · cases g <;>
      simp only [isStartGenderB, decide_eq_true_eq] at h <;>
      simp only [getHelperSlotConfig, getHelperBaseSlotConfig] <;>
      split_ifs <;> simp_all

/-- `placeSlots` over a window containing no special index pops the
shuffled pool slot by slot. -/
theorem placeSlots_none (g1 ep lp : Option Player) (e l : Option Nat) :
    ∀ (k idx : Nat) (pool : List Player),
      (∀ i, idx ≤ i → i < idx + k → ¬(g1.isSome ∧ i = 0)) →
      (∀ i, idx ≤ i → i < idx + k → ¬(e = some i ∧ ep.isSome)) →
      (∀ i, idx ≤ i → i < idx + k → ¬(l = some i ∧ lp.isSome)) →
      (placeSlots g1 ep lp e l k idx pool).filterMap id = pool.take k := by
  intro k
  induction k with
  | zero =>
    intro idx pool _ _ _
    rfl
  | succ k ih =>
    intro idx pool h1 h2 h3
    rw [placeSlots_succ, if_neg (h1 idx (le_refl idx) (by omega)),
      if_neg (h2 idx (le_refl idx) (by omega)), if_neg (h3 idx (le_refl idx) (by omega))]
    cases pool with
    | nil =>
      simp only [List.filterMap_cons, id_eq]
      rw [ih (idx + 1) [] (fun i hi1 hi2 => h1 i (by omega) (by omega))
        (fun i hi1 hi2 => h2 i (by omega) (by omega))
        (fun i hi1 hi2 => h3 i (by omega) (by omega))]
      simp
    | cons p ps =>
      simp only [List.filterMap_cons, id_eq]
      rw [ih (idx + 1) ps (fun i hi1 hi2 => h1 i (by omega) (by omega))
        (fun i hi1 hi2 => h2 i (by omega) (by omega))
        (fun i hi1 hi2 => h3 i (by omega) (by omega))]
      rw [List.take_succ_cons]

/-- `placeSlots` over a window whose only special index is the late slot
at `y` inserts the late pick and pops the pool elsewhere. -/
theorem placeSlots_late (g1 ep lp : Option Player) (e l : Option Nat) (b : Player) (y : Nat) :
    ∀ (k idx : Nat) (pool : List Player),
      lp = some b → l = some y → idx ≤ y → y < idx + k →
      (∀ i, idx ≤ i → i < idx + k → ¬(g1.isSome ∧ i = 0)) →
      (∀ i, idx ≤ i → i < idx + k → ¬(e = some i ∧ ep.isSome)) →
      (placeSlots g1 ep lp e l k idx pool).filterMap id ~ b :: pool.take (k - 1) := by
  intro k
  induction k with
  | zero =>
    intro idx pool _ _ hy1 hy2 _ _
    exact absurd hy2 (by omega)
  | succ k ih =>
    intro idx pool hlp hl hy1 hy2 h1 h2
    rw [placeSlots_succ, if_neg (h1 idx (le_refl idx) (by omega)),
      if_neg (h2 idx (le_refl idx) (by omega))]
    by_cases hcur : y = idx
    · have hfire : l = some idx ∧ lp.isSome := by
        constructor
        · rw [hl, hcur]
        · rw [hlp]
          rfl
      rw [if_pos hfire, hlp]
      simp only [List.filterMap_cons, id_eq]
      rw [placeSlots_none g1 ep (some b) e l k (idx + 1) pool
        (fun i hi1 hi2 => h1 i (by omega) (by omega))
        (fun i hi1 hi2 => h2 i (by omega) (by omega))
        (fun i hi1 hi2 hc => by
          rw [hl] at hc
          rw [Option.some.injEq] at hc
          omega)]
      have : k + 1 - 1 = k := rfl
      rw [this]
    · have hlate : ¬(l = some idx ∧ lp.isSome) := by
        intro hc
        rw [hl, Option.some.injEq] at hc
        exact hcur hc.1
      rw [if_neg hlate]
      have hk1 : 1 ≤ k := by omega
      obtain ⟨k2, rfl⟩ : ∃ k2, k = k2 + 1 := ⟨k - 1, by omega⟩
      cases pool with
      | nil =>
        simp only [List.filterMap_cons, id_eq]
        have hrec := ih (idx + 1) [] hlp hl (by omega) (by omega)
          (fun i hi1 hi2 => h1 i (by omega) (by omega))
          (fun i hi1 hi2 => h2 i (by omega) (by omega))
        simpa using hrec
      | cons p ps =>
        simp only [List.filterMap_cons, id_eq]
        have hrec := ih (idx + 1) ps hlp hl (by omega) (by omega)
          (fun i hi1 hi2 => h1 i (by omega) (by omega))
          (fun i hi1 hi2 => h2 i (by omega) (by omega))
        have htake : (p :: ps).take (k2 + 1 + 1 - 1) = p :: ps.take (k2 + 1 - 1) := by
          show (p :: ps).take (k2 + 1) = p :: ps.take k2
          rw [List.take_succ_cons]
        rw [htake]
        exact (hrec.cons p).trans (List.Perm.swap b p _)

/-- Full-window slot placement: under the structural facts enforced by
`getHelperSlotConfig` (early slot only at 0, game-1 pick excludes the
early pick, late slot strictly inside the team) and an exactly-fitting
pool, `placeSlots` emits every special and the whole pool. -/
theorem placeSlots_total (g1 ep lp : Option Player) (e l : Option Nat) (n : Nat)
    (P : List Player)
    (hg1e : g1.isSome = true → ep = none)
    (he0 : ep.isSome = true → e = some 0)
    (hlb : ∀ y, l = some y → 1 ≤ y ∧ y < n)
    (hlpl : lp.isSome = true → l.isSome = true)
    (hPlen : P.length + g1.toList.length + ep.toList.length + lp.toList.length = n) :
    (placeSlots g1 ep lp e l n 0 P).filterMap id ~
      g1.toList ++ (ep.toList ++ (lp.toList ++ P)) := by
  cases g1 with
  | some gp =>
    have hepn : ep = none := hg1e rfl
    subst hepn
    simp only [Option.toList_some, Option.toList_none, List.length_cons, List.length_nil]
      at hPlen
    obtain ⟨n2, rfl⟩ : ∃ n2, n = n2 + 1 := ⟨n - 1, by omega⟩
    rw [placeSlots_succ, if_pos (⟨rfl, rfl⟩ : (some gp).isSome = true ∧ 0 = 0)]
    simp only [List.filterMap_cons, id_eq]
    cases lp with
    | some b =>
      obtain ⟨y, hy⟩ : ∃ y, l = some y := Option.isSome_iff_exists.mp (hlpl rfl)
      have hyb := hlb y hy
      have hmain := placeSlots_late (some gp) none (some b) e l b y n2 1 P rfl hy
        (by omega) (by omega)
        (fun i hi1 hi2 hc => absurd hc.2 (by omega))
        (fun i hi1 hi2 hc => absurd hc.2 (by simp))
      have htk : P.take (n2 - 1) = P := by
        have hPl : P.length = n2 - 1 := by
          try simp only [Option.toList_some, Option.toList_none, List.length_cons,
            List.length_nil] at hPlen
          omega
        rw [← hPl]
        exact List.take_length P
      rw [htk] at hmain
      exact hmain.cons gp
    | none =>
      have hmain := placeSlots_none (some gp) none none e l n2 1 P
        (fun i hi1 hi2 hc => absurd hc.2 (by omega))
        (fun i hi1 hi2 hc => absurd hc.2 (by simp))
        (fun i hi1 hi2 hc => absurd hc.2 (by simp))
      have htk : P.take n2 = P := by
        have hPl : P.length = n2 := by
          try simp only [Option.toList_some, Option.toList_none, List.length_cons,
            List.length_nil] at hPlen
          omega
        rw [← hPl]
        exact List.take_length P
      rw [hmain, htk]
      exact List.Perm.refl _
  | none =>
    cases ep with
    | some epv =>
      have he := he0 rfl
      simp only [Option.toList_some, Option.toList_none, List.length_cons, List.length_nil]
        at hPlen
      obtain ⟨n2, rfl⟩ : ∃ n2, n = n2 + 1 := ⟨n - 1, by omega⟩
      rw [placeSlots_succ, if_neg (by simp),
        if_pos (⟨he, rfl⟩ : e = some 0 ∧ (some epv).isSome = true)]
      simp only [List.filterMap_cons, id_eq]
      cases lp with
      | some b =>
        obtain ⟨y, hy⟩ : ∃ y, l = some y := Option.isSome_iff_exists.mp (hlpl rfl)
        have hyb := hlb y hy
        have hmain := placeSlots_late none (some epv) (some b) e l b y n2 1 P rfl hy
          (by omega) (by omega)
          (fun i hi1 hi2 hc => absurd hc.1 (by simp))
          (fun i hi1 hi2 hc => by rw [he, Option.some.injEq] at hc; omega)
        have htk : P.take (n2 - 1) = P := by
          have hPl : P.length = n2 - 1 := by
            try simp only [Option.toList_some, Option.toList_none, List.length_cons,
              List.length_nil] at hPlen
            omega
          rw [← hPl]
          exact List.take_length P
        rw [htk] at hmain
        exact hmain.cons epv
      | none =>
        have hmain := placeSlots_none none (some epv) none e l n2 1 P
          (fun i hi1 hi2 hc => absurd hc.1 (by simp))
          (fun i hi1 hi2 hc => by rw [he, Option.some.injEq] at hc; omega)
          (fun i hi1 hi2 hc => absurd hc.2 (by simp))
        have htk : P.take n2 = P := by
          have hPl : P.length = n2 := by
            try simp only [Option.toList_some, Option.toList_none, List.length_cons,
              List.length_nil] at hPlen
            omega
          rw [← hPl]
          exact List.take_length P
        rw [hmain, htk]
        exact List.Perm.refl _
    | none =>
      cases lp with
      | some b =>
        obtain ⟨y, hy⟩ : ∃ y, l = some y := Option.isSome_iff_exists.mp (hlpl rfl)
        have hyb := hlb y hy
        have hmain := placeSlots_late none none (some b) e l b y n 0 P rfl hy
          (by omega) (by omega)
          (fun i hi1 hi2 hc => absurd hc.1 (by simp))
          (fun i hi1 hi2 hc => absurd hc.2 (by simp))
        have htk : P.take (n - 1) = P := by
          have hPl : P.length = n - 1 := by
            simp only [Option.toList_some, Option.toList_none, List.length_cons,
              List.length_nil] at hPlen
            omega
          rw [← hPl]
          exact List.take_length P
        rw [htk] at hmain
        exact hmain
      | none =>
        have hmain := placeSlots_none none none none e l n 0 P
          (fun i hi1 hi2 hc => absurd hc.1 (by simp))
          (fun i hi1 hi2 hc => absurd hc.2 (by simp))
          (fun i hi1 hi2 hc => absurd hc.2 (by simp))
        have htk : P.take n = P := by
          have hPl : P.length = n := by
            simp only [Option.toList_none, List.length_nil] at hPlen
            omega
          rw [← hPl]
          exact List.take_length P
        rw [hmain, htk]
        exact List.Perm.refl _

/-- `buildOrderedList` returns a permutation of its input whenever the
player ids are distinct, for any fair shuffler. -/
theorem buildOrderedList_perm (s : Shuffler) (hs : s.Fair) (anchor : Option Player)
    (g1HelperId : Option String) (assignments : List (String × HelperBucket))
    (c : TeamColor) (g : Gender) (players : List Player)
    (hnd : (players.map Player.id).Nodup) :
    buildOrderedList s anchor g1HelperId assignments c g players ~ players := by
  by_cases hlen : players.length = 0
  · rw [List.length_eq_zero] at hlen
    subst hlen
    rw [buildOrderedList_nil]
  · by_cases hcfg : (getHelperSlotConfig anchor g players.length).1 = none ∧
        (getHelperSlotConfig anchor g players.length).2 = none
    · have heq : buildOrderedList s anchor g1HelperId assignments c g players =
          s.sh (300 + teamColorsList.indexOf c * 5 + genderKeys.indexOf g) players := by
        simp only [buildOrderedList]
        rw [if_neg hlen, if_pos hcfg]
      rw [heq]
      exact hs.1 _ players
    · rw [buildOrderedList_eq_place s anchor g1HelperId assignments c g players hlen hcfg]
      have hshuf : blShuffled s c g players ~ players := hs.1 _ players
      have hshufnd : ((blShuffled s c g players).map Player.id).Nodup :=
        fair_nodup_ids s hs _ players hnd
      have hpart : blHelpers s c g players ++ blRegulars s c g players ~
          blShuffled s c g players := List.filter_append_perm _ _
      have hhnd : ((blHelpers s c g players).map Player.id).Nodup :=
        nodup_ids_filter _ _ hshufnd
      have hhfbnd : ((blHFB s anchor g1HelperId c g players).map Player.id).Nodup := by
        unfold blHFB
        cases hgp : blGame1Pick s anchor g1HelperId c g players with
        | some gp =>
          try simp only [hgp]
          exact nodup_ids_filter _ _ hhnd
        | none =>
          try simp only [hgp]
          exact hhnd
      have hg1 : (blGame1Pick s anchor g1HelperId c g players).toList ++
          blHFB s anchor g1HelperId c g players ~ blHelpers s c g players := by
        cases hgp : blGame1Pick s anchor g1HelperId c g players with
        | none =>
          unfold blHFB
          try simp only [hgp]
          simp
        | some gp =>
          have hgp2 := hgp
          unfold blGame1Pick at hgp2
          by_cases hst : isStartGenderB anchor g = true
          · rw [if_pos hst] at hgp2
            cases hg1id : g1HelperId with
            | none =>
              rw [hg1id] at hgp2
              cases hgp2
            | some hid =>
              rw [hg1id] at hgp2
              have hgp3 : (blHelpers s c g players).find? (fun h => h.id = hid) = some gp :=
                hgp2
              have hmem : gp ∈ blHelpers s c g players := List.mem_of_find?_eq_some hgp3
              have hx := nodup_extract_perm (blHelpers s c g players) gp hhnd hmem
              unfold blHFB
              rw [hg1id] at hgp
              rw [hgp]
              exact hx.symm
          · rw [if_neg hst] at hgp2
            cases hgp2
      have heps : (blEarlyPick s anchor g1HelperId assignments c g players).toList ++
          ((blLatePick s anchor g1HelperId assignments c g players).toList ++
            blSpillover s anchor g1HelperId assignments c g players) ~
          blHFB s anchor g1HelperId c g players := by
        cases hep : blEarlyPick s anchor g1HelperId assignments c g players with
        | some ep =>
          have hepmem : ep ∈ blBucketedEarly s anchor g1HelperId assignments c g players := by
            have hep2 := hep
            unfold blEarlyPick at hep2
            by_cases hc1 : ((getHelperSlotConfig anchor g players.length).1).isSome = true
            · rw [if_pos hc1] at hep2
              exact head?_mem_self hep2
            · rw [if_neg hc1] at hep2
              cases hep2
          have hepHFB : ep ∈ blHFB s anchor g1HelperId c g players :=
            List.mem_of_mem_filter hepmem
          have hx := nodup_extract_perm _ ep hhfbnd hepHFB
          cases hlp : blLatePick s anchor g1HelperId assignments c g players with
          | some lp =>
            have hlpfacts : lp ∈ blBucketedLate s anchor g1HelperId assignments c g players ∧
                (!(lp.id = ep.id)) = true := by
              have hlp2 := hlp
              unfold blLatePick at hlp2
              by_cases hc2 : ((getHelperSlotConfig anchor g players.length).2).isSome = true
              · rw [if_pos hc2, hep] at hlp2
                have hlp3 : (blBucketedLate s anchor g1HelperId assignments c g
                    players).find? (fun h => !(h.id = ep.id)) = some lp := hlp2
                have hprd := List.find?_some hlp3
                exact ⟨List.mem_of_find?_eq_some hlp3, hprd⟩
              · rw [if_neg hc2] at hlp2
                cases hlp2
            have hlpHFB : lp ∈ blHFB s anchor g1HelperId c g players :=
              List.mem_of_mem_filter hlpfacts.1
            have hlpne : ¬(lp.id = ep.id) := by
              have h2 := hlpfacts.2
              simpa using h2
            have hlpmem2 : lp ∈ (blHFB s anchor g1HelperId c g players).filter
                (fun x => !(x.id = ep.id)) := by
              rw [List.mem_filter]
              exact ⟨hlpHFB, by simp [hlpne]⟩
            have hfnd : (((blHFB s anchor g1HelperId c g players).filter
                (fun x => !(x.id = ep.id))).map Player.id).Nodup :=
              nodup_ids_filter _ _ hhfbnd
            have hy := nodup_extract_perm _ lp hfnd hlpmem2
            have hsp : blSpillover s anchor g1HelperId assignments c g players =
                ((blHFB s anchor g1HelperId c g players).filter
                  (fun x => !(x.id = ep.id))).filter (fun x => !(x.id = lp.id)) := by
              unfold blSpillover
              simp only [hep, hlp]
              rw [List.filter_filter]
              apply List.filter_congr
              intro x _
              exact Bool.and_comm _ _
            rw [hsp]
            exact (hx.trans (hy.cons ep)).symm
          | none =>
            have hsp : blSpillover s anchor g1HelperId assignments c g players =
                (blHFB s anchor g1HelperId c g players).filter
                  (fun x => !(x.id = ep.id)) := by
              unfold blSpillover
              simp only [hep, hlp, Bool.and_true]
            rw [hsp]
            simpa using hx.symm
        | none =>
          cases hlp : blLatePick s anchor g1HelperId assignments c g players with
          | some lp =>
            have hlpmem : lp ∈ blBucketedLate s anchor g1HelperId assignments c g players := by
              have hlp2 := hlp
              unfold blLatePick at hlp2
              by_cases hc2 : ((getHelperSlotConfig anchor g players.length).2).isSome = true
              · rw [if_pos hc2, hep] at hlp2
                have hlp3 : (blBucketedLate s anchor g1HelperId assignments c g
                    players).head? = some lp := hlp2
                exact head?_mem_self hlp3
              · rw [if_neg hc2] at hlp2
                cases hlp2
            have hlpHFB : lp ∈ blHFB s anchor g1HelperId c g players :=
              List.mem_of_mem_filter hlpmem
            have hy := nodup_extract_perm _ lp hhfbnd hlpHFB
            have hsp : blSpillover s anchor g1HelperId assignments c g players =
                (blHFB s anchor g1HelperId c g players).filter
                  (fun x => !(x.id = lp.id)) := by
              unfold blSpillover
              simp only [hep, hlp, Bool.true_and]
            rw [hsp]
            simpa using hy.symm
          | none =>
            have hsp : blSpillover s anchor g1HelperId assignments c g players =
                blHFB s anchor g1HelperId c g players := by
              unfold blSpillover
              simp only [hep, hlp, Bool.and_self]
              rw [List.filter_true]
            rw [hsp]
            simp
      have hpool : blRemainingPool s anchor g1HelperId assignments c g players ~
          blRegulars s c g players ++
            blSpillover s anchor g1HelperId assignments c g players := by
        unfold blRemainingPool
        by_cases hst : isStartGenderB anchor g = true
        · rw [if_pos hst]
          exact (hs.1 _ _).append (hs.1 _ _)
        · rw [if_neg hst]
          exact hs.1 _ _
      have hg1e : (blGame1Pick s anchor g1HelperId c g players).isSome = true →
          blEarlyPick s anchor g1HelperId assignments c g players = none := by
        intro hg
        obtain ⟨gp, hgp⟩ := Option.isSome_iff_exists.mp hg
        have hstA : isStartGenderB anchor g = true := by
          by_contra hst
          unfold blGame1Pick at hgp
          rw [if_neg hst] at hgp
          cases hgp
        have hc1 := getHelperSlotConfig_start anchor g players.length hstA
        unfold blEarlyPick
        rw [hc1]
        rfl
      have he0 : (blEarlyPick s anchor g1HelperId assignments c g players).isSome = true →
          (getHelperSlotConfig anchor g players.length).1 = some 0 := by
        intro hg
        rcases getHelperSlotConfig_early anchor g players.length with h | h
        · exfalso
          unfold blEarlyPick at hg
          rw [h] at hg
          simp at hg
        · exact h
      have hlpl : (blLatePick s anchor g1HelperId assignments c g players).isSome = true →
          ((getHelperSlotConfig anchor g players.length).2).isSome = true := by
        intro hg
        by_contra hc2
        unfold blLatePick at hg
        rw [if_neg hc2] at hg
        simp at hg
      have hPlen : (blRemainingPool s anchor g1HelperId assignments c g players).length +
          (blGame1Pick s anchor g1HelperId c g players).toList.length +
          (blEarlyPick s anchor g1HelperId assignments c g players).toList.length +
          (blLatePick s anchor g1HelperId assignments c g players).toList.length =
          players.length := by
        have h1 := hshuf.length_eq
        have h2 := hpart.length_eq
        have h3 := hg1.length_eq
        have h4 := heps.length_eq
        have h5 := hpool.length_eq
        simp only [List.length_append] at h2 h3 h4 h5
        omega
      refine (placeSlots_total _ _ _ _ _ _ _ hg1e he0
        (fun y hy => getHelperSlotConfig_late anchor g players.length y hy) hlpl
        hPlen).trans ?_
      rw [List.perm_iff_count]
      intro a
      have c1 := List.perm_iff_count.mp hshuf a
      have c2 := List.perm_iff_count.mp hpart a
      have c3 := List.perm_iff_count.mp hg1 a
      have c4 := List.perm_iff_count.mp heps a
      have c5 := List.perm_iff_count.mp hpool a
      simp only [List.count_append] at c1 c2 c3 c4 c5 ⊢
      omega

/-- Three-way gender partition of a player list. -/
theorem gender_partition (l : List Player) :
    l.filter (fun m => m.gender = Gender.male) ++
      (l.filter (fun m => m.gender = Gender.female) ++
        l.filter (fun m => m.gender = Gender.nonBinary)) ~ l := by
  have h1 := List.filter_append_perm (fun m : Player => decide (m.gender = Gender.male)) l
  have h2 := List.filter_append_perm (fun m : Player => decide (m.gender = Gender.female))
    (l.filter (fun m => !(decide (m.gender = Gender.male))))
  rw [List.filter_filter, List.filter_filter] at h2
  have e1 : (l.filter fun a => decide (a.gender = Gender.female) &&
      !decide (a.gender = Gender.male)) = l.filter (fun m => m.gender = Gender.female) := by
    apply List.filter_congr
    intro x _
    cases hx : x.gender <;> simp [hx]
  have e2 : (l.filter fun a => !decide (a.gender = Gender.female) &&
      !decide (a.gender = Gender.male)) = l.filter (fun m => m.gender = Gender.nonBinary) := by
    apply List.filter_congr
    intro x _
    cases hx : x.gender <;> simp [hx]
  rw [e1, e2] at h2
  rw [List.perm_iff_count]
  intro a
  have c1 := List.perm_iff_count.mp h1 a
  have c2 := List.perm_iff_count.mp h2 a
  simp only [List.count_append] at c1 c2 ⊢
  omega

/-- Gender-specific plus flexible members partition the pool. -/
theorem members_partition (anchor : Option Player) (teams : List Team) (c : TeamColor) :
    genderSpecificOf anchor teams c ++ flexibleRawOf anchor teams c ~ membersOf teams c := by
  unfold genderSpecificOf flexibleRawOf
  have h := List.filter_append_perm
    (fun m : Player => !m.noGenderRestriction || isAnchorP anchor m) (membersOf teams c)
  have e : ((membersOf teams c).filter
      (fun x => !(!x.noGenderRestriction || isAnchorP anchor x))) =
      (membersOf teams c).filter (fun m => m.noGenderRestriction && !isAnchorP anchor m) := by
    apply List.filter_congr
    intro x _
    cases hx : x.noGenderRestriction <;> cases ha : isAnchorP anchor x <;> simp [hx, ha]
  rw [e] at h
  exact h

/-- The three per-gender pools partition the gender-specific members. -/
theorem genderAll_partition (anchor : Option Player) (teams : List Team) (c : TeamColor) :
    genderAllOf anchor teams c .male ++ (genderAllOf anchor teams c .female ++
      genderAllOf anchor teams c .nonBinary) ~ genderSpecificOf anchor teams c := by
  unfold genderAllOf
  exact gender_partition _

/-- A finished per-gender pool is a permutation of the corresponding
raw gender pool: the locked anchor is prepended, and ordering the
pending rest is a permutation. -/
theorem teamPoolGender_perm (s : Shuffler) (hs : s.Fair) (anchor : Option Player)
    (g1HelperId : Option String) (assignments : List (String × HelperBucket))
    (teams : List Team) (c : TeamColor) (g : Gender)
    (hnd : ((membersOf teams c).map Player.id).Nodup) :
    teamPoolGender s anchor g1HelperId assignments teams c g ~ genderAllOf anchor teams c g := by
  have hgnd : ((genderAllOf anchor teams c g).map Player.id).Nodup := by
    unfold genderAllOf genderSpecificOf
    exact nodup_ids_filter _ _ (nodup_ids_filter _ _ hnd)
  simp only [teamPoolGender]
  cases hlk : lockedOf anchor teams c g with
  | some lm =>
    show lm :: buildOrderedList s anchor g1HelperId assignments c g
        (pendingOf anchor teams c g) ~ genderAllOf anchor teams c g
    have hlmmem : lm ∈ genderAllOf anchor teams c g := by
      unfold lockedOf at hlk
      exact List.mem_of_find?_eq_some hlk
    have hpeq : pendingOf anchor teams c g =
        (genderAllOf anchor teams c g).filter (fun p => !(p.id = lm.id)) := by
      unfold pendingOf
      rw [hlk]
    have hpnd : ((pendingOf anchor teams c g).map Player.id).Nodup := by
      rw [hpeq]
      exact nodup_ids_filter _ _ hgnd
    have hbol := buildOrderedList_perm s hs anchor g1HelperId assignments c g
      (pendingOf anchor teams c g) hpnd
    have hext := nodup_extract_perm (genderAllOf anchor teams c g) lm hgnd hlmmem
    refine (hbol.cons lm).trans ?_
    rw [hpeq]
    exact hext.symm
  | none =>
    show buildOrderedList s anchor g1HelperId assignments c g
        (pendingOf anchor teams c g) ~ genderAllOf anchor teams c g
    have hpeq : pendingOf anchor teams c g = genderAllOf anchor teams c g := by
      unfold pendingOf
      rw [hlk]
    have hpnd : ((pendingOf anchor teams c g).map Player.id).Nodup := by
      rw [hpeq]
      exact hgnd
    have hbol := buildOrderedList_perm s hs anchor g1HelperId assignments c g
      (pendingOf anchor teams c g) hpnd
    refine hbol.trans ?_
    rw [hpeq]

/-- The double-shuffled flexible queue is a permutation of the raw
flexible members. -/
theorem teamPoolFlex_perm (s : Shuffler) (hs : s.Fair) (anchor : Option Player)
    (teams : List Team) (c : TeamColor) :
    teamPoolFlex s anchor teams c ~ flexibleRawOf anchor teams c := by
  unfold teamPoolFlex
  exact (hs.1 _ _).trans (hs.1 _ _)

/-- Per-color member ids are duplicate-free when the global roster is. -/
theorem membersOf_nodup_ids (teams : List Team)
    (hids : ((teams.flatMap Team.members).map Player.id).Nodup) (c : TeamColor) :
    ((membersOf teams c).map Player.id).Nodup := by
  unfold membersOf teamFor
  cases hfd : teams.find? (fun t => t.color = c) with
  | none => exact List.nodup_nil
  | some t =>
    have ht : t ∈ teams := List.mem_of_find?_eq_some hfd
    have hsub : t.members.Sublist (teams.flatMap Team.members) := by
      have h1 : t.members ∈ teams.map Team.members := List.mem_map_of_mem Team.members ht
      exact List.sublist_join_of_mem h1
    exact hids.sublist (hsub.map Player.id)

/-- With duplicate-free colors, the lookup by a team's own color
returns exactly that team's members. -/
theorem membersOf_eq_of_mem (teams : List Team) (hcol : (teams.map Team.color).Nodup)
    (t : Team) (ht : t ∈ teams) : membersOf teams t.color = t.members := by
  unfold membersOf teamFor
  induction teams with
  | nil => cases ht
  | cons u rest ih =>
    rw [List.map_cons, List.nodup_cons] at hcol
    rcases List.mem_cons.mp ht with heq | hmem
    · subst heq
      rw [List.find?_cons_of_pos _ (by simp)]
    · have hne : ¬(u.color = t.color) := by
        intro he
        apply hcol.1
        rw [he]
        exact List.mem_map_of_mem Team.color hmem
      rw [List.find?_cons_of_neg _ (by simp [hne])]
      exact ih hcol.2 hmem

/-- Any member of a looked-up pool comes from an actual input team of
that color. -/
theorem membersOf_source (teams : List Team) (c : TeamColor) (p : Player)
    (hp : p ∈ membersOf teams c) :
    ∃ t ∈ teams, t.color = c ∧ membersOf teams c = t.members := by
  unfold membersOf teamFor at hp ⊢
  cases hfd : teams.find? (fun t => t.color = c) with
  | none =>
    rw [hfd] at hp
    cases hp
  | some t =>
    refine ⟨t, List.mem_of_find?_eq_some hfd, ?_, ?_⟩
    · have hprd := List.find?_some hfd
      simpa using hprd
    · rfl

/-- An id sitting in two member lists of listed teams forces the teams
to coincide, under the global id Nodup. -/
theorem mem_two_teams (x : String) :
    ∀ teams : List Team, ((teams.flatMap Team.members).map Player.id).Nodup →
      ∀ t ∈ teams, ∀ t2 ∈ teams, x ∈ t.members.map Player.id →
        x ∈ t2.members.map Player.id → t = t2 := by
  intro teams
  induction teams with
  | nil =>
    intro _ t ht
    cases ht
  | cons u rest ih =>
    intro hnd t ht t2 ht2 hx1 hx2
    rw [List.flatMap_cons, List.map_append, List.nodup_append] at hnd
    have hrest : ∀ t3 ∈ rest, x ∈ t3.members.map Player.id →
        x ∈ (rest.flatMap Team.members).map Player.id := by
      intro t3 ht3 hx3
      rcases List.mem_map.mp hx3 with ⟨p, hp, hpx⟩
      rw [← hpx]
      exact List.mem_map_of_mem Player.id (List.mem_flatMap.mpr ⟨t3, ht3, hp⟩)
    rcases List.mem_cons.mp ht with h1 | h1 <;> rcases List.mem_cons.mp ht2 with h2 | h2
    · rw [h1, h2]
    · exfalso
      exact hnd.2.2 (by rw [← h1]; exact hx1) (hrest t2 h2 hx2)
    · exfalso
      exact hnd.2.2 (by rw [← h2]; exact hx2) (hrest t h1 hx1)
    · exact ih hnd.2.1 t h1 t2 h2 hx1 hx2

/-- Per color, the concatenated finished pools and queue are a
permutation of that color's member list. -/
theorem pool_content (s : Shuffler) (hs : s.Fair) (teams : List Team)
    (hids : ((teams.flatMap Team.members).map Player.id).Nodup) (c : TeamColor) :
    (matchCtxOf s teams).malesL c ++ ((matchCtxOf s teams).femalesL c ++
      ((matchCtxOf s teams).nonBinaryL c ++ (flexQueuesOf s teams).get c)) ~
      membersOf teams c := by
  have hm : (matchCtxOf s teams).malesL c = teamPoolGender s (anchorOf teams)
      (game1HelperIdOf teams) (assignmentsOf s teams) teams c .male := rfl
  have hf : (matchCtxOf s teams).femalesL c = teamPoolGender s (anchorOf teams)
      (game1HelperIdOf teams) (assignmentsOf s teams) teams c .female := rfl
  have hnb : (matchCtxOf s teams).nonBinaryL c = teamPoolGender s (anchorOf teams)
      (game1HelperIdOf teams) (assignmentsOf s teams) teams c .nonBinary := rfl
  have hq : (flexQueuesOf s teams).get c = teamPoolFlex s (anchorOf teams) teams c := by
    cases c <;> rfl
  rw [hm, hf, hnb, hq]
  have hnd := membersOf_nodup_ids teams hids c
  have h1 := teamPoolGender_perm s hs (anchorOf teams) (game1HelperIdOf teams)
    (assignmentsOf s teams) teams c .male hnd
  have h2 := teamPoolGender_perm s hs (anchorOf teams) (game1HelperIdOf teams)
    (assignmentsOf s teams) teams c .female hnd
  have h3 := teamPoolGender_perm s hs (anchorOf teams) (game1HelperIdOf teams)
    (assignmentsOf s teams) teams c .nonBinary hnd
  have h4 := teamPoolFlex_perm s hs (anchorOf teams) teams c
  have h5 := genderAll_partition (anchorOf teams) teams c
  have h6 := members_partition (anchorOf teams) teams c
  rw [List.perm_iff_count]
  intro a
  have c1 := List.perm_iff_count.mp h1 a
  have c2 := List.perm_iff_count.mp h2 a
  have c3 := List.perm_iff_count.mp h3 a
  have c4 := List.perm_iff_count.mp h4 a
  have c5 := List.perm_iff_count.mp h5 a
  have c6 := List.perm_iff_count.mp h6 a
  simp only [List.count_append] at c1 c2 c3 c4 c5 c6 ⊢
  omega

/-- Every built row lists the colors in fixed order. -/
theorem rowStep_colors (ctx : MatchCtx) (g : Gender) (i : Nat) :
    ∀ (cs : List TeamColor) (acc : List MatchupPlayer) (fq : FlexQueues),
      ((cs.foldl (rowStep ctx g i) (acc, fq)).1).map MatchupPlayer.color =
        acc.map MatchupPlayer.color ++ cs := by
  intro cs
  induction cs with
  | nil =>
    intro acc fq
    simp
  | cons c0 cs ih =>
    intro acc fq
    have hstep : ((c0 :: cs).foldl (rowStep ctx g i) (acc, fq)) =
        cs.foldl (rowStep ctx g i) (acc ++ [⟨c0, (getNextPlayer ctx c0 g i fq).1⟩],
          (getNextPlayer ctx c0 g i fq).2) := rfl
    rw [hstep, ih]
    simp

theorem buildRow_colors (ctx : MatchCtx) (g : Gender) (i : Nat) (fq : FlexQueues) :
    ((buildRow ctx g i fq).1).map MatchupPlayer.color = teamColorsList := by
  rw [buildRow_eq_foldl, rowStep_colors]
  rfl

theorem pushRow_colors (acc : List Matchup) (row : List MatchupPlayer)
    (hacc : ∀ r ∈ acc, r.players.map MatchupPlayer.color = teamColorsList)
    (hrow : row.map MatchupPlayer.color = teamColorsList) :
    ∀ r ∈ pushRow acc row, r.players.map MatchupPlayer.color = teamColorsList := by
  intro r hr
  unfold pushRow at hr
  by_cases h : row.any (fun e => e.player.isSome) = true
  · rw [if_pos h] at hr
    rcases List.mem_append.mp hr with h1 | h1
    · exact hacc r h1
    · rw [List.mem_singleton] at h1
      rw [h1]
      exact hrow
  · rw [if_neg h] at hr
    exact hacc r hr

/-- The emission loop only appends color-complete rows. -/
theorem emitLoop_colors (ctx : MatchCtx) :
    ∀ (fuel : Nat) (m f nb : Nat) (pm : Bool) (fq : FlexQueues) (acc : List Matchup),
      (∀ r ∈ acc, r.players.map MatchupPlayer.color = teamColorsList) →
      ∀ r ∈ (emitLoop ctx fuel m f nb pm fq acc).1,
        r.players.map MatchupPlayer.color = teamColorsList := by
  intro fuel
  induction fuel with
  | zero =>
    intro m f nb pm fq acc hacc
    exact hacc
  | succ k ih =>
    intro m f nb pm fq acc hacc r hr
    rw [emitLoop] at hr
    by_cases h1 : m < ctx.M ∨ f < ctx.F ∨ nb < ctx.NB
    · rw [if_pos h1] at hr
      by_cases h2 : pm ∧ m < ctx.M
      · rw [if_pos h2] at hr
        exact ih _ _ _ _ _ _ (pushRow_colors _ _ hacc (buildRow_colors ctx .male m fq)) r hr
      · rw [if_neg h2] at hr
        by_cases h3 : ¬pm ∧ f < ctx.F
        · rw [if_pos h3] at hr
          exact ih _ _ _ _ _ _ (pushRow_colors _ _ hacc (buildRow_colors ctx .female f fq))
            r hr
        · rw [if_neg h3] at hr
          by_cases h4 : m < ctx.M
          · rw [if_pos h4] at hr
            exact ih _ _ _ _ _ _ (pushRow_colors _ _ hacc (buildRow_colors ctx .male m fq))
              r hr
          · rw [if_neg h4] at hr
            by_cases h5 : f < ctx.F
            · rw [if_pos h5] at hr
              exact ih _ _ _ _ _ _
                (pushRow_colors _ _ hacc (buildRow_colors ctx .female f fq)) r hr
            · rw [if_neg h5] at hr
              by_cases h6 : nb < ctx.NB
              · rw [if_pos h6] at hr
                exact ih _ _ _ _ _ _
                  (pushRow_colors _ _ hacc (buildRow_colors ctx .nonBinary nb fq)) r hr
              · rw [if_neg h6] at hr
                exact hacc r hr
    · rw [if_neg h1] at hr
      exact hacc r hr

/-- The flexible drain only appends color-complete rows. -/
theorem drainFlex_colors :
    ∀ (fuel : Nat) (fq : FlexQueues) (acc : List Matchup),
      (∀ r ∈ acc, r.players.map MatchupPlayer.color = teamColorsList) →
      ∀ r ∈ drainFlex fuel fq acc, r.players.map MatchupPlayer.color = teamColorsList := by
  intro fuel
  induction fuel with
  | zero =>
    intro fq acc hacc
    exact hacc
  | succ k ih =>
    intro fq acc hacc r hr
    rw [drainFlex] at hr
    by_cases h : teamColorsList.any (fun c => !(fq.get c).isEmpty) = true
    · rw [if_pos h] at hr
      refine ih _ _ (pushRow_colors _ _ hacc ?_) r hr
      rw [List.map_map]
      exact List.map_id teamColorsList
    · rw [if_neg h] at hr
      exact hacc r hr

/-- Every emitted row carries one entry per configured color, in order. -/
theorem generateRows_colors (s : Shuffler) (teams : List Team) :
    ∀ r ∈ generateRows s teams, r.players.map MatchupPlayer.color = teamColorsList := by
  unfold generateRows
  apply drainFlex_colors
  apply emitLoop_colors
  by_cases h : ((match anchorOf teams with
      | some a => decide (a.gender = Gender.nonBinary)
      | none => false) = true) ∧ 0 < (matchCtxOf s teams).NB
  · rw [if_pos h]
    apply pushRow_colors
    · intro r hr
      cases hr
    · exact buildRow_colors (matchCtxOf s teams) .nonBinary 0 (flexQueuesOf s teams)
  · rw [if_neg h]
    intro r hr
    cases hr

/-- Renumbering does not change a column. -/
theorem columnPlayers_enumFrom (c : TeamColor) :
    ∀ (rows : List Matchup) (n : Nat),
      columnPlayers ((rows.enumFrom n).map
        (fun im => ⟨im.1 + 1, im.2.players⟩)) c = columnPlayers rows c := by
  intro rows
  induction rows with
  | nil =>
    intro n
    rfl
  | cons r t ih =>
    intro n
    rw [List.enumFrom_cons]
    simp only [List.map_cons]
    have hcons : columnPlayers (({ id := n + 1, players := r.players } : Matchup) ::
        (t.enumFrom (n + 1)).map (fun im => ⟨im.1 + 1, im.2.players⟩)) c =
        cellsFor r.players c ++
          columnPlayers ((t.enumFrom (n + 1)).map (fun im => ⟨im.1 + 1, im.2.players⟩)) c :=
      rfl
    rw [hcons, ih (n + 1)]
    rfl

/-- The renumbered result has the same columns as the emitted rows
(the degenerate all-null fallback contributes an empty column). -/
theorem columnPlayers_generateMatchups (s : Shuffler) (teams : List Team) (c : TeamColor) :
    columnPlayers (generateMatchups s teams) c = columnPlayers (generateRows s teams) c := by
  unfold generateMatchups
  by_cases h : (generateRows s teams).length = 0
  · rw [if_pos h]
    rw [List.length_eq_zero] at h
    rw [h]
    have hz := cellsFor_colorRow (fun _ => none) c
    simp [columnPlayers] at hz ⊢
    exact hz
  · rw [if_neg h]
    exact columnPlayers_enumFrom c (generateRows s teams) 0

/-- C9. For a well-formed team list — duplicate-free team colors and
globally duplicate-free player ids — with at least one player, the
matchup grid schedules every player exactly once and in the right
place: every returned matchup has exactly one entry per configured
color in fixed order; each color's column (all non-null players of that
color's cells, over all matchups) is a permutation of that color's team
member list; every member of every input team occurs exactly once in
the column of their own team's color; and no player ever appears in two
different columns. -/
theorem claim_C9 (s : Shuffler) (hs : s.Fair) (teams : List Team)
    (hcolors : (teams.map Team.color).Nodup)
    (hids : ((teams.flatMap Team.members).map Player.id).Nodup)
    (hne : teams.flatMap Team.members ≠ []) :
    (∀ m ∈ generateMatchups s teams, m.players.map MatchupPlayer.color = teamColorsList) ∧
    (∀ t ∈ teams, membersOf teams t.color = t.members) ∧
    (∀ c ∈ teamColorsList, columnPlayers (generateMatchups s teams) c ~ membersOf teams c) ∧
    (∀ c ∈ teamColorsList, ∀ p ∈ membersOf teams c,
      (columnPlayers (generateMatchups s teams) c).count p = 1) ∧
    (∀ c ∈ teamColorsList, ∀ c2 ∈ teamColorsList, ∀ p : Player,
      p ∈ columnPlayers (generateMatchups s teams) c →
      p ∈ columnPlayers (generateMatchups s teams) c2 → c = c2) := by
  have hcol3 : ∀ c ∈ teamColorsList,
      columnPlayers (generateMatchups s teams) c ~ membersOf teams c := by
    intro c hc
    rw [columnPlayers_generateMatchups s teams c]
    exact (generateRows_cols s teams c hc).trans (pool_content s hs teams hids c)
  refine ⟨?_, ?_, hcol3, ?_, ?_⟩
  · intro m hm
    unfold generateMatchups at hm
    by_cases h : (generateRows s teams).length = 0
    · rw [if_pos h] at hm
      rw [List.mem_singleton] at hm
      rw [hm]
      show (teamColorsList.map (fun c => MatchupPlayer.mk c none)).map MatchupPlayer.color =
        teamColorsList
      rw [List.map_map]
      exact List.map_id teamColorsList
    · rw [if_neg h] at hm
      obtain ⟨im, him, himeq⟩ := List.mem_map.mp hm
      have hrow := snd_mem_of_mem_enumFrom (generateRows s teams) 0 im him
      have hcols := generateRows_colors s teams im.2 hrow
      rw [← himeq]
      exact hcols
  · intro t ht
    exact membersOf_eq_of_mem teams hcolors t ht
  · intro c hc p hp
    rw [List.Perm.count_eq (hcol3 c hc) p]
    have hmnd : (membersOf teams c).Nodup :=
      List.Nodup.of_map Player.id (membersOf_nodup_ids teams hids c)
    exact List.count_eq_one_of_mem hmnd hp
  · intro c hc c2 hc2 p hp1 hp2
    have hm1 : p ∈ membersOf teams c := (hcol3 c hc).mem_iff.mp hp1
    have hm2 : p ∈ membersOf teams c2 := (hcol3 c2 hc2).mem_iff.mp hp2
    obtain ⟨t1, ht1, hc1eq, hm1eq⟩ := membersOf_source teams c p hm1
    obtain ⟨t2, ht2, hc2eq, hm2eq⟩ := membersOf_source teams c2 p hm2
    have hx1 : p.id ∈ t1.members.map Player.id := by
      rw [← hm1eq]
      exact List.mem_map_of_mem Player.id hm1
    have hx2 : p.id ∈ t2.members.map Player.id := by
      rw [← hm2eq]
      exact List.mem_map_of_mem Player.id hm2
    have ht12 : t1 = t2 := mem_two_teams p.id teams hids t1 ht1 t2 ht2 hx1 hx2
    rw [← hc1eq, ← hc2eq, ht12]

/-- Witness for C9 at a concrete one-team roster with the identity
shuffler. -/
theorem claim_C9_witness :
    (∀ m ∈ generateMatchups idShuffler [⟨.red, [⟨"a", "A", .male, 0, false, false⟩], "x", 0⟩],
      m.players.map MatchupPlayer.color = teamColorsList) ∧
    (∀ t ∈ [(⟨.red, [⟨"a", "A", .male, 0, false, false⟩], "x", 0⟩ : Team)],
      membersOf [⟨.red, [⟨"a", "A", .male, 0, false, false⟩], "x", 0⟩] t.color = t.members) ∧
    (∀ c ∈ teamColorsList,
      columnPlayers (generateMatchups idShuffler
        [⟨.red, [⟨"a", "A", .male, 0, false, false⟩], "x", 0⟩]) c ~
        membersOf [⟨.red, [⟨"a", "A", .male, 0, false, false⟩], "x", 0⟩] c) ∧
    (∀ c ∈ teamColorsList,
      ∀ p ∈ membersOf [⟨.red, [⟨"a", "A", .male, 0, false, false⟩], "x", 0⟩] c,
      (columnPlayers (generateMatchups idShuffler
        [⟨.red, [⟨"a", "A", .male, 0, false, false⟩], "x", 0⟩]) c).count p = 1) ∧
    (∀ c ∈ teamColorsList, ∀ c2 ∈ teamColorsList, ∀ p : Player,
      p ∈ columnPlayers (generateMatchups idShuffler
        [⟨.red, [⟨"a", "A", .male, 0, false, false⟩], "x", 0⟩]) c →
      p ∈ columnPlayers (generateMatchups idShuffler
        [⟨.red, [⟨"a", "A", .male, 0, false, false⟩], "x", 0⟩]) c2 → c = c2) :=
  claim_C9 idShuffler idShuffler_fair
    [⟨.red, [⟨"a", "A", .male, 0, false, false⟩], "x", 0⟩]
    (by decide) (by decide) (by decide)

end Squid
